import Mathlib

/-!
# RAIG testbed: structural state evolution, state machine and stimulus source

Shallow embedding of `src/genesis_core/evolution_operator.cpp`,
`src/genesis_core/genesis_core.cpp`, `src/world/world_interface.cpp` and
`src/runtime/runtime_supervisor.cpp`.

C++ `double` is modelled bit-exactly as IEEE-754 binary64 (`Dbl`): the sign,
the 11 exponent bits and the 52 fraction bits of every finite value, the two
infinities, and one NaN (payloads are not distinguished).  Every arithmetic
operation computes the exact result and rounds it to nearest, ties to even, one
operation at a time (no fused multiply-add, no extended precision).

Every finite binary64 value is an integer multiple of `2^-1074`; `Dbl.key`
is that integer, and the arithmetic below works on keys.
-/

set_option exponentiation.threshold 10000
set_option maxRecDepth 20000

namespace raig

/-! ## IEEE-754 binary64 -/

/-- A binary64 value: NaN, a signed infinity, or a finite value given by its
sign bit, biased exponent field (0 .. 2046) and fraction field (52 bits). -/
inductive Dbl where
  | nan : Dbl
  | inf (neg : Bool) : Dbl
  | fin (neg : Bool) (ebits : Fin 2047) (frac : Fin 4503599627370496) : Dbl
  deriving DecidableEq

namespace Dbl

/-- The number of `2^-1074` units in one: `2^1074`. -/
def unit : Nat := 2 ^ 1074

/-- The key of the infinities: `2^1024` in units of `2^-1074`. -/
def infKey : Nat := 2 ^ 2098

/-- Magnitude of a finite value in units of `2^-1074`: the fraction for a
subnormal, `(2^52 + frac) * 2^(ebits-1)` for a normal value. -/
def magKey (ebits : Fin 2047) (frac : Fin 4503599627370496) : Nat :=
  if ebits.val = 0 then frac.val else (4503599627370496 + frac.val) * 2 ^ (ebits.val - 1)

/-- Signed value in units of `2^-1074` (`0` for NaN, `±2^2098` for the infinities). -/
def key : Dbl → Int
  | nan => 0
  | inf false => (infKey : Int)
  | inf true => -(infKey : Int)
  | fin false E F => (magKey E F : Int)
  | fin true E F => -(magKey E F : Int)

def isNaN : Dbl → Bool
  | nan => true
  | _ => false

/-- The `std::isfinite` classification. -/
def isFinite : Dbl → Bool
  | fin _ _ _ => true
  | _ => false

/-- Sign bit (`false` for NaN). -/
def signBit : Dbl → Bool
  | nan => false
  | inf s => s
  | fin s _ _ => s

def zero : Dbl := fin false 0 0
def negZero : Dbl := fin true 0 0

/-- Floor of the binary logarithm by halving the search window `l` times;
exact for `0 < n < 2^(2^l)`. -/
def log2Lvl : Nat → Nat → Nat
  | 0, _ => 0
  | l + 1, n =>
    if 2 ^ (2 ^ l) ≤ n then 2 ^ l + log2Lvl l (n / 2 ^ (2 ^ l)) else log2Lvl l n

/-- Floor of the binary logarithm by repeated halving (`fuel ≥ log2 n` steps). -/
def log2Fuel : Nat → Nat → Nat
  | 0, _ => 0
  | fuel + 1, n => if n ≤ 1 then 0 else log2Fuel fuel (n / 2) + 1

/-- Floor of the binary logarithm of `n > 0`. -/
def ilog2 (n : Nat) : Nat :=
  if n < 2 ^ (2 ^ 13) then log2Lvl 13 n else log2Fuel n n

/-- Exponent (in units of `2^-1074`) of the binary64 grid around `n / d`:
`max (floor (log2 (n / d)) - 52) 0`. -/
def gridExp (n d : Nat) : Nat :=
  let a := ilog2 n
  let b := ilog2 d
  if a < b + 53 then 0
  else
    let k := a - b
    if d * 2 ^ k ≤ n then k - 52 else k - 53

/-- Round `N / D` to the nearest integer, ties to even. -/
def rne (N D : Nat) : Nat :=
  let q := N / D
  let r := N % D
  if 2 * r < D then q
  else if D < 2 * r then q + 1
  else if q % 2 = 0 then q else q + 1

/-- Encode the normal magnitude `m * 2^t` (units of `2^-1074`, `2^52 ≤ m < 2^53`) with
sign `neg`; overflows to infinity. -/
def packNormal (neg : Bool) (m t : Nat) : Dbl :=
  if hE : t + 1 < 2047 then
    if hF : m - 4503599627370496 < 4503599627370496 then
      fin neg ⟨t + 1, hE⟩ ⟨m - 4503599627370496, hF⟩
    else nan
  else inf neg

/-- Encode the rounded magnitude `m * 2^t` (units of `2^-1074`, `m ≤ 2^53`, and
`2^52 ≤ m` unless `t = 0`) with sign `neg`: a subnormal, or a normal value after
renormalising `m = 2^53`. -/
def pack (neg : Bool) (m t : Nat) : Dbl :=
  if h : m < 4503599627370496 then fin neg 0 ⟨m, h⟩
  else if m = 9007199254740992 then packNormal neg 4503599627370496 (t + 1)
  else packNormal neg m t

/-- Round the positive rational `n / d` (in units of `2^-1074`) to binary64,
to nearest, ties to even. -/
def roundK (neg : Bool) (n d : Nat) : Dbl :=
  let t := gridExp n d
  pack neg (rne n (d * 2 ^ t)) t

/-- Round the signed rational `num / den` (in units of `2^-1074`); an exact
zero gets the sign `negZero`. -/
def roundS (negZero : Bool) (num : Int) (den : Nat) : Dbl :=
  if num = 0 then fin negZero 0 0
  else roundK (decide (num < 0)) num.natAbs den

/-- The value is `-0.0`. -/
def isNegZero (x : Dbl) : Bool := x.signBit && decide (x.key = 0)

/-- Unary minus. -/
def neg : Dbl → Dbl
  | nan => nan
  | inf s => inf (!s)
  | fin s E F => fin (!s) E F

/-- The function `std::fabs`. -/
def fabs : Dbl → Dbl
  | nan => nan
  | inf _ => inf false
  | fin _ E F => fin false E F

/-- Binary64 addition. -/
def add : Dbl → Dbl → Dbl
  | nan, _ => nan
  | _, nan => nan
  | inf s, inf t => if s = t then inf s else nan
  | inf s, fin _ _ _ => inf s
  | fin _ _ _, inf t => inf t
  | fin s E F, fin t G H =>
    roundS (s && t) (key (fin s E F) + key (fin t G H)) 1

/-- Binary64 subtraction. -/
def sub (x y : Dbl) : Dbl := add x (neg y)

/-- Binary64 multiplication. -/
def mul : Dbl → Dbl → Dbl
  | nan, _ => nan
  | _, nan => nan
  | inf s, inf t => inf (xor s t)
  | inf s, fin t G H => if magKey G H = 0 then nan else inf (xor s t)
  | fin s E F, inf t => if magKey E F = 0 then nan else inf (xor s t)
  | fin s E F, fin t G H =>
    roundS (xor s t) (key (fin s E F) * key (fin t G H)) unit

/-- Binary64 division. -/
def div : Dbl → Dbl → Dbl
  | nan, _ => nan
  | _, nan => nan
  | inf _, inf _ => nan
  | inf s, fin t _ _ => inf (xor s t)
  | fin s _ _, inf t => fin (xor s t) 0 0
  | fin s E F, fin t G H =>
    if magKey G H = 0 then
      if magKey E F = 0 then nan else inf (xor s t)
    else
      roundS (xor s t) ((if xor s t then -1 else 1) * ((magKey E F * unit : Nat) : Int))
        (magKey G H)

/-- The comparison `x < y` (false when either side is NaN). -/
def lt (x y : Dbl) : Bool := !x.isNaN && !y.isNaN && decide (x.key < y.key)

/-- The comparison `x <= y` (false when either side is NaN). -/
def le (x y : Dbl) : Bool := !x.isNaN && !y.isNaN && decide (x.key ≤ y.key)

/-- The comparison `x > y`. -/
def gt (x y : Dbl) : Bool := lt y x

/-- The comparison `x >= y`. -/
def ge (x y : Dbl) : Bool := le y x

/-- The comparison `x == y` (false when either side is NaN; `+0 == -0`). -/
def eq (x y : Dbl) : Bool := !x.isNaN && !y.isNaN && decide (x.key = y.key)

/-- The function `std::fmax`: a NaN operand is ignored; of two operands that
compare equal the first is returned. -/
def fmax (x y : Dbl) : Dbl := if ge x y || y.isNaN then x else y

/-- The function `std::fmin`: a NaN operand is ignored; of two operands that
compare equal the first is returned. -/
def fmin (x y : Dbl) : Dbl := if le x y || y.isNaN then x else y

/-- Conversion of an unsigned integer to binary64. -/
def ofNat (n : Nat) : Dbl := roundS false ((n * unit : Nat) : Int) 1

/-- The decimal literal `n * 10^-k`, correctly rounded. -/
def ofDec (n k : Nat) : Dbl := roundS false ((n * unit : Nat) : Int) (10 ^ k)

def one : Dbl := ofNat 1

/-! ### Notions used to state the rounding lemmas -/

/-- A magnitude (in units of `2^-1074`) that a finite binary64 value can have. -/
def Rep (k : Nat) : Prop := ∃ m s : Nat, k = m * 2 ^ s ∧ m < 2 ^ 53 ∧ s ≤ 2045

/-- Magnitude of the rounded value of `n / d`, in units of `2^-1074`. -/
def roundMag (n d : Nat) : Nat :=
  min (rne n (d * 2 ^ gridExp n d) * 2 ^ gridExp n d) infKey

/-- A signed value (in units of `2^-1074`) that a finite binary64 value can have. -/
def RepI (b : Int) : Prop := ∃ k : Nat, Rep k ∧ (b = (k : Int) ∨ b = -(k : Int))

/-- The resolution used for bounds: `2^-24`, in units of `2^-1074`. -/
def fine : Nat := 2 ^ 1050

/-- The bound `Bd x lo hi`: `x` is finite and `lo * 2^-24 ≤ x ≤ hi * 2^-24`. -/
def Bd (x : Dbl) (lo hi : Int) : Prop :=
  x.isFinite = true ∧ lo * (fine : Int) ≤ x.key ∧ x.key ≤ hi * (fine : Int)

end Dbl

/-! ## genesis_core: data model (`genesis_core.hpp`, `structural_state_internal.hpp`) -/

/-- The struct `InitialConditions`; `seed` is a `uint64_t`. -/
structure InitialConditions where
  seed : Nat := 0

/-- The struct `WorldStimulus`. -/
structure WorldStimulus where
  a : Dbl := Dbl.zero
  b : Dbl := Dbl.zero
  deriving DecidableEq

/-- The enum `DeathReason`. -/
inductive DeathReason where
  | None
  | NonFinite
  | PhiOverflow
  | KappaZero
  deriving DecidableEq

/-- The struct `DiagnosticSnapshot`; `step` is a `uint64_t`. -/
structure DiagnosticSnapshot where
  step : Nat := 0
  kappa : Dbl := Dbl.zero
  phi : Dbl := Dbl.zero
  dmag : Dbl := Dbl.zero
  mmag : Dbl := Dbl.zero
  alive : Bool := true
  death_reason : DeathReason := DeathReason.None
  deriving DecidableEq

/-- The struct `StructuralState` with its default member initialisers. -/
structure StructuralState where
  delta : Dbl := Dbl.zero
  phi : Dbl := Dbl.zero
  m : Dbl := Dbl.zero
  kappa : Dbl := Dbl.one
  deriving DecidableEq

/-! ## genesis_core: evolution operator (`evolution_operator.cpp`) -/

def is_finite (x : Dbl) : Bool := x.isFinite

def clamp01 (x : Dbl) : Dbl :=
  let x1 := Dbl.fmax Dbl.zero x
  let x2 := Dbl.fmin Dbl.one x1
  x2

def kAlphaStim : Dbl := Dbl.ofDec 20 4
def kBetaDamp : Dbl := Dbl.ofDec 8 4
def kGammaPhi : Dbl := Dbl.ofDec 400 4
def kEtaStimPhi : Dbl := Dbl.ofDec 100 4
def kMuMemD : Dbl := Dbl.ofDec 6 4
def kNuMemPhi : Dbl := Dbl.ofDec 2 4
def kCkPhi : Dbl := Dbl.ofDec 15 5
def kCkMem : Dbl := Dbl.ofDec 1 5

def kPhiMax : Dbl := Dbl.ofNat 1000000
def kKappaEps : Dbl := Dbl.ofDec 1 12

/-- The candidate values computed by `evolve` before validation. -/
structure Candidate where
  delta_new : Dbl
  phi_new : Dbl
  mem_inc : Dbl
  m_new : Dbl
  kappa_new : Dbl

/-- Steps 1 to 5 of `evolve`: the locals `delta_new`, `phi_new`, `mem_inc`, `m_new`
and the clamped `kappa_new`. -/
def candidate (X : StructuralState) (s : WorldStimulus) : Candidate :=
  let sa := s.a
  let sb := s.b
  let stim_dir := Dbl.sub sa sb
  let stim_pow := Dbl.add (Dbl.mul sa sa) (Dbl.mul sb sb)
  let delta_new :=
    Dbl.sub (Dbl.add X.delta (Dbl.mul kAlphaStim stim_dir))
      (Dbl.mul (Dbl.mul kBetaDamp X.kappa) X.delta)
  let target_phi := Dbl.add (Dbl.mul delta_new delta_new) (Dbl.mul kEtaStimPhi stim_pow)
  let phi_new :=
    Dbl.add (Dbl.mul (Dbl.sub Dbl.one kGammaPhi) X.phi) (Dbl.mul kGammaPhi target_phi)
  let d_abs := Dbl.fabs delta_new
  let phi_abs := Dbl.fabs phi_new
  let mem_inc := Dbl.add (Dbl.mul kMuMemD d_abs) (Dbl.mul kNuMemPhi phi_abs)
  let m_new := Dbl.add X.m mem_inc
  let kappa_new :=
    clamp01 (Dbl.sub (Dbl.sub X.kappa (Dbl.mul kCkPhi phi_new)) (Dbl.mul kCkMem mem_inc))
  { delta_new := delta_new, phi_new := phi_new, mem_inc := mem_inc, m_new := m_new,
    kappa_new := kappa_new }

/-- The function `evolve`: the state after the call and the returned reason. -/
def evolve (X : StructuralState) (s : WorldStimulus) : StructuralState × DeathReason :=
  if !is_finite s.a || !is_finite s.b then
    ({ X with kappa := Dbl.zero }, DeathReason.NonFinite)
  else
    let c := candidate X s
    if !is_finite c.delta_new || !is_finite c.phi_new || !is_finite c.m_new
        || !is_finite c.kappa_new then
      ({ X with kappa := Dbl.zero }, DeathReason.NonFinite)
    else if Dbl.gt c.phi_new kPhiMax then
      ({ X with kappa := Dbl.zero }, DeathReason.PhiOverflow)
    else if Dbl.le c.kappa_new kKappaEps then
      ({ X with kappa := Dbl.zero }, DeathReason.KappaZero)
    else
      ({ delta := c.delta_new, phi := c.phi_new, m := c.m_new, kappa := c.kappa_new },
        DeathReason.None)

/-! ## genesis_core: state machine (`genesis_core.cpp`)

`X_` is allocated by the constructor and released only by the destructor, so
during the lifetime of a `GenesisCore` it is non-null and the two null guards
never fire; the pointer is modelled by the state it points to. -/

/-- The class `GenesisCore`; `step_` is a `uint64_t`. -/
structure GenesisCore where
  X_ : StructuralState
  step_ : Nat
  alive_ : Bool
  death_reason_ : DeathReason
  deriving DecidableEq

/-- The constructor `GenesisCore::GenesisCore`; the initial conditions are ignored. -/
def GenesisCore.construct (_init : InitialConditions) : GenesisCore :=
  { X_ := {}, step_ := 0, alive_ := true, death_reason_ := DeathReason.None }

/-- The method `GenesisCore::step`: the returned flag and the object afterwards. -/
def GenesisCore.step (g : GenesisCore) (stimulus : WorldStimulus) : Bool × GenesisCore :=
  if !g.alive_ then (false, g)
  else
    let r := evolve g.X_ stimulus
    let g1 : GenesisCore := { g with X_ := r.1, step_ := (g.step_ + 1) % 2 ^ 64 }
    if r.2 ≠ DeathReason.None then
      (true, { g1 with alive_ := false, death_reason_ := r.2 })
    else (true, g1)

/-- The method `GenesisCore::alive`. -/
def GenesisCore.alive (g : GenesisCore) : Bool := g.alive_

/-- The method `GenesisCore::diagnostics`. -/
def GenesisCore.diagnostics (g : GenesisCore) : DiagnosticSnapshot :=
  { step := g.step_
    kappa := g.X_.kappa
    phi := g.X_.phi
    dmag := if Dbl.ge g.X_.delta Dbl.zero then g.X_.delta else Dbl.neg g.X_.delta
    mmag := g.X_.m
    alive := g.alive_
    death_reason := g.death_reason_ }

/-- The object after calling `step` with each stimulus of the list in turn. -/
def GenesisCore.run (g : GenesisCore) : List WorldStimulus → GenesisCore
  | [] => g
  | s :: rest => GenesisCore.run (g.step s).2 rest

/-! ## world: stimulus source (`world_interface.cpp`) -/

/-- The function `xorshift64` on a `uint64_t`. -/
def xorshift64 (x : Nat) : Nat :=
  let x1 := x ^^^ ((x <<< 13) % 2 ^ 64)
  let x2 := x1 ^^^ (x1 >>> 7)
  let x3 := x2 ^^^ ((x2 <<< 17) % 2 ^ 64)
  x3

/-- The struct `WorldConfig`; `seed` is a `uint64_t`. -/
structure WorldConfig where
  seed : Nat := 1

/-- The class `WorldInterface`; `state_` is a `uint64_t`. -/
structure WorldInterface where
  state_ : Nat
  deriving DecidableEq

/-- The constructor `WorldInterface::WorldInterface`. -/
def WorldInterface.construct (cfg : WorldConfig) : WorldInterface :=
  { state_ := if cfg.seed ≠ 0 then cfg.seed else 1 }

/-- The method `WorldInterface::next`: the stimulus and the object afterwards
(`Dbl.ofDec 10000 1` is the literal `1000.0`). -/
def WorldInterface.next (w : WorldInterface) : WorldStimulus × WorldInterface :=
  let r1 := xorshift64 w.state_
  let r2 := xorshift64 r1
  ({ a := Dbl.div (Dbl.ofNat (r1 % 1000)) (Dbl.ofDec 10000 1)
     b := Dbl.div (Dbl.ofNat (r2 % 1000)) (Dbl.ofDec 10000 1) },
   { state_ := r2 })

/-- The stimulus source after `n` calls of `next`. -/
def WorldInterface.after : Nat → WorldInterface → WorldInterface
  | 0, w => w
  | n + 1, w => WorldInterface.after n (w.next).2

/-- The stimulus returned by call number `n + 1` of `next` (draw `n`, counted from 0). -/
def WorldInterface.draw (n : Nat) (w : WorldInterface) : WorldStimulus :=
  ((WorldInterface.after n w).next).1

/-- The first `n` stimuli drawn from a stimulus source. -/
def WorldInterface.draws : Nat → WorldInterface → List WorldStimulus
  | 0, _ => []
  | n + 1, w => (w.next).1 :: WorldInterface.draws n (w.next).2

/-! ## runtime (`runtime_supervisor.cpp`) -/

/-- The struct `RuntimeConfig`; `max_steps` is a `uint64_t`. -/
structure RuntimeConfig where
  max_steps : Nat
  pace_ms : Int := 0

/-- The class `RuntimeSupervisor`. -/
structure RuntimeSupervisor where
  cfg_ : RuntimeConfig

/-- The method `RuntimeSupervisor::should_continue`. -/
def RuntimeSupervisor.should_continue (r : RuntimeSupervisor) (step : Nat) : Bool :=
  decide (step < r.cfg_.max_steps)

/-! ## telemetry (`telemetry_emitter.cpp`)

The emitter appends one line per call to its output file; the file is modelled by the
list of snapshots written to it, oldest first (the text encoding is not modelled). -/

/-- The class `TelemetryEmitter`, with the records appended so far. -/
structure TelemetryEmitter where
  records : List DiagnosticSnapshot
  deriving DecidableEq

/-- The method `TelemetryEmitter::emit`. -/
def TelemetryEmitter.emit (t : TelemetryEmitter) (s : DiagnosticSnapshot) : TelemetryEmitter :=
  { records := t.records ++ [s] }

/-! ## The run loop of `main` (`main.cpp`) -/

/-- The objects of `main` and its local `step` (a `uint64_t`). -/
structure MainState where
  core : GenesisCore
  world : WorldInterface
  telemetry : TelemetryEmitter
  runtime : RuntimeSupervisor
  step : Nat

/-- The state of `main` when the loop is entered, for the given configurations. -/
def MainState.start (init : InitialConditions) (wcfg : WorldConfig) (rcfg : RuntimeConfig) :
    MainState :=
  { core := GenesisCore.construct init
    world := WorldInterface.construct wcfg
    telemetry := { records := [] }
    runtime := { cfg_ := rcfg }
    step := 0 }

/-- The loop condition `runtime.should_continue(step) && core.alive()`. -/
def MainState.cond (st : MainState) : Bool :=
  st.runtime.should_continue st.step && st.core.alive

/-- The loop body: draw a stimulus, step the core, emit the diagnostics, `++step`
(`runtime.pace()` only sleeps). -/
def MainState.body (st : MainState) : MainState :=
  let stimulus := st.world.next
  let core1 := (st.core.step stimulus.1).2
  let snap := core1.diagnostics
  { st with
    core := core1
    world := stimulus.2
    telemetry := st.telemetry.emit snap
    step := (st.step + 1) % 2 ^ 64 }

/-- The loop `while (cond) body`, cut off after `fuel` iterations. -/
def MainState.loop : Nat → MainState → MainState
  | 0, st => st
  | fuel + 1, st => if st.cond then MainState.loop fuel st.body else st

/-- Number of iterations the loop performs within `fuel` iterations. -/
def MainState.iterations : Nat → MainState → Nat
  | 0, _ => 0
  | fuel + 1, st => if st.cond then MainState.iterations fuel st.body + 1 else 0

/-! ## Notions used to state the claims -/

/-- The bookkeeping invariant of the state machine: `kappa` is a number in `[0, 1]`,
a dead machine has `kappa = +0`, and a reason is recorded exactly when dead. -/
def GenesisCore.Inv (g : GenesisCore) : Prop :=
  (g.X_.kappa.isNaN = false ∧ 0 ≤ g.X_.kappa.key ∧ g.X_.kappa.key ≤ Dbl.one.key) ∧
  (g.alive_ = false → g.X_.kappa = Dbl.zero) ∧
  (g.death_reason_ ≠ DeathReason.None ↔ g.alive_ = false)

/-- The update law in the words of the specification, with decimal literals. -/
def updateLaw (X : StructuralState) (s : WorldStimulus) : StructuralState :=
  let delta1 :=
    Dbl.sub (Dbl.add X.delta (Dbl.mul (Dbl.ofDec 2 3) (Dbl.sub s.a s.b)))
      (Dbl.mul (Dbl.mul (Dbl.ofDec 8 4) X.kappa) X.delta)
  let phi1 :=
    Dbl.add (Dbl.mul (Dbl.ofDec 96 2) X.phi)
      (Dbl.mul (Dbl.ofDec 4 2)
        (Dbl.add (Dbl.mul delta1 delta1)
          (Dbl.mul (Dbl.ofDec 1 2) (Dbl.add (Dbl.mul s.a s.a) (Dbl.mul s.b s.b)))))
  let inc :=
    Dbl.add (Dbl.mul (Dbl.ofDec 6 4) (Dbl.fabs delta1)) (Dbl.mul (Dbl.ofDec 2 4) (Dbl.fabs phi1))
  let m1 := Dbl.add X.m inc
  let kappa1 :=
    Dbl.fmin Dbl.one
      (Dbl.fmax Dbl.zero
        (Dbl.sub (Dbl.sub X.kappa (Dbl.mul (Dbl.ofDec 15 5) phi1))
          (Dbl.mul (Dbl.ofDec 1 5) inc)))
  { delta := delta1, phi := phi1, m := m1, kappa := kappa1 }

/-- Number of `step` calls of a run that were executed (returned `true`). -/
def GenesisCore.executed (g : GenesisCore) : List WorldStimulus → Nat
  | [] => 0
  | s :: rest =>
    (if (g.step s).1 then 1 else 0) + GenesisCore.executed (g.step s).2 rest

/-- The invariant of the run loop for the step cap `max`: the local `step`, the step
counter of the core and the number of emitted records agree, record `k` (from 0)
carries step `k + 1`, and only the last record can report a dead machine. -/
def MainState.Inv (max : Nat) (st : MainState) : Prop :=
  st.runtime.cfg_.max_steps = max ∧ st.step ≤ max ∧ st.core.step_ = st.step ∧
  st.telemetry.records.length = st.step ∧
  ∀ (k : Nat) (r : DiagnosticSnapshot), st.telemetry.records[k]? = some r →
    r.step = k + 1 ∧ (k + 1 < st.telemetry.records.length → r.alive = true) ∧
      (st.core.alive_ = true → r.alive = true)

/-- Facts that hold of the structural state in every state reached from a fresh
machine, whatever the stimuli: all four fields are finite, `delta` is not `-0.0`,
`0 ≤ 0.04 * delta^2 ≤ phi` and `0 ≤ kappa ≤ 1`. -/
def StructuralState.Sane (X : StructuralState) : Prop :=
  X.delta.isFinite = true ∧ X.delta.isNegZero = false ∧
  (Dbl.mul X.delta X.delta).isFinite = true ∧
  X.phi.isFinite = true ∧ 0 ≤ X.phi.key ∧
  (Dbl.mul kGammaPhi (Dbl.mul X.delta X.delta)).key ≤ X.phi.key ∧
  X.m.isFinite = true ∧
  X.kappa.isFinite = true ∧ 0 ≤ X.kappa.key ∧ X.kappa.key ≤ Dbl.one.key

/-- A stimulus with both components finite and in `[0, 1]`. -/
def StimOK (s : WorldStimulus) : Prop :=
  Dbl.Bd s.a 0 16777216 ∧ Dbl.Bd s.b 0 16777216

/-- Bounds kept by every committed state under such stimuli: `|delta| ≤ 512`,
`0 ≤ phi ≤ 8192`, `m` finite, `0 ≤ kappa ≤ 1`. -/
def StateOK (X : StructuralState) : Prop :=
  Dbl.Bd X.delta (-8589934592) 8589934592 ∧ Dbl.Bd X.phi 0 137438953472 ∧
    X.m.isFinite = true ∧ Dbl.Bd X.kappa 0 16777216

/-- The state machine invariant under bounded stimuli. -/
def GenesisCore.Bounded (g : GenesisCore) : Prop :=
  StateOK g.X_ ∧
    (g.death_reason_ = DeathReason.None ∨ g.death_reason_ = DeathReason.KappaZero)

/-- The run loop has consumed the first `n` stimuli of the source `w0` on a core started
from `init`, and has emitted the snapshot taken after each of them, in order. -/
def MainState.Trace (init : InitialConditions) (w0 : WorldInterface) (n : Nat)
    (st : MainState) : Prop :=
  st.core = GenesisCore.run (GenesisCore.construct init) (WorldInterface.draws n w0) ∧
  st.world = WorldInterface.after n w0 ∧
  st.telemetry.records =
    (List.range n).map (fun k =>
      (GenesisCore.run (GenesisCore.construct init)
        (WorldInterface.draws (k + 1) w0)).diagnostics)

/-! ## Notions used for the seeds of the stimulus source -/

/-- Bit 0 of each of the next `n` values returned by `xorshift64` from the state `x`. -/
def lowBits : Nat → Nat → List Bool
  | 0, _ => []
  | n + 1, x => (xorshift64 x).testBit 0 :: lowBits n (xorshift64 x)

/-- The exclusive-or of the entries of `cs` selected by the bits `bs`. -/
def recover : List Nat → List Bool → Nat
  | c :: cs, b :: bs => (if b then c else 0) ^^^ recover cs bs
  | _, _ => 0

/-- Coefficients that recover a 64-bit generator state from bit 0 of its next 64
outputs (`recover_lowBits`). -/
def recoveryTable : List Nat :=
  [
    17235300656508344808, 10842792154767364426, 11861477401142530924, 14154529017182104628,
    6385596388370554376, 691532738334620026, 5898541763365421178, 9711907597095275372,
    11686832921588846257, 14464720641952688440, 2882249153028451682, 14888891582250522771,
    3422076828540365017, 16943126684394861412, 8391591040338876758, 9105926864174755531,
    10454139813421337350, 2645037302714756190, 5572395287506874938, 16789175063486579193,
    14144171103483719746, 12917310659351395640, 16575214968581045135, 9196468559228725018,
    2804089106546801516, 12414680139536559922, 8049524218867403749, 16761362121958789851,
    3329047493701789002, 7221439097196008865, 6686695763040587866, 8797266091367109311,
    1350090377182759093, 5039640327213289804, 1483330272981337414, 16926079430631865660,
    8102114435301591277, 4487123005330979394, 4746104992440675285, 10611730223768939352,
    432480615466467932, 2547974180917765841, 12500005660831046206, 13003943877255823233,
    11694655578394963716, 2819194450729617097, 12805785859762399879, 16732199692265421102,
    17831669483028120299, 15622611656100841955, 4649198076426566543, 9604084415877887995,
    3499273926381543843, 7349930159865715534, 3234284937974697554, 1190751576819940071,
    1122887321797376076, 1636572852913295186, 3429814496891692058, 16121056615786247282,
    8649341513868404770, 12523919624944392464, 4102641269797740334, 765214667332754139]

/-! ## Comparison lemmas -/

theorem Dbl.le_iff (x y : Dbl) :
    Dbl.le x y = true ↔ x.isNaN = false ∧ y.isNaN = false ∧ x.key ≤ y.key := by
  simp [Dbl.le, and_assoc]

theorem Dbl.lt_iff (x y : Dbl) :
    Dbl.lt x y = true ↔ x.isNaN = false ∧ y.isNaN = false ∧ x.key < y.key := by
  simp [Dbl.lt, and_assoc]

theorem Dbl.one_eq : Dbl.one = Dbl.fin false 1023 0 := by decide

theorem Dbl.key_one : Dbl.one.key = (Dbl.unit : Int) := by decide

theorem Dbl.key_zero : Dbl.zero.key = 0 := by decide

/-- The result of `clamp01` is never NaN and lies between 0 and 1. -/
theorem clamp01_range (x : Dbl) :
    (clamp01 x).isNaN = false ∧ 0 ≤ (clamp01 x).key ∧ (clamp01 x).key ≤ Dbl.one.key := by
  have h1 : (Dbl.fmax Dbl.zero x).isNaN = false ∧ 0 ≤ (Dbl.fmax Dbl.zero x).key := by
    unfold Dbl.fmax
    split
    · exact ⟨rfl, by decide⟩
    · rename_i h
      simp only [Bool.or_eq_true, not_or, Bool.not_eq_true] at h
      obtain ⟨h1, h2⟩ := h
      refine ⟨h2, ?_⟩
      by_contra hk
      have : Dbl.ge Dbl.zero x = true := by
        rw [Dbl.ge, Dbl.le_iff]
        exact ⟨h2, rfl, by rw [Dbl.key_zero]; omega⟩
      simp [this] at h1
  obtain ⟨hn, hk⟩ := h1
  unfold clamp01
  simp only
  unfold Dbl.fmin
  split
  · rename_i h
    simp only [Bool.or_eq_true, hn] at h
    rcases h with h | h
    · refine ⟨by decide, by decide, le_refl _⟩
    · exact absurd h (by simp)
  · rename_i h
    simp only [Bool.or_eq_true, not_or, Bool.not_eq_true] at h
    refine ⟨hn, hk, ?_⟩
    by_contra hk2
    have : Dbl.le Dbl.one (Dbl.fmax Dbl.zero x) = true := by
      rw [Dbl.le_iff]
      exact ⟨by decide, hn, by omega⟩
    simp [this] at h


namespace Dbl

/-! ## Rounding: the binary logarithm -/

theorem log2Lvl_spec (l : Nat) :
    ∀ n : Nat, 0 < n → n < 2 ^ (2 ^ l) →
      2 ^ log2Lvl l n ≤ n ∧ n < 2 ^ (log2Lvl l n + 1) := by
  induction l with
  | zero =>
    intro n h0 h1
    have : n = 1 := by
      have : n < 2 := by simpa using h1
      omega
    subst this
    simp [log2Lvl]
  | succ l ih =>
    intro n h0 h1
    have hpow : 2 ^ (2 ^ (l + 1)) = 2 ^ (2 ^ l) * 2 ^ (2 ^ l) := by
      rw [← pow_add]; congr 1; rw [pow_succ]; omega
    have hpos : 0 < 2 ^ (2 ^ l) := Nat.pow_pos (by decide)
    unfold log2Lvl
    split
    · rename_i hge
      have hq0 : 0 < n / 2 ^ (2 ^ l) := Nat.div_pos hge hpos
      have hq1 : n / 2 ^ (2 ^ l) < 2 ^ (2 ^ l) := by
        rw [Nat.div_lt_iff_lt_mul hpos]
        rw [hpow] at h1
        exact h1
      obtain ⟨a, b⟩ := ih _ hq0 hq1
      constructor
      · rw [pow_add]
        calc 2 ^ (2 ^ l) * 2 ^ log2Lvl l (n / 2 ^ (2 ^ l))
            ≤ 2 ^ (2 ^ l) * (n / 2 ^ (2 ^ l)) := Nat.mul_le_mul_left _ a
          _ ≤ n := Nat.mul_div_le n _
      · have h3 : n < (n / 2 ^ (2 ^ l) + 1) * 2 ^ (2 ^ l) := by
          rw [← Nat.div_lt_iff_lt_mul hpos]
          exact Nat.lt_succ_self _
        have h4 : n / 2 ^ (2 ^ l) + 1 ≤ 2 ^ (log2Lvl l (n / 2 ^ (2 ^ l)) + 1) := b
        calc n < (n / 2 ^ (2 ^ l) + 1) * 2 ^ (2 ^ l) := h3
          _ ≤ 2 ^ (log2Lvl l (n / 2 ^ (2 ^ l)) + 1) * 2 ^ (2 ^ l) :=
              Nat.mul_le_mul_right _ h4
          _ = 2 ^ (2 ^ l + log2Lvl l (n / 2 ^ (2 ^ l)) + 1) := by
              rw [← pow_add]; congr 1; omega
    · rename_i hlt
      exact ih n h0 (by omega)

theorem log2Fuel_spec (fuel : Nat) :
    ∀ n : Nat, 0 < n → n < 2 ^ fuel →
      2 ^ log2Fuel fuel n ≤ n ∧ n < 2 ^ (log2Fuel fuel n + 1) := by
  induction fuel with
  | zero =>
    intro n h0 h1
    simp at h1
    omega
  | succ f ih =>
    intro n h0 h1
    unfold log2Fuel
    split
    · rename_i h
      have : n = 1 := by omega
      subst this
      simp
    · rename_i h
      have h2 : n / 2 < 2 ^ f := by
        rw [pow_succ] at h1
        omega
      obtain ⟨a, b⟩ := ih (n / 2) (by omega) h2
      rw [pow_succ, pow_succ]
      rw [pow_succ] at b
      constructor <;> omega

theorem ilog2_spec (n : Nat) (h : 0 < n) : 2 ^ ilog2 n ≤ n ∧ n < 2 ^ (ilog2 n + 1) := by
  unfold ilog2
  split
  · rename_i h1
    exact log2Lvl_spec 13 n h h1
  · exact log2Fuel_spec n n h (Nat.lt_two_pow n)

/-! ## Rounding: the grid exponent -/

theorem gridExp_spec (n d : Nat) (hn : 0 < n) (hd : 0 < d) :
    n < 2 ^ (gridExp n d + 53) * d ∧
      (0 < gridExp n d → 2 ^ (gridExp n d + 52) * d ≤ n) := by
  obtain ⟨a1, a2⟩ := ilog2_spec n hn
  obtain ⟨b1, b2⟩ := ilog2_spec d hd
  unfold gridExp
  simp only
  split
  · rename_i h
    refine ⟨?_, fun h0 => absurd h0 (by decide)⟩
    calc n < 2 ^ (ilog2 n + 1) := a2
      _ ≤ 2 ^ (ilog2 d + 53) := Nat.pow_le_pow_right (by decide) (by omega)
      _ = 2 ^ (0 + 53) * 2 ^ ilog2 d := by rw [← pow_add]; congr 1; omega
      _ ≤ 2 ^ (0 + 53) * d := Nat.mul_le_mul_left _ b1
  · rename_i h
    have hk : ilog2 d + 53 ≤ ilog2 n := by omega
    split
    · rename_i h2
      have e1 : ilog2 n - ilog2 d - 52 + 52 = ilog2 n - ilog2 d := by omega
      constructor
      · calc n < 2 ^ (ilog2 n + 1) := a2
          _ = 2 ^ (ilog2 n - ilog2 d - 52 + 53) * 2 ^ ilog2 d := by
              rw [← pow_add]; congr 1; omega
          _ ≤ 2 ^ (ilog2 n - ilog2 d - 52 + 53) * d := Nat.mul_le_mul_left _ b1
      · intro _
        rw [e1, Nat.mul_comm]
        exact h2
    · rename_i h2
      have e1 : ilog2 n - ilog2 d - 53 + 53 = ilog2 n - ilog2 d := by omega
      constructor
      · rw [e1, Nat.mul_comm]
        omega
      · intro h0
        have hlt : 2 ^ (ilog2 n - ilog2 d - 53 + 52) * d
            < 2 ^ (ilog2 n - ilog2 d - 53 + 52) * 2 ^ (ilog2 d + 1) :=
          Nat.mul_lt_mul_of_pos_left b2 (Nat.pow_pos (by decide))
        have e2 : 2 ^ (ilog2 n - ilog2 d - 53 + 52) * 2 ^ (ilog2 d + 1) = 2 ^ ilog2 n := by
          rw [← pow_add]; congr 1; omega
        omega


/-! ## Rounding: nearest integer -/

theorem rne_ge (N D k : Nat) (hD : 0 < D) (h : k * D ≤ N) : k ≤ rne N D := by
  have h1 : k ≤ N / D := (Nat.le_div_iff_mul_le hD).2 h
  unfold rne
  simp only
  split
  · exact h1
  · split
    · omega
    · split <;> omega

theorem rne_le (N D k : Nat) (hD : 0 < D) (h : N ≤ k * D) : rne N D ≤ k := by
  have hdm : D * (N / D) + N % D = N := Nat.div_add_mod N D
  have h1 : N / D ≤ k := by
    by_contra hc
    have h3 : (k + 1) * D ≤ N / D * D := Nat.mul_le_mul_right D (by omega)
    have h4 : N / D * D ≤ N := Nat.div_mul_le_self N D
    have h5 : (k + 1) * D = k * D + D := by ring
    omega
  by_cases hr : N % D = 0
  · unfold rne
    simp only [hr]
    simp [hD, h1]
  · have h2 : N / D < k := by
      by_contra hc
      have hq : N / D = k := by omega
      rw [hq, Nat.mul_comm] at hdm
      omega
    unfold rne
    simp only
    split
    · omega
    · split
      · omega
      · split <;> omega

/-! ## Rounding: encoding -/

theorem key_fin_zero (s : Bool) : (fin s 0 0).key = 0 := by
  cases s <;> rfl

theorem magKey_lt_infKey (E : Fin 2047) (F : Fin 4503599627370496) : magKey E F < infKey := by
  unfold magKey infKey
  have hF := F.isLt
  have hE := E.isLt
  split
  · calc F.val < 4503599627370496 := hF
      _ ≤ 2 ^ 2098 := by decide
  · calc (4503599627370496 + F.val) * 2 ^ (E.val - 1)
        < 9007199254740992 * 2 ^ (E.val - 1) :=
          Nat.mul_lt_mul_of_pos_right (by omega) (Nat.pow_pos (by decide))
      _ ≤ 9007199254740992 * 2 ^ 2045 :=
          Nat.mul_le_mul_left _ (Nat.pow_le_pow_right (by decide) (by omega))
      _ = 2 ^ 2098 := by decide

theorem rep_magKey (E : Fin 2047) (F : Fin 4503599627370496) : Rep (magKey E F) := by
  unfold magKey
  have hF := F.isLt
  have hE := E.isLt
  split
  · exact ⟨F.val, 0, by simp, by omega, by omega⟩
  · exact ⟨4503599627370496 + F.val, E.val - 1, rfl, by omega, by omega⟩

theorem rep_lt_infKey (k : Nat) (h : Rep k) : k < infKey := by
  obtain ⟨m, s, rfl, hm, hs⟩ := h
  unfold infKey
  calc m * 2 ^ s < 2 ^ 53 * 2 ^ s := Nat.mul_lt_mul_of_pos_right hm (Nat.pow_pos (by decide))
    _ ≤ 2 ^ 53 * 2 ^ 2045 := Nat.mul_le_mul_left _ (Nat.pow_le_pow_right (by decide) hs)
    _ = 2 ^ 2098 := by rw [← pow_add]

theorem magKey_mk_succ (e f : Nat) (hE : e + 1 < 2047) (hF : f < 4503599627370496) :
    magKey ⟨e + 1, hE⟩ ⟨f, hF⟩ = (4503599627370496 + f) * 2 ^ e := by
  unfold magKey
  simp only [Nat.add_one_ne_zero, if_false, Nat.add_sub_cancel]

theorem packNormal_isNaN (neg : Bool) (m t : Nat) (h1 : 2 ^ 52 ≤ m) (h2 : m < 2 ^ 53) :
    (packNormal neg m t).isNaN = false := by
  have hF : m - 4503599627370496 < 4503599627370496 := by omega
  unfold packNormal
  by_cases hE : t + 1 < 2047
  · simp only [hE, dite_true, hF, isNaN]
  · simp only [hE, dite_false, isNaN]

theorem packNormal_key (m t : Nat) (h1 : 2 ^ 52 ≤ m) (h2 : m < 2 ^ 53) :
    (packNormal false m t).key = ((min (m * 2 ^ t) infKey : Nat) : Int) ∧
      (packNormal true m t).key = -((min (m * 2 ^ t) infKey : Nat) : Int) := by
  have hF : m - 4503599627370496 < 4503599627370496 := by omega
  by_cases hE : t + 1 < 2047
  · have hk : ∀ s, packNormal s m t = fin s ⟨t + 1, hE⟩ ⟨m - 4503599627370496, hF⟩ := by
      intro s; unfold packNormal; simp only [hE, dite_true, hF]
    have hval : magKey ⟨t + 1, hE⟩ ⟨m - 4503599627370496, hF⟩ = m * 2 ^ t := by
      have e : 4503599627370496 + (m - 4503599627370496) = m := by omega
      rw [magKey_mk_succ, e]
    have hlt : m * 2 ^ t < infKey := by
      rw [← hval]; exact magKey_lt_infKey _ _
    rw [hk, hk, Nat.min_eq_left (le_of_lt hlt)]
    simp only [key, hval, and_self]
  · have hk : ∀ s, packNormal s m t = inf s := by
      intro s; unfold packNormal; simp only [hE, dite_false]
    have hge : infKey ≤ m * 2 ^ t := by
      unfold infKey
      calc 2 ^ 2098 = 2 ^ 52 * 2 ^ 2046 := by rw [← pow_add]
        _ ≤ m * 2 ^ t :=
            Nat.mul_le_mul h1 (Nat.pow_le_pow_right (by decide) (by omega))
    rw [hk, hk, Nat.min_eq_right hge]
    exact ⟨rfl, rfl⟩

theorem pack_isNaN (neg : Bool) (m t : Nat) (hm : m ≤ 2 ^ 53) : (pack neg m t).isNaN = false := by
  unfold pack
  by_cases h : m < 4503599627370496
  · simp only [h, dite_true, isNaN]
  · by_cases hm2 : m = 9007199254740992
    · rw [dif_neg h, if_pos hm2]
      exact packNormal_isNaN _ _ _ (by norm_num) (by norm_num)
    · simp only [h, dite_false, hm2, if_false]
      exact packNormal_isNaN _ _ _ (by omega) (by omega)

theorem pack_key (m t : Nat) (hm : m ≤ 2 ^ 53) (hnorm : 0 < t → 2 ^ 52 ≤ m) :
    (pack false m t).key = ((min (m * 2 ^ t) infKey : Nat) : Int) ∧
      (pack true m t).key = -((min (m * 2 ^ t) infKey : Nat) : Int) := by
  by_cases h : m < 4503599627370496
  · have ht : t = 0 := by
      by_contra h0
      have := hnorm (by omega)
      omega
    subst ht
    have hlt : m * 2 ^ 0 < infKey := by
      calc m * 2 ^ 0 < 4503599627370496 := by simpa using h
        _ ≤ infKey := by decide
    have hk : ∀ s, pack s m 0 = fin s 0 ⟨m, h⟩ := by
      intro s; unfold pack; simp only [h, dite_true]
    rw [hk, hk, Nat.min_eq_left (le_of_lt hlt)]
    simp [key, magKey]
  · by_cases hm2 : m = 9007199254740992
    · have hk : ∀ s, pack s m t = packNormal s 4503599627370496 (t + 1) := by
        intro s; unfold pack; rw [dif_neg h, if_pos hm2]
      have he : m * 2 ^ t = 4503599627370496 * 2 ^ (t + 1) := by
        rw [hm2, pow_succ]; omega
      rw [hk, hk, he]
      exact packNormal_key _ _ (by norm_num) (by norm_num)
    · have hk : ∀ s, pack s m t = packNormal s m t := by
        intro s; unfold pack; simp only [h, dite_false, hm2, if_false]
      rw [hk, hk]
      exact packNormal_key _ _ (by omega) (by omega)


/-! ## Rounding: bounds against representable values -/

theorem roundK_mant (n d : Nat) (hn : 0 < n) (hd : 0 < d) :
    rne n (d * 2 ^ gridExp n d) ≤ 2 ^ 53 ∧
      (0 < gridExp n d → 2 ^ 52 ≤ rne n (d * 2 ^ gridExp n d)) := by
  obtain ⟨h1, h2⟩ := gridExp_spec n d hn hd
  have hD : 0 < d * 2 ^ gridExp n d := Nat.mul_pos hd (Nat.pow_pos (by decide))
  constructor
  · apply rne_le _ _ _ hD
    have e : 2 ^ (gridExp n d + 53) * d = 2 ^ 53 * (d * 2 ^ gridExp n d) := by
      rw [pow_add]; ring
    omega
  · intro h0
    apply rne_ge _ _ _ hD
    have e : 2 ^ (gridExp n d + 52) * d = 2 ^ 52 * (d * 2 ^ gridExp n d) := by
      rw [pow_add]; ring
    have := h2 h0
    omega

theorem roundK_isNaN (s : Bool) (n d : Nat) (hn : 0 < n) (hd : 0 < d) :
    (roundK s n d).isNaN = false :=
  pack_isNaN _ _ _ (roundK_mant n d hn hd).1

theorem roundK_key (n d : Nat) (hn : 0 < n) (hd : 0 < d) :
    (roundK false n d).key = (roundMag n d : Int) ∧
      (roundK true n d).key = -(roundMag n d : Int) :=
  pack_key _ _ (roundK_mant n d hn hd).1 (roundK_mant n d hn hd).2

theorem roundMag_le (n d k : Nat) (hn : 0 < n) (hd : 0 < d) (hk : Rep k) (h : n ≤ k * d) :
    roundMag n d ≤ k := by
  obtain ⟨m, s, rfl, hm, hs⟩ := hk
  obtain ⟨h1, h2⟩ := gridExp_spec n d hn hd
  have hD : 0 < d * 2 ^ gridExp n d := Nat.mul_pos hd (Nat.pow_pos (by decide))
  apply le_trans (Nat.min_le_left _ _)
  by_cases hts : gridExp n d ≤ s
  · have es : 2 ^ s = 2 ^ (s - gridExp n d) * 2 ^ gridExp n d := by
      rw [← pow_add]; congr 1; omega
    have hr : rne n (d * 2 ^ gridExp n d) ≤ m * 2 ^ (s - gridExp n d) := by
      apply rne_le _ _ _ hD
      calc n ≤ m * 2 ^ s * d := h
        _ = m * 2 ^ (s - gridExp n d) * (d * 2 ^ gridExp n d) := by rw [es]; ring
    calc rne n (d * 2 ^ gridExp n d) * 2 ^ gridExp n d
        ≤ m * 2 ^ (s - gridExp n d) * 2 ^ gridExp n d := Nat.mul_le_mul_right _ hr
      _ = m * 2 ^ s := by rw [es]; ring
  · exfalso
    have h0 : 0 < gridExp n d := by omega
    have h3 := h2 h0
    have h4 : m * 2 ^ s < 2 ^ (gridExp n d + 52) := by
      calc m * 2 ^ s < 2 ^ 53 * 2 ^ s := Nat.mul_lt_mul_of_pos_right hm (Nat.pow_pos (by decide))
        _ = 2 ^ (53 + s) := by rw [← pow_add]
        _ ≤ 2 ^ (gridExp n d + 52) := Nat.pow_le_pow_right (by decide) (by omega)
    have h5 : m * 2 ^ s * d < 2 ^ (gridExp n d + 52) * d := Nat.mul_lt_mul_of_pos_right h4 hd
    omega

theorem roundMag_ge (n d k : Nat) (hn : 0 < n) (hd : 0 < d) (hk : Rep k) (h : k * d ≤ n) :
    k ≤ roundMag n d := by
  have hkinf := rep_lt_infKey k hk
  obtain ⟨m, s, rfl, hm, hs⟩ := hk
  obtain ⟨h1, h2⟩ := gridExp_spec n d hn hd
  have hD : 0 < d * 2 ^ gridExp n d := Nat.mul_pos hd (Nat.pow_pos (by decide))
  apply Nat.le_min.2 ⟨?_, le_of_lt hkinf⟩
  by_cases hts : gridExp n d ≤ s
  · have es : 2 ^ s = 2 ^ (s - gridExp n d) * 2 ^ gridExp n d := by
      rw [← pow_add]; congr 1; omega
    have hr : m * 2 ^ (s - gridExp n d) ≤ rne n (d * 2 ^ gridExp n d) := by
      apply rne_ge _ _ _ hD
      calc m * 2 ^ (s - gridExp n d) * (d * 2 ^ gridExp n d) = m * 2 ^ s * d := by
            rw [es]; ring
        _ ≤ n := h
    calc m * 2 ^ s = m * 2 ^ (s - gridExp n d) * 2 ^ gridExp n d := by rw [es]; ring
      _ ≤ rne n (d * 2 ^ gridExp n d) * 2 ^ gridExp n d := Nat.mul_le_mul_right _ hr
  · have h0 : 0 < gridExp n d := by omega
    have h3 := (roundK_mant n d hn hd).2 h0
    calc m * 2 ^ s ≤ 2 ^ 53 * 2 ^ s := Nat.mul_le_mul_right _ (le_of_lt hm)
      _ = 2 ^ (53 + s) := by rw [← pow_add]
      _ ≤ 2 ^ (52 + gridExp n d) := Nat.pow_le_pow_right (by decide) (by omega)
      _ = 2 ^ 52 * 2 ^ gridExp n d := by rw [pow_add]
      _ ≤ rne n (d * 2 ^ gridExp n d) * 2 ^ gridExp n d := Nat.mul_le_mul_right _ h3


/-! ## Rounding of signed values -/

theorem repI_key (B : Dbl) (h : B.isFinite = true) : RepI B.key := by
  cases B with
  | nan => simp [isFinite] at h
  | inf s => simp [isFinite] at h
  | fin s E F =>
    cases s
    · exact ⟨magKey E F, rep_magKey E F, Or.inl rfl⟩
    · exact ⟨magKey E F, rep_magKey E F, Or.inr rfl⟩

theorem roundS_isNaN (z : Bool) (num : Int) (den : Nat) (hden : 0 < den) :
    (roundS z num den).isNaN = false := by
  unfold roundS
  split
  · rfl
  · rename_i h
    exact roundK_isNaN _ _ _ (Int.natAbs_pos.2 h) hden

theorem roundS_pos (z : Bool) (num : Int) (den : Nat) (hden : 0 < den) (h : 0 < num) :
    (roundS z num den).key = (roundMag num.natAbs den : Int) := by
  have h0 : num ≠ 0 := by omega
  have hd : decide (num < 0) = false := by simp; omega
  unfold roundS
  rw [if_neg h0, hd]
  exact (roundK_key _ _ (Int.natAbs_pos.2 h0) hden).1

theorem roundS_neg (z : Bool) (num : Int) (den : Nat) (hden : 0 < den) (h : num < 0) :
    (roundS z num den).key = -(roundMag num.natAbs den : Int) := by
  have h0 : num ≠ 0 := by omega
  have hd : decide (num < 0) = true := by simp; omega
  unfold roundS
  rw [if_neg h0, hd]
  exact (roundK_key _ _ (Int.natAbs_pos.2 h0) hden).2

theorem roundS_zero (z : Bool) (den : Nat) : (roundS z 0 den).key = 0 := by
  unfold roundS
  rw [if_pos rfl]
  exact key_fin_zero z

/-- Rounding respects every representable upper bound. -/
theorem roundS_le (z : Bool) (num : Int) (den : Nat) (hden : 0 < den) (b : Int)
    (hb : RepI b) (h : num ≤ b * den) : (roundS z num den).key ≤ b := by
  have hdenI : (0 : Int) < (den : Int) := by exact_mod_cast hden
  obtain ⟨k, hk, hbk⟩ := hb
  rcases lt_trichotomy num 0 with hneg | hzero | hpos
  · rw [roundS_neg z num den hden hneg]
    rcases hbk with hbk | hbk
    · rw [hbk]
      have : (0 : Int) ≤ (roundMag num.natAbs den : Int) := Int.natCast_nonneg _
      have : (0 : Int) ≤ (k : Int) := Int.natCast_nonneg _
      omega
    · rw [hbk] at h ⊢
      have h1 : k * den ≤ num.natAbs := by
        have : ((k * den : Nat) : Int) ≤ (num.natAbs : Int) := by
          rw [Nat.cast_mul, Int.natCast_natAbs, abs_of_neg hneg]
          linarith
        exact_mod_cast this
      have := roundMag_ge num.natAbs den k (Int.natAbs_pos.2 (by omega)) hden hk h1
      have : (k : Int) ≤ (roundMag num.natAbs den : Int) := by exact_mod_cast this
      omega
  · subst hzero
    rw [roundS_zero]
    by_contra hc
    have : b * den < 0 := Int.mul_neg_of_neg_of_pos (by omega) hdenI
    omega
  · rw [roundS_pos z num den hden hpos]
    rcases hbk with hbk | hbk
    · rw [hbk] at h ⊢
      have h1 : num.natAbs ≤ k * den := by
        have : (num.natAbs : Int) ≤ ((k * den : Nat) : Int) := by
          rw [Nat.cast_mul, Int.natCast_natAbs, abs_of_pos hpos]
          exact h
        exact_mod_cast this
      have := roundMag_le num.natAbs den k (Int.natAbs_pos.2 (by omega)) hden hk h1
      exact_mod_cast this
    · exfalso
      rw [hbk] at h
      have h2 : (0 : Int) ≤ (k : Int) * (den : Int) :=
        Int.mul_nonneg (Int.natCast_nonneg _) (le_of_lt hdenI)
      have h3 : -(k : Int) * (den : Int) = -((k : Int) * (den : Int)) := by ring
      omega

/-- Rounding respects every representable lower bound. -/
theorem roundS_ge (z : Bool) (num : Int) (den : Nat) (hden : 0 < den) (b : Int)
    (hb : RepI b) (h : b * den ≤ num) : b ≤ (roundS z num den).key := by
  have hdenI : (0 : Int) < (den : Int) := by exact_mod_cast hden
  obtain ⟨k, hk, hbk⟩ := hb
  rcases lt_trichotomy num 0 with hneg | hzero | hpos
  · rw [roundS_neg z num den hden hneg]
    rcases hbk with hbk | hbk
    · exfalso
      rw [hbk] at h
      have h2 : (0 : Int) ≤ (k : Int) * (den : Int) :=
        Int.mul_nonneg (Int.natCast_nonneg _) (le_of_lt hdenI)
      omega
    · rw [hbk] at h ⊢
      have h1 : num.natAbs ≤ k * den := by
        have : (num.natAbs : Int) ≤ ((k * den : Nat) : Int) := by
          rw [Nat.cast_mul, Int.natCast_natAbs, abs_of_neg hneg]
          linarith
        exact_mod_cast this
      have := roundMag_le num.natAbs den k (Int.natAbs_pos.2 (by omega)) hden hk h1
      have : (roundMag num.natAbs den : Int) ≤ (k : Int) := by exact_mod_cast this
      omega
  · subst hzero
    rw [roundS_zero]
    by_contra hc
    have : 0 < b * den := Int.mul_pos (by omega) hdenI
    omega
  · rw [roundS_pos z num den hden hpos]
    rcases hbk with hbk | hbk
    · rw [hbk] at h ⊢
      have h1 : k * den ≤ num.natAbs := by
        have : ((k * den : Nat) : Int) ≤ (num.natAbs : Int) := by
          rw [Nat.cast_mul, Int.natCast_natAbs, abs_of_pos hpos]
          exact h
        exact_mod_cast this
      have := roundMag_ge num.natAbs den k (Int.natAbs_pos.2 (by omega)) hden hk h1
      exact_mod_cast this
    · rw [hbk]
      have : (0 : Int) ≤ (roundMag num.natAbs den : Int) := Int.natCast_nonneg _
      have : (0 : Int) ≤ (k : Int) := Int.natCast_nonneg _
      omega


/-! ## Arithmetic on finite values -/

theorem isFinite_isNaN (x : Dbl) (h : x.isFinite = true) : x.isNaN = false := by
  cases x <;> simp_all [isFinite, isNaN]

theorem finite_of_bounds (r : Dbl) (hn : r.isNaN = false) (lo hi : Int) (hlo : RepI lo)
    (hhi : RepI hi) (h1 : lo ≤ r.key) (h2 : r.key ≤ hi) : r.isFinite = true := by
  obtain ⟨k1, hk1, e1⟩ := hlo
  obtain ⟨k2, hk2, e2⟩ := hhi
  have l1 : (k1 : Int) < (infKey : Int) := by exact_mod_cast rep_lt_infKey k1 hk1
  have l2 : (k2 : Int) < (infKey : Int) := by exact_mod_cast rep_lt_infKey k2 hk2
  have p1 : (0 : Int) ≤ (k1 : Int) := Int.natCast_nonneg _
  have p2 : (0 : Int) ≤ (k2 : Int) := Int.natCast_nonneg _
  cases r with
  | nan => simp [isNaN] at hn
  | inf s =>
    exfalso
    cases s
    · simp only [key] at h2
      omega
    · simp only [key] at h1
      omega
  | fin s E F => rfl

theorem add_fin_eq (x y : Dbl) (hx : x.isFinite = true) (hy : y.isFinite = true) :
    add x y = roundS (x.signBit && y.signBit) (x.key + y.key) 1 := by
  cases x with
  | nan => simp [isFinite] at hx
  | inf s => simp [isFinite] at hx
  | fin s E F =>
    cases y with
    | nan => simp [isFinite] at hy
    | inf t => simp [isFinite] at hy
    | fin t G H => rfl

theorem mul_fin_eq (x y : Dbl) (hx : x.isFinite = true) (hy : y.isFinite = true) :
    mul x y = roundS (xor x.signBit y.signBit) (x.key * y.key) unit := by
  cases x with
  | nan => simp [isFinite] at hx
  | inf s => simp [isFinite] at hx
  | fin s E F =>
    cases y with
    | nan => simp [isFinite] at hy
    | inf t => simp [isFinite] at hy
    | fin t G H => rfl

theorem neg_isFinite (x : Dbl) : (neg x).isFinite = x.isFinite := by
  cases x <;> rfl

theorem neg_key (x : Dbl) : (neg x).key = -x.key := by
  cases x with
  | nan => rfl
  | inf s => cases s <;> simp [neg, key]
  | fin s E F => cases s <;> simp [neg, key]

theorem fabs_isFinite (x : Dbl) : (fabs x).isFinite = x.isFinite := by
  cases x <;> rfl

theorem fabs_key (x : Dbl) : (fabs x).key = |x.key| := by
  cases x with
  | nan => rfl
  | inf s =>
    cases s
    · simp only [fabs, key]; rw [abs_of_nonneg (Int.natCast_nonneg _)]
    · simp only [fabs, key]; rw [abs_neg, abs_of_nonneg (Int.natCast_nonneg _)]
  | fin s E F =>
    cases s
    · simp only [fabs, key]; rw [abs_of_nonneg (Int.natCast_nonneg _)]
    · simp only [fabs, key]; rw [abs_neg, abs_of_nonneg (Int.natCast_nonneg _)]

theorem add_isFinite (x y : Dbl) (h : (add x y).isFinite = true) :
    x.isFinite = true ∧ y.isFinite = true := by
  cases x with
  | nan => simp [add, isFinite] at h
  | inf s =>
    cases y with
    | nan => simp [add, isFinite] at h
    | inf t =>
      simp only [add] at h
      split at h <;> simp [isFinite] at h
    | fin t G H => simp [add, isFinite] at h
  | fin s E F =>
    cases y with
    | nan => simp [add, isFinite] at h
    | inf t => simp [add, isFinite] at h
    | fin t G H => exact ⟨rfl, rfl⟩

theorem mul_isFinite (x y : Dbl) (h : (mul x y).isFinite = true) :
    x.isFinite = true ∧ y.isFinite = true := by
  cases x with
  | nan => simp [mul, isFinite] at h
  | inf s =>
    cases y with
    | nan => simp [mul, isFinite] at h
    | inf t => simp [mul, isFinite] at h
    | fin t G H =>
      simp only [mul] at h
      split at h <;> simp [isFinite] at h
  | fin s E F =>
    cases y with
    | nan => simp [mul, isFinite] at h
    | inf t =>
      simp only [mul] at h
      split at h <;> simp [isFinite] at h
    | fin t G H => exact ⟨rfl, rfl⟩

theorem sub_isFinite (x y : Dbl) (h : (sub x y).isFinite = true) :
    x.isFinite = true ∧ y.isFinite = true := by
  have := add_isFinite x (neg y) h
  rw [neg_isFinite] at this
  exact this

theorem unit_pos : 0 < unit := Nat.pow_pos (by decide)

theorem repI_zero : RepI 0 := ⟨0, ⟨0, 0, by simp, by norm_num, by omega⟩, Or.inl rfl⟩

/-- Bounds for a finite sum. -/
theorem add_key_le (x y : Dbl) (hx : x.isFinite = true) (hy : y.isFinite = true) (b : Int)
    (hb : RepI b) (h : x.key + y.key ≤ b) : (add x y).key ≤ b := by
  rw [add_fin_eq x y hx hy]
  exact roundS_le _ _ _ (by decide) b hb (by simpa using h)

theorem add_key_ge (x y : Dbl) (hx : x.isFinite = true) (hy : y.isFinite = true) (b : Int)
    (hb : RepI b) (h : b ≤ x.key + y.key) : b ≤ (add x y).key := by
  rw [add_fin_eq x y hx hy]
  exact roundS_ge _ _ _ (by decide) b hb (by simpa using h)

theorem sub_key_le (x y : Dbl) (hx : x.isFinite = true) (hy : y.isFinite = true) (b : Int)
    (hb : RepI b) (h : x.key - y.key ≤ b) : (sub x y).key ≤ b := by
  apply add_key_le x (neg y) hx (by rw [neg_isFinite]; exact hy) b hb
  rw [neg_key]; omega

theorem sub_key_ge (x y : Dbl) (hx : x.isFinite = true) (hy : y.isFinite = true) (b : Int)
    (hb : RepI b) (h : b ≤ x.key - y.key) : b ≤ (sub x y).key := by
  apply add_key_ge x (neg y) hx (by rw [neg_isFinite]; exact hy) b hb
  rw [neg_key]; omega

theorem mul_key_le (x y : Dbl) (hx : x.isFinite = true) (hy : y.isFinite = true) (b : Int)
    (hb : RepI b) (h : x.key * y.key ≤ b * unit) : (mul x y).key ≤ b := by
  rw [mul_fin_eq x y hx hy]
  exact roundS_le _ _ _ unit_pos b hb h

theorem mul_key_ge (x y : Dbl) (hx : x.isFinite = true) (hy : y.isFinite = true) (b : Int)
    (hb : RepI b) (h : b * unit ≤ x.key * y.key) : b ≤ (mul x y).key := by
  rw [mul_fin_eq x y hx hy]
  exact roundS_ge _ _ _ unit_pos b hb h

theorem add_isNaN (x y : Dbl) (hx : x.isFinite = true) (hy : y.isFinite = true) :
    (add x y).isNaN = false := by
  rw [add_fin_eq x y hx hy]
  exact roundS_isNaN _ _ _ (by decide)

theorem mul_isNaN (x y : Dbl) (hx : x.isFinite = true) (hy : y.isFinite = true) :
    (mul x y).isNaN = false := by
  rw [mul_fin_eq x y hx hy]
  exact roundS_isNaN _ _ _ unit_pos

theorem sub_isNaN (x y : Dbl) (hx : x.isFinite = true) (hy : y.isFinite = true) :
    (sub x y).isNaN = false :=
  add_isNaN x (neg y) hx (by rw [neg_isFinite]; exact hy)


/-! ## Overflow threshold -/

theorem rne_le_half (N D q : Nat) (h : 2 * N < (2 * q + 1) * D) : rne N D ≤ q := by
  have hD : 0 < D := by
    rcases Nat.eq_zero_or_pos D with h0 | h0
    · subst h0; simp at h
    · exact h0
  have hdm : D * (N / D) + N % D = N := Nat.div_add_mod N D
  have hmod : N % D < D := Nat.mod_lt N hD
  have e1 : (2 * q + 1) * D = 2 * (q * D) + D := by ring
  have hq : N / D ≤ q := by
    by_contra hc
    have h3 : (q + 1) * D ≤ N / D * D := Nat.mul_le_mul_right D (by omega)
    have h4 : N / D * D ≤ N := Nat.div_mul_le_self N D
    have h5 : (q + 1) * D = q * D + D := by ring
    omega
  rcases Nat.lt_or_ge (N / D) q with hlt | hge
  · unfold rne
    simp only
    split
    · omega
    · split
      · omega
      · split <;> omega
  · have hqe : N / D = q := by omega
    have hr : 2 * (N % D) < D := by
      rw [hqe, Nat.mul_comm] at hdm
      omega
    unfold rne
    simp only [hr, if_true]
    omega

theorem gridExp_le (n d : Nat) (hn : 0 < n) (hd : 0 < d) (h : n < 2 ^ 2098 * d) :
    gridExp n d ≤ 2045 := by
  by_contra hc
  have h2 := (gridExp_spec n d hn hd).2 (by omega)
  have h3 : 2 ^ 2098 * d ≤ 2 ^ (gridExp n d + 52) * d :=
    Nat.mul_le_mul_right _ (Nat.pow_le_pow_right (by decide) (by omega))
  omega

/-- Below the midpoint between the largest finite value and `2^1024`, rounding does not
overflow. -/
theorem roundMag_lt_infKey (n d : Nat) (hn : 0 < n) (hd : 0 < d)
    (h : 2 * n < (2 ^ 54 - 1) * 2 ^ 2045 * d) : roundMag n d < infKey := by
  have hnlt : n < 2 ^ 2098 * d := by
    have e : (2 : Nat) ^ 2098 = 2 ^ 53 * 2 ^ 2045 := by rw [← pow_add]
    have e2 : (2 ^ 54 - 1) * 2 ^ 2045 * d ≤ 2 * (2 ^ 53 * 2 ^ 2045 * d) := by
      have : (2 : Nat) ^ 54 - 1 ≤ 2 * 2 ^ 53 := by norm_num
      calc (2 ^ 54 - 1) * 2 ^ 2045 * d ≤ 2 * 2 ^ 53 * 2 ^ 2045 * d :=
            Nat.mul_le_mul_right _ (Nat.mul_le_mul_right _ this)
        _ = 2 * (2 ^ 53 * 2 ^ 2045 * d) := by ring
    rw [e]
    omega
  have ht := gridExp_le n d hn hd hnlt
  have hm := (roundK_mant n d hn hd).1
  unfold roundMag
  apply lt_of_le_of_lt (Nat.min_le_left _ _)
  unfold infKey
  rcases Nat.lt_or_ge (gridExp n d) 2045 with hlt | hge
  · calc rne n (d * 2 ^ gridExp n d) * 2 ^ gridExp n d
        ≤ 2 ^ 53 * 2 ^ gridExp n d := Nat.mul_le_mul_right _ hm
      _ = 2 ^ (53 + gridExp n d) := by rw [← pow_add]
      _ < 2 ^ 2098 := Nat.pow_lt_pow_right (by decide) (by omega)
  · have hte : gridExp n d = 2045 := by omega
    rw [hte]
    have hr : rne n (d * 2 ^ 2045) ≤ 2 ^ 53 - 1 := by
      apply rne_le_half
      have e : (2 * (2 ^ 53 - 1) + 1) * (d * 2 ^ 2045) = (2 ^ 54 - 1) * 2 ^ 2045 * d := by
        have : 2 * (2 ^ 53 - 1) + 1 = 2 ^ 54 - 1 := by norm_num
        rw [this]; ring
      omega
    calc rne n (d * 2 ^ 2045) * 2 ^ 2045 ≤ (2 ^ 53 - 1) * 2 ^ 2045 :=
          Nat.mul_le_mul_right _ hr
      _ < 2 ^ 53 * 2 ^ 2045 :=
          Nat.mul_lt_mul_of_pos_right (by norm_num) (Nat.pow_pos (by decide))
      _ = 2 ^ 2098 := by rw [← pow_add]

theorem isFinite_of_key_lt (r : Dbl) (hn : r.isNaN = false) (h1 : -(infKey : Int) < r.key)
    (h2 : r.key < (infKey : Int)) : r.isFinite = true := by
  cases r with
  | nan => simp [isNaN] at hn
  | inf s =>
    exfalso
    cases s
    · simp only [key] at h2; omega
    · simp only [key] at h1; omega
  | fin s E F => rfl

theorem magKey_le_max (E : Fin 2047) (F : Fin 4503599627370496) :
    magKey E F ≤ (2 ^ 53 - 1) * 2 ^ 2045 := by
  unfold magKey
  have hF := F.isLt
  have hE := E.isLt
  split
  · calc F.val ≤ (2 ^ 53 - 1) * 1 := by omega
      _ ≤ (2 ^ 53 - 1) * 2 ^ 2045 := Nat.mul_le_mul_left _ (Nat.pow_pos (by decide))
  · exact Nat.mul_le_mul (by omega) (Nat.pow_le_pow_right (by decide) (by omega))

theorem abs_key_le_max (x : Dbl) (h : x.isFinite = true) :
    |x.key| ≤ (((2 ^ 53 - 1) * 2 ^ 2045 : Nat) : Int) := by
  cases x with
  | nan => simp [isFinite] at h
  | inf s => simp [isFinite] at h
  | fin s E F =>
    have := magKey_le_max E F
    have hc : ((magKey E F : Nat) : Int) ≤ (((2 ^ 53 - 1) * 2 ^ 2045 : Nat) : Int) := by
      exact_mod_cast this
    cases s
    · simp only [key]
      rw [abs_of_nonneg (Int.natCast_nonneg _)]
      exact hc
    · simp only [key]
      rw [abs_neg, abs_of_nonneg (Int.natCast_nonneg _)]
      exact hc

/-- Adding a small finite value to a finite value gives a finite value. -/
theorem add_isFinite_of_small (x y : Dbl) (hx : x.isFinite = true) (hy : y.isFinite = true)
    (h : 2 * |y.key| < ((2 ^ 2045 : Nat) : Int)) : (add x y).isFinite = true := by
  rw [add_fin_eq x y hx hy]
  have hxm := abs_key_le_max x hx
  have hsum : 2 * |x.key + y.key| < (((2 ^ 54 - 1) * 2 ^ 2045 * 1 : Nat) : Int) := by
    have h1 : |x.key + y.key| ≤ |x.key| + |y.key| := abs_add _ _
    have e : (((2 ^ 54 - 1) * 2 ^ 2045 * 1 : Nat) : Int) =
        2 * (((2 ^ 53 - 1) * 2 ^ 2045 : Nat) : Int) + ((2 ^ 2045 : Nat) : Int) := by
      have : (2 ^ 54 - 1) * 2 ^ 2045 * 1 = 2 * ((2 ^ 53 - 1) * 2 ^ 2045) + 2 ^ 2045 := by
        have : (2 : Nat) ^ 54 - 1 = 2 * (2 ^ 53 - 1) + 1 := by norm_num
        rw [this]; ring
      exact_mod_cast this
    omega
  apply isFinite_of_key_lt _ (roundS_isNaN _ _ _ (by decide))
  · rcases lt_trichotomy (x.key + y.key) 0 with hneg | hzero | hpos
    · rw [roundS_neg _ _ _ (by decide) hneg]
      have hn : 2 * (x.key + y.key).natAbs < (2 ^ 54 - 1) * 2 ^ 2045 * 1 := by
        have : ((2 * (x.key + y.key).natAbs : Nat) : Int)
            < (((2 ^ 54 - 1) * 2 ^ 2045 * 1 : Nat) : Int) := by
          rw [Nat.cast_mul, Int.natCast_natAbs]
          exact_mod_cast hsum
        exact_mod_cast this
      have := roundMag_lt_infKey _ 1 (Int.natAbs_pos.2 (by omega)) (by decide) hn
      have : (roundMag (x.key + y.key).natAbs 1 : Int) < (infKey : Int) := by
        exact_mod_cast this
      omega
    · rw [hzero, roundS_zero]
      have : (0 : Int) < (infKey : Int) := by
        have : 0 < infKey := Nat.pow_pos (by decide)
        exact_mod_cast this
      omega
    · rw [roundS_pos _ _ _ (by decide) hpos]
      have : (0 : Int) ≤ (roundMag (x.key + y.key).natAbs 1 : Int) := Int.natCast_nonneg _
      have : (0 : Int) < (infKey : Int) := by
        have : 0 < infKey := Nat.pow_pos (by decide)
        exact_mod_cast this
      omega
  · rcases lt_trichotomy (x.key + y.key) 0 with hneg | hzero | hpos
    · rw [roundS_neg _ _ _ (by decide) hneg]
      have : (0 : Int) ≤ (roundMag (x.key + y.key).natAbs 1 : Int) := Int.natCast_nonneg _
      have : (0 : Int) < (infKey : Int) := by
        have : 0 < infKey := Nat.pow_pos (by decide)
        exact_mod_cast this
      omega
    · rw [hzero, roundS_zero]
      have : 0 < infKey := Nat.pow_pos (by decide)
      exact_mod_cast this
    · rw [roundS_pos _ _ _ (by decide) hpos]
      have hn : 2 * (x.key + y.key).natAbs < (2 ^ 54 - 1) * 2 ^ 2045 * 1 := by
        have : ((2 * (x.key + y.key).natAbs : Nat) : Int)
            < (((2 ^ 54 - 1) * 2 ^ 2045 * 1 : Nat) : Int) := by
          rw [Nat.cast_mul, Int.natCast_natAbs]
          exact_mod_cast hsum
        exact_mod_cast this
      have := roundMag_lt_infKey _ 1 (Int.natAbs_pos.2 (by omega)) (by decide) hn
      exact_mod_cast this


/-! ## Rounding is monotone -/

theorem rne_mono (N1 N2 D : Nat) (hD : 0 < D) (h : N1 ≤ N2) : rne N1 D ≤ rne N2 D := by
  have hq : N1 / D ≤ N2 / D := Nat.div_le_div_right h
  have e1 : D * (N1 / D) + N1 % D = N1 := Nat.div_add_mod N1 D
  have e2 : D * (N2 / D) + N2 % D = N2 := Nat.div_add_mod N2 D
  have m1 : N1 % D < D := Nat.mod_lt N1 hD
  have m2 : N2 % D < D := Nat.mod_lt N2 hD
  rcases Nat.lt_or_ge (N1 / D) (N2 / D) with hlt | hge
  · have a : rne N1 D ≤ N1 / D + 1 := by
      unfold rne
      simp only
      split
      · omega
      · split
        · omega
        · split <;> omega
    have b : N2 / D ≤ rne N2 D := by
      unfold rne
      simp only
      split
      · omega
      · split
        · omega
        · split <;> omega
    omega
  · have hqe : N1 / D = N2 / D := by omega
    have hr : N1 % D ≤ N2 % D := by
      rw [hqe] at e1
      omega
    unfold rne
    simp only [hqe]
    split_ifs <;> omega

theorem roundMag_mono (n1 n2 d : Nat) (hn1 : 0 < n1) (hd : 0 < d) (h : n1 ≤ n2) :
    roundMag n1 d ≤ roundMag n2 d := by
  have hn2 : 0 < n2 := by omega
  obtain ⟨a1, a2⟩ := gridExp_spec n1 d hn1 hd
  obtain ⟨b1, b2⟩ := gridExp_spec n2 d hn2 hd
  obtain ⟨c1, c2⟩ := roundK_mant n1 d hn1 hd
  obtain ⟨d1, d2⟩ := roundK_mant n2 d hn2 hd
  have hle : gridExp n1 d ≤ gridExp n2 d := by
    by_contra hc
    have h1 := a2 (by omega)
    have h2 : 2 ^ (gridExp n1 d + 52) * d < 2 ^ (gridExp n2 d + 53) * d := by omega
    have h3 : 2 ^ (gridExp n2 d + 53) * d ≤ 2 ^ (gridExp n1 d + 52) * d :=
      Nat.mul_le_mul_right _ (Nat.pow_le_pow_right (by decide) (by omega))
    omega
  have hmag : rne n1 (d * 2 ^ gridExp n1 d) * 2 ^ gridExp n1 d ≤
      rne n2 (d * 2 ^ gridExp n2 d) * 2 ^ gridExp n2 d := by
    rcases Nat.lt_or_ge (gridExp n1 d) (gridExp n2 d) with hlt | hge
    · have h52 := d2 (by omega)
      calc rne n1 (d * 2 ^ gridExp n1 d) * 2 ^ gridExp n1 d
          ≤ 2 ^ 53 * 2 ^ gridExp n1 d := Nat.mul_le_mul_right _ c1
        _ = 2 ^ (53 + gridExp n1 d) := by rw [← pow_add]
        _ ≤ 2 ^ (52 + gridExp n2 d) := Nat.pow_le_pow_right (by decide) (by omega)
        _ = 2 ^ 52 * 2 ^ gridExp n2 d := by rw [pow_add]
        _ ≤ rne n2 (d * 2 ^ gridExp n2 d) * 2 ^ gridExp n2 d := Nat.mul_le_mul_right _ h52
    · have he : gridExp n1 d = gridExp n2 d := by omega
      rw [he]
      exact Nat.mul_le_mul_right _
        (rne_mono _ _ _ (Nat.mul_pos hd (Nat.pow_pos (by decide))) h)
  unfold roundMag
  exact Nat.le_min.2 ⟨le_trans (Nat.min_le_left _ _) hmag, Nat.min_le_right _ _⟩

/-- Rounding is monotone (same denominator). -/
theorem roundS_mono (z1 z2 : Bool) (num1 num2 : Int) (den : Nat) (hden : 0 < den)
    (h : num1 ≤ num2) : (roundS z1 num1 den).key ≤ (roundS z2 num2 den).key := by
  have key_nonneg : ∀ (z : Bool) (num : Int), 0 ≤ num → 0 ≤ (roundS z num den).key := by
    intro z num hnum
    rcases lt_or_eq_of_le hnum with hp | hz
    · rw [roundS_pos z num den hden hp]
      exact Int.natCast_nonneg _
    · rw [← hz, roundS_zero]
  have key_nonpos : ∀ (z : Bool) (num : Int), num ≤ 0 → (roundS z num den).key ≤ 0 := by
    intro z num hnum
    rcases lt_or_eq_of_le hnum with hp | hz
    · rw [roundS_neg z num den hden hp]
      have : (0 : Int) ≤ (roundMag num.natAbs den : Int) := Int.natCast_nonneg _
      omega
    · rw [hz, roundS_zero]
  rcases le_or_lt num1 0 with h1 | h1
  · rcases le_or_lt 0 num2 with h2 | h2
    · have := key_nonpos z1 num1 h1
      have := key_nonneg z2 num2 h2
      omega
    · have h1' : num1 < 0 := by omega
      rw [roundS_neg z1 num1 den hden h1', roundS_neg z2 num2 den hden h2]
      have hn : num2.natAbs ≤ num1.natAbs := by omega
      have := roundMag_mono num2.natAbs num1.natAbs den (Int.natAbs_pos.2 (by omega)) hden hn
      have : (roundMag num2.natAbs den : Int) ≤ (roundMag num1.natAbs den : Int) := by
        exact_mod_cast this
      omega
  · have h2 : 0 < num2 := by omega
    rw [roundS_pos z1 num1 den hden h1, roundS_pos z2 num2 den hden h2]
    have hn : num1.natAbs ≤ num2.natAbs := by omega
    have := roundMag_mono num1.natAbs num2.natAbs den (Int.natAbs_pos.2 (by omega)) hden hn
    exact_mod_cast this

/-- Multiplication by a non-negative finite value is monotone. -/
theorem mul_mono_left (x y z : Dbl) (hx : x.isFinite = true) (hy : y.isFinite = true)
    (hz : z.isFinite = true) (h0 : 0 ≤ x.key) (h : y.key ≤ z.key) :
    (mul x y).key ≤ (mul x z).key := by
  rw [mul_fin_eq x y hx hy, mul_fin_eq x z hx hz]
  exact roundS_mono _ _ _ _ _ unit_pos (Int.mul_le_mul_of_nonneg_left h h0)

end Dbl


/-! ## The evolution operator: outcome lemmas -/

/-- The ordered decision of `evolve`, as a function of the stimulus and the candidate. -/
theorem evolve_reason (X : StructuralState) (s : WorldStimulus) :
    (evolve X s).2 =
      if !is_finite s.a || !is_finite s.b || !is_finite (candidate X s).delta_new
          || !is_finite (candidate X s).phi_new || !is_finite (candidate X s).m_new
          || !is_finite (candidate X s).kappa_new then DeathReason.NonFinite
      else if Dbl.gt (candidate X s).phi_new kPhiMax then DeathReason.PhiOverflow
      else if Dbl.le (candidate X s).kappa_new kKappaEps then DeathReason.KappaZero
      else DeathReason.None := by
  unfold evolve
  simp only []
  generalize is_finite s.a = a
  generalize is_finite s.b = b
  generalize is_finite (candidate X s).delta_new = c
  generalize is_finite (candidate X s).phi_new = d
  generalize is_finite (candidate X s).m_new = e
  generalize is_finite (candidate X s).kappa_new = f
  generalize Dbl.gt (candidate X s).phi_new kPhiMax = g
  generalize Dbl.le (candidate X s).kappa_new kKappaEps = h
  cases a <;> cases b <;> try rfl
  all_goals cases c <;> cases d <;> cases e <;> cases f <;> try rfl
  all_goals cases g <;> cases h <;> rfl

/-- A refused step changes `kappa` to zero and nothing else. -/
theorem evolve_fail (X : StructuralState) (s : WorldStimulus)
    (h : (evolve X s).2 ≠ DeathReason.None) :
    (evolve X s).1 = { X with kappa := Dbl.zero } := by
  unfold evolve at h ⊢
  split
  · rfl
  · simp only
    split
    · rfl
    · split
      · rfl
      · split
        · rfl
        · rename_i h1 h2 h3 h4
          simp [h1, h2, h3, h4] at h

/-- A committed step installs the whole candidate, which passed all checks. -/
theorem evolve_ok (X : StructuralState) (s : WorldStimulus)
    (h : (evolve X s).2 = DeathReason.None) :
    (evolve X s).1 =
        { delta := (candidate X s).delta_new, phi := (candidate X s).phi_new,
          m := (candidate X s).m_new, kappa := (candidate X s).kappa_new } ∧
      is_finite s.a = true ∧ is_finite s.b = true ∧
      is_finite (candidate X s).delta_new = true ∧ is_finite (candidate X s).phi_new = true ∧
      is_finite (candidate X s).m_new = true ∧ is_finite (candidate X s).kappa_new = true ∧
      Dbl.gt (candidate X s).phi_new kPhiMax = false ∧
      Dbl.le (candidate X s).kappa_new kKappaEps = false := by
  unfold evolve at h ⊢
  split
  · rename_i h1; simp [h1] at h
  · simp only
    split
    · rename_i h1 h2; simp [h1, h2] at h
    · split
      · rename_i h1 h2 h3; simp [h1, h2, h3] at h
      · split
        · rename_i h1 h2 h3 h4; simp [h1, h2, h3, h4] at h
        · rename_i h1 h2 h3 h4
          simp only [Bool.or_eq_true, Bool.not_eq_true', not_or, Bool.not_eq_false] at h1 h2
          simp only [Bool.not_eq_true] at h3 h4
          exact ⟨rfl, h1.1, h1.2, h2.1.1.1, h2.1.1.2, h2.1.2, h2.2, h3, h4⟩


/-! ## The state machine: step lemmas -/

theorem GenesisCore.step_dead (g : GenesisCore) (s : WorldStimulus) (h : g.alive_ = false) :
    g.step s = (false, g) := by
  simp [GenesisCore.step, h]

theorem GenesisCore.step_commit (g : GenesisCore) (s : WorldStimulus) (h : g.alive_ = true)
    (hr : (evolve g.X_ s).2 = DeathReason.None) :
    g.step s = (true, { g with X_ := (evolve g.X_ s).1, step_ := (g.step_ + 1) % 2 ^ 64 }) := by
  simp [GenesisCore.step, h, hr]

theorem GenesisCore.step_kill (g : GenesisCore) (s : WorldStimulus) (h : g.alive_ = true)
    (hr : (evolve g.X_ s).2 ≠ DeathReason.None) :
    g.step s = (true, { X_ := { g.X_ with kappa := Dbl.zero }, step_ := (g.step_ + 1) % 2 ^ 64,
                        alive_ := false, death_reason_ := (evolve g.X_ s).2 }) := by
  simp [GenesisCore.step, h, hr, evolve_fail g.X_ s hr]

/-- A property that holds of the starting state and is kept by `step` holds after a run. -/
theorem GenesisCore.run_induction (P : GenesisCore → Prop)
    (hstep : ∀ (g : GenesisCore) (s : WorldStimulus), P g → P (g.step s).2) :
    ∀ (l : List WorldStimulus) (g : GenesisCore), P g → P (GenesisCore.run g l) := by
  intro l
  induction l with
  | nil => intro g hg; exact hg
  | cons s rest ih => intro g hg; exact ih _ (hstep g s hg)

theorem GenesisCore.run_append (g : GenesisCore) (l1 l2 : List WorldStimulus) :
    GenesisCore.run g (l1 ++ l2) = GenesisCore.run (GenesisCore.run g l1) l2 := by
  induction l1 generalizing g with
  | nil => rfl
  | cons s rest ih => exact ih _

theorem GenesisCore.inv_construct (init : InitialConditions) :
    (GenesisCore.construct init).Inv := by
  refine ⟨⟨?_, ?_, le_refl _⟩, ?_, ?_⟩
  · show Dbl.one.isNaN = false
    decide
  · show 0 ≤ Dbl.one.key
    decide
  · intro h
    simp [GenesisCore.construct] at h
  · simp [GenesisCore.construct]

theorem GenesisCore.inv_step (g : GenesisCore) (s : WorldStimulus) (h : g.Inv) :
    (g.step s).2.Inv := by
  cases ha : g.alive_ with
  | false => rw [GenesisCore.step_dead g s ha]; exact h
  | true =>
    by_cases hr : (evolve g.X_ s).2 = DeathReason.None
    · rw [GenesisCore.step_commit g s ha hr]
      obtain ⟨hX, -⟩ := evolve_ok g.X_ s hr
      refine ⟨?_, ?_, ?_⟩
      · simp only [hX]
        exact clamp01_range _
      · intro h2; simp [ha] at h2
      · have := h.2.2
        simpa using this
    · rw [GenesisCore.step_kill g s ha hr]
      refine ⟨⟨?_, ?_, ?_⟩, fun _ => rfl, ?_⟩
      · show Dbl.zero.isNaN = false
        decide
      · show 0 ≤ Dbl.zero.key
        decide
      · show Dbl.zero.key ≤ Dbl.one.key
        decide
      · simp [hr]

theorem GenesisCore.inv_run (init : InitialConditions) (l : List WorldStimulus) :
    (GenesisCore.run (GenesisCore.construct init) l).Inv :=
  GenesisCore.run_induction GenesisCore.Inv GenesisCore.inv_step l _
    (GenesisCore.inv_construct init)


theorem candidate_eq_updateLaw (X : StructuralState) (s : WorldStimulus) :
    ({ delta := (candidate X s).delta_new, phi := (candidate X s).phi_new,
       m := (candidate X s).m_new, kappa := (candidate X s).kappa_new } : StructuralState) =
      updateLaw X s := by
  have e1 : kAlphaStim = Dbl.ofDec 2 3 := by decide
  have e2 : Dbl.sub Dbl.one (Dbl.ofDec 4 2) = Dbl.ofDec 96 2 := by decide
  have e3 : kGammaPhi = Dbl.ofDec 4 2 := by decide
  have e4 : kEtaStimPhi = Dbl.ofDec 1 2 := by decide
  simp only [candidate, updateLaw, clamp01, e1, e2, e3, e4, kBetaDamp, kMuMemD, kNuMemPhi,
    kCkPhi, kCkMem]

/-- C1 (boundedness): in every state reached from a freshly constructed `GenesisCore`
by any sequence of `step` calls with arbitrary stimuli, the `kappa` reported by
`diagnostics` satisfies `0 <= kappa` and `kappa <= 1`. -/
theorem C1_kappa_bounded (init : InitialConditions) (stimuli : List WorldStimulus) :
    Dbl.le Dbl.zero (GenesisCore.run (GenesisCore.construct init) stimuli).diagnostics.kappa
        = true ∧
      Dbl.le (GenesisCore.run (GenesisCore.construct init) stimuli).diagnostics.kappa Dbl.one
        = true := by
  obtain ⟨⟨h1, h2, h3⟩, -⟩ := GenesisCore.inv_run init stimuli
  constructor
  · rw [Dbl.le_iff]
    exact ⟨by decide, h1, h2⟩
  · rw [Dbl.le_iff]
    exact ⟨h1, by decide, h3⟩


/-! ## Monotone memory -/

theorem candidate_m_new (X : StructuralState) (s : WorldStimulus) :
    (candidate X s).m_new = Dbl.add X.m (candidate X s).mem_inc := rfl

theorem candidate_mem_inc (X : StructuralState) (s : WorldStimulus) :
    (candidate X s).mem_inc =
      Dbl.add (Dbl.mul kMuMemD (Dbl.fabs (candidate X s).delta_new))
        (Dbl.mul kNuMemPhi (Dbl.fabs (candidate X s).phi_new)) := rfl

/-- A finite memory increment is non-negative. -/
theorem mem_inc_nonneg (X : StructuralState) (s : WorldStimulus)
    (h : (candidate X s).mem_inc.isFinite = true) : 0 ≤ (candidate X s).mem_inc.key := by
  rw [candidate_mem_inc] at h ⊢
  obtain ⟨hp, hq⟩ := Dbl.add_isFinite _ _ h
  obtain ⟨hp1, hp2⟩ := Dbl.mul_isFinite _ _ hp
  obtain ⟨hq1, hq2⟩ := Dbl.mul_isFinite _ _ hq
  have kp : 0 ≤ (Dbl.mul kMuMemD (Dbl.fabs (candidate X s).delta_new)).key := by
    apply Dbl.mul_key_ge _ _ hp1 hp2 0 Dbl.repI_zero
    rw [Dbl.fabs_key, zero_mul]
    exact Int.mul_nonneg (by decide) (abs_nonneg _)
  have kq : 0 ≤ (Dbl.mul kNuMemPhi (Dbl.fabs (candidate X s).phi_new)).key := by
    apply Dbl.mul_key_ge _ _ hq1 hq2 0 Dbl.repI_zero
    rw [Dbl.fabs_key, zero_mul]
    exact Int.mul_nonneg (by decide) (abs_nonneg _)
  exact Dbl.add_key_ge _ _ hp hq 0 Dbl.repI_zero (by omega)

theorem GenesisCore.m_finite_run (init : InitialConditions) (l : List WorldStimulus) :
    (GenesisCore.run (GenesisCore.construct init) l).X_.m.isFinite = true := by
  apply GenesisCore.run_induction (fun g => g.X_.m.isFinite = true) ?_ l
    (GenesisCore.construct init) rfl
  intro g s hg
  cases ha : g.alive_ with
  | false => rw [GenesisCore.step_dead g s ha]; exact hg
  | true =>
    by_cases hr : (evolve g.X_ s).2 = DeathReason.None
    · rw [GenesisCore.step_commit g s ha hr]
      have := evolve_ok g.X_ s hr
      simp only [this.1]
      exact this.2.2.2.2.2.1
    · rw [GenesisCore.step_kill g s ha hr]
      exact hg

/-- C2 (monotonic memory): for every state reached from a fresh `GenesisCore` and every
stimulus, `mmag` after `step` is `>=` `mmag` before it: when the machine is dead
afterwards (fatal or refused step) `m` is unchanged, and when it is alive afterwards `m`
has grown by `mem_inc = mu*|delta_new| + nu*|phi_new|`, which is `>= 0`. -/
theorem C2_memory_monotone (init : InitialConditions) (stimuli : List WorldStimulus)
    (s : WorldStimulus) :
    Dbl.le (GenesisCore.run (GenesisCore.construct init) stimuli).diagnostics.mmag
        ((GenesisCore.run (GenesisCore.construct init) stimuli).step s).2.diagnostics.mmag
        = true ∧
    (((GenesisCore.run (GenesisCore.construct init) stimuli).step s).2.diagnostics.alive
        = false →
      ((GenesisCore.run (GenesisCore.construct init) stimuli).step s).2.diagnostics.mmag =
        (GenesisCore.run (GenesisCore.construct init) stimuli).diagnostics.mmag) ∧
    (((GenesisCore.run (GenesisCore.construct init) stimuli).step s).2.diagnostics.alive
        = true →
      ((GenesisCore.run (GenesisCore.construct init) stimuli).step s).2.diagnostics.mmag =
        Dbl.add (GenesisCore.run (GenesisCore.construct init) stimuli).diagnostics.mmag
          (candidate (GenesisCore.run (GenesisCore.construct init) stimuli).X_ s).mem_inc ∧
      Dbl.le Dbl.zero
        (candidate (GenesisCore.run (GenesisCore.construct init) stimuli).X_ s).mem_inc
        = true) := by
  have hm := GenesisCore.m_finite_run init stimuli
  generalize GenesisCore.run (GenesisCore.construct init) stimuli = g at hm ⊢
  have hrefl : Dbl.le g.X_.m g.X_.m = true := by
    rw [Dbl.le_iff]
    exact ⟨Dbl.isFinite_isNaN _ hm, Dbl.isFinite_isNaN _ hm, le_refl _⟩
  cases ha : g.alive_ with
  | false =>
    rw [GenesisCore.step_dead g s ha]
    refine ⟨hrefl, fun _ => rfl, ?_⟩
    intro h
    rw [show g.diagnostics.alive = g.alive_ from rfl, ha] at h
    exact absurd h (by decide)
  | true =>
    by_cases hr : (evolve g.X_ s).2 = DeathReason.None
    · rw [GenesisCore.step_commit g s ha hr]
      obtain ⟨hX, -, -, -, -, hmf, -⟩ := evolve_ok g.X_ s hr
      have hinc := (Dbl.add_isFinite _ _ (by rw [← candidate_m_new]; exact hmf)).2
      have hnn := mem_inc_nonneg g.X_ s hinc
      have hmm : ({ g with X_ := (evolve g.X_ s).1,
                           step_ := (g.step_ + 1) % 2 ^ 64 } : GenesisCore).diagnostics.mmag
          = Dbl.add g.X_.m (candidate g.X_ s).mem_inc := by
        show (evolve g.X_ s).1.m = _
        rw [hX]
        rfl
      refine ⟨?_, ?_, ?_⟩
      · rw [hmm, Dbl.le_iff]
        refine ⟨Dbl.isFinite_isNaN _ hm, Dbl.add_isNaN _ _ hm hinc, ?_⟩
        exact Dbl.add_key_ge _ _ hm hinc _ (Dbl.repI_key _ hm)
          (by show g.X_.m.key ≤ _; omega)
      · intro h
        rw [show ({ g with X_ := (evolve g.X_ s).1,
                           step_ := (g.step_ + 1) % 2 ^ 64 } : GenesisCore).diagnostics.alive
              = g.alive_ from rfl, ha] at h
        exact absurd h (by decide)
      · intro _
        refine ⟨hmm, ?_⟩
        rw [Dbl.le_iff]
        exact ⟨rfl, Dbl.isFinite_isNaN _ hinc, hnn⟩
    · rw [GenesisCore.step_kill g s ha hr]
      refine ⟨hrefl, fun _ => rfl, ?_⟩
      intro h
      exact absurd h (Bool.false_ne_true)

/-- Witness for C2: the first step of a fresh machine with the stimulus `(0.5, 0.25)`
leaves it alive, and one with a NaN stimulus kills it. -/
theorem C2_memory_monotone_witness :
    (((GenesisCore.run (GenesisCore.construct {}) []).step
        { a := Dbl.ofDec 5 1, b := Dbl.ofDec 25 2 }).2.diagnostics.alive = true ∧
      Dbl.le Dbl.zero
        (candidate (GenesisCore.run (GenesisCore.construct {}) []).X_
          { a := Dbl.ofDec 5 1, b := Dbl.ofDec 25 2 }).mem_inc = true) ∧
    (((GenesisCore.run (GenesisCore.construct {}) []).step
        { a := Dbl.nan }).2.diagnostics.alive = false ∧
      ((GenesisCore.run (GenesisCore.construct {}) []).step { a := Dbl.nan }).2.diagnostics.mmag
        = (GenesisCore.run (GenesisCore.construct {}) []).diagnostics.mmag) :=
  ⟨⟨by decide,
      ((C2_memory_monotone {} [] { a := Dbl.ofDec 5 1, b := Dbl.ofDec 25 2 }).2.2
        (by decide)).2⟩,
    ⟨by decide, (C2_memory_monotone {} [] { a := Dbl.nan }).2.1 (by decide)⟩⟩


/-- C3 (death terminality): on a state with `alive == false`, `step` returns `false`
and leaves every field of the diagnostic snapshot as it was; the same holds after any
number of further `step` calls. -/
theorem C3_death_terminal (g : GenesisCore) (s : WorldStimulus)
    (h : g.diagnostics.alive = false) :
    (g.step s).1 = false ∧ (g.step s).2.diagnostics = g.diagnostics ∧
      ∀ l : List WorldStimulus, (GenesisCore.run g l).diagnostics = g.diagnostics := by
  have ha : g.alive_ = false := h
  refine ⟨by rw [GenesisCore.step_dead g s ha], by rw [GenesisCore.step_dead g s ha], ?_⟩
  intro l
  induction l with
  | nil => rfl
  | cons t rest ih =>
    show (GenesisCore.run (g.step t).2 rest).diagnostics = g.diagnostics
    rw [GenesisCore.step_dead g t ha]
    exact ih

/-- Witness for C3: the machine killed by a NaN stimulus stays as it is. -/
theorem C3_death_terminal_witness :
    ((GenesisCore.construct {}).step { a := Dbl.nan }).2.diagnostics.alive = false ∧
    ((((GenesisCore.construct {}).step { a := Dbl.nan }).2.step {}).1 = false ∧
      (((GenesisCore.construct {}).step { a := Dbl.nan }).2.step {}).2.diagnostics =
        ((GenesisCore.construct {}).step { a := Dbl.nan }).2.diagnostics ∧
      ∀ l : List WorldStimulus,
        (GenesisCore.run ((GenesisCore.construct {}).step { a := Dbl.nan }).2 l).diagnostics =
          ((GenesisCore.construct {}).step { a := Dbl.nan }).2.diagnostics) :=
  ⟨by decide, C3_death_terminal _ _ (by decide)⟩

/-- C4 (death implies zero integrity): in every state reached from a freshly constructed
`GenesisCore`, if `diagnostics().alive` is false then `diagnostics().kappa` is `+0.0`,
so `kappa == 0` holds. -/
theorem C4_dead_kappa_zero (init : InitialConditions) (stimuli : List WorldStimulus)
    (h : (GenesisCore.run (GenesisCore.construct init) stimuli).diagnostics.alive = false) :
    (GenesisCore.run (GenesisCore.construct init) stimuli).diagnostics.kappa = Dbl.zero ∧
      Dbl.eq (GenesisCore.run (GenesisCore.construct init) stimuli).diagnostics.kappa Dbl.zero
        = true := by
  have hk : (GenesisCore.run (GenesisCore.construct init) stimuli).diagnostics.kappa
      = Dbl.zero := (GenesisCore.inv_run init stimuli).2.1 h
  refine ⟨hk, ?_⟩
  rw [hk]
  decide

/-- Witness for C4: a machine killed by an infinite stimulus. -/
theorem C4_dead_kappa_zero_witness :
    (GenesisCore.run (GenesisCore.construct {}) [{ b := Dbl.inf false }]).diagnostics.alive
        = false ∧
    ((GenesisCore.run (GenesisCore.construct {}) [{ b := Dbl.inf false }]).diagnostics.kappa
        = Dbl.zero ∧
      Dbl.eq
        (GenesisCore.run (GenesisCore.construct {}) [{ b := Dbl.inf false }]).diagnostics.kappa
        Dbl.zero = true) :=
  ⟨by decide, C4_dead_kappa_zero {} [{ b := Dbl.inf false }] (by decide)⟩

/-- C5 (reason exclusivity): in every state reached from a freshly constructed
`GenesisCore`, `death_reason != None` if and only if `alive == false`. -/
theorem C5_reason_iff_dead (init : InitialConditions) (stimuli : List WorldStimulus) :
    (GenesisCore.run (GenesisCore.construct init) stimuli).diagnostics.death_reason
        ≠ DeathReason.None ↔
      (GenesisCore.run (GenesisCore.construct init) stimuli).diagnostics.alive = false :=
  (GenesisCore.inv_run init stimuli).2.2

/-- C6 (failure atomicity of `evolve`): if `evolve` returns a reason other than `None`
then `delta`, `phi` and `m` keep their values and `kappa` is `+0.0`. -/
theorem C6_failure_atomic (X : StructuralState) (s : WorldStimulus)
    (h : (evolve X s).2 ≠ DeathReason.None) :
    (evolve X s).1.delta = X.delta ∧ (evolve X s).1.phi = X.phi ∧ (evolve X s).1.m = X.m ∧
      (evolve X s).1.kappa = Dbl.zero := by
  rw [evolve_fail X s h]
  exact ⟨rfl, rfl, rfl, rfl⟩

/-- Witness for C6: the initial state with a stimulus that overflows `phi`. -/
theorem C6_failure_atomic_witness :
    (evolve {} { a := Dbl.ofNat 100000 }).2 ≠ DeathReason.None ∧
    ((evolve {} { a := Dbl.ofNat 100000 }).1.delta = ({} : StructuralState).delta ∧
      (evolve {} { a := Dbl.ofNat 100000 }).1.phi = ({} : StructuralState).phi ∧
      (evolve {} { a := Dbl.ofNat 100000 }).1.m = ({} : StructuralState).m ∧
      (evolve {} { a := Dbl.ofNat 100000 }).1.kappa = Dbl.zero) :=
  ⟨by decide, C6_failure_atomic {} { a := Dbl.ofNat 100000 } (by decide)⟩

/-- C7 (update law on success): when `evolve` returns `None` the committed state is the
one given by the update law of the specification, all four fields being replaced. -/
theorem C7_update_law (X : StructuralState) (s : WorldStimulus)
    (h : (evolve X s).2 = DeathReason.None) :
    (evolve X s).1 = updateLaw X s := by
  rw [(evolve_ok X s h).1]
  exact candidate_eq_updateLaw X s

/-- Witness for C7: the initial state with the stimulus `(0.5, 0.25)`. -/
theorem C7_update_law_witness :
    (evolve {} { a := Dbl.ofDec 5 1, b := Dbl.ofDec 25 2 }).2 = DeathReason.None ∧
    (evolve {} { a := Dbl.ofDec 5 1, b := Dbl.ofDec 25 2 }).1 =
      updateLaw {} { a := Dbl.ofDec 5 1, b := Dbl.ofDec 25 2 } :=
  ⟨by decide, C7_update_law {} { a := Dbl.ofDec 5 1, b := Dbl.ofDec 25 2 } (by decide)⟩


theorem Dbl.eq_iff (x y : Dbl) :
    Dbl.eq x y = true ↔ x.isNaN = false ∧ y.isNaN = false ∧ x.key = y.key := by
  simp [Dbl.eq, and_assoc]

/-- C8 (death classification): `evolve` returns `NonFinite` iff `a`, `b` or one of the
candidate values is not finite; otherwise `PhiOverflow` iff `phi_new > 1e6` (equality is
not overflow); otherwise `KappaZero` iff the clamped `kappa_new <= 1e-12` (equality
kills); otherwise `None`.  When `phi_new > 1e6` and `kappa_new <= 1e-12` both hold the
reason is `PhiOverflow`. -/
theorem C8_death_classification (X : StructuralState) (s : WorldStimulus) :
    ((evolve X s).2 = DeathReason.NonFinite ↔
      (is_finite s.a = false ∨ is_finite s.b = false ∨
        is_finite (candidate X s).delta_new = false ∨
        is_finite (candidate X s).phi_new = false ∨
        is_finite (candidate X s).m_new = false ∨
        is_finite (candidate X s).kappa_new = false)) ∧
    ((evolve X s).2 ≠ DeathReason.NonFinite →
      ((evolve X s).2 = DeathReason.PhiOverflow ↔
        Dbl.gt (candidate X s).phi_new kPhiMax = true) ∧
      (Dbl.eq (candidate X s).phi_new kPhiMax = true →
        (evolve X s).2 ≠ DeathReason.PhiOverflow) ∧
      ((evolve X s).2 ≠ DeathReason.PhiOverflow →
        ((evolve X s).2 = DeathReason.KappaZero ↔
          Dbl.le (candidate X s).kappa_new kKappaEps = true) ∧
        (Dbl.eq (candidate X s).kappa_new kKappaEps = true →
          (evolve X s).2 = DeathReason.KappaZero) ∧
        ((evolve X s).2 ≠ DeathReason.KappaZero → (evolve X s).2 = DeathReason.None)) ∧
      (Dbl.gt (candidate X s).phi_new kPhiMax = true →
        Dbl.le (candidate X s).kappa_new kKappaEps = true →
        (evolve X s).2 = DeathReason.PhiOverflow)) := by
  have heq1 : Dbl.eq (candidate X s).phi_new kPhiMax = true →
      Dbl.gt (candidate X s).phi_new kPhiMax = false := by
    intro h
    rw [Dbl.eq_iff] at h
    cases hg : Dbl.gt (candidate X s).phi_new kPhiMax with
    | false => rfl
    | true =>
      rw [Dbl.gt, Dbl.lt_iff] at hg
      omega
  have heq2 : Dbl.eq (candidate X s).kappa_new kKappaEps = true →
      Dbl.le (candidate X s).kappa_new kKappaEps = true := by
    intro h
    rw [Dbl.eq_iff] at h
    rw [Dbl.le_iff]
    exact ⟨h.1, h.2.1, le_of_eq h.2.2⟩
  have hnf : (is_finite s.a = false ∨ is_finite s.b = false ∨
        is_finite (candidate X s).delta_new = false ∨
        is_finite (candidate X s).phi_new = false ∨
        is_finite (candidate X s).m_new = false ∨
        is_finite (candidate X s).kappa_new = false) ↔
      (!is_finite s.a || !is_finite s.b || !is_finite (candidate X s).delta_new
          || !is_finite (candidate X s).phi_new || !is_finite (candidate X s).m_new
          || !is_finite (candidate X s).kappa_new) = true := by
    simp only [Bool.or_eq_true, Bool.not_eq_true', or_assoc]
  rw [evolve_reason, hnf]
  revert heq1 heq2
  generalize (!is_finite s.a || !is_finite s.b || !is_finite (candidate X s).delta_new
          || !is_finite (candidate X s).phi_new || !is_finite (candidate X s).m_new
          || !is_finite (candidate X s).kappa_new) = n
  generalize Dbl.gt (candidate X s).phi_new kPhiMax = g
  generalize Dbl.le (candidate X s).kappa_new kKappaEps = h
  generalize Dbl.eq (candidate X s).phi_new kPhiMax = p
  generalize Dbl.eq (candidate X s).kappa_new kKappaEps = q
  cases n <;> cases g <;> cases h <;> cases p <;> cases q <;> simp

/-- Witness for C8: from the initial state the stimulus `(100000, 0)` gives finite
candidates with `phi_new > 1e6` and `kappa_new <= 1e-12`, classified `PhiOverflow`. -/
theorem C8_death_classification_witness :
    (evolve {} { a := Dbl.ofNat 100000 }).2 ≠ DeathReason.NonFinite ∧
    Dbl.gt (candidate {} { a := Dbl.ofNat 100000 }).phi_new kPhiMax = true ∧
    Dbl.le (candidate {} { a := Dbl.ofNat 100000 }).kappa_new kKappaEps = true ∧
    (evolve {} { a := Dbl.ofNat 100000 }).2 = DeathReason.PhiOverflow :=
  ⟨by decide, by decide, by decide,
    ((C8_death_classification {} { a := Dbl.ofNat 100000 }).2 (by decide)).2.2.2
      (by decide) (by decide)⟩

/-! ## Step accounting -/

theorem GenesisCore.step_alive_fst (g : GenesisCore) (s : WorldStimulus) (h : g.alive_ = true) :
    (g.step s).1 = true ∧ (g.step s).2.step_ = (g.step_ + 1) % 2 ^ 64 := by
  by_cases hr : (evolve g.X_ s).2 = DeathReason.None
  · rw [GenesisCore.step_commit g s h hr]
    exact ⟨rfl, rfl⟩
  · rw [GenesisCore.step_kill g s h hr]
    exact ⟨rfl, rfl⟩

theorem GenesisCore.run_step_count (l : List WorldStimulus) :
    ∀ g : GenesisCore, g.step_ < 2 ^ 64 →
      (GenesisCore.run g l).step_ = (g.step_ + GenesisCore.executed g l) % 2 ^ 64 := by
  induction l with
  | nil =>
    intro g hg
    show g.step_ = (g.step_ + 0) % 2 ^ 64
    rw [Nat.add_zero, Nat.mod_eq_of_lt hg]
  | cons s rest ih =>
    intro g hg
    show (GenesisCore.run (g.step s).2 rest).step_ =
      (g.step_ + ((if (g.step s).1 then 1 else 0) + GenesisCore.executed (g.step s).2 rest))
        % 2 ^ 64
    cases ha : g.alive_ with
    | false =>
      rw [GenesisCore.step_dead g s ha]
      simp only [Bool.false_eq_true, if_false, Nat.zero_add]
      exact ih g hg
    | true =>
      obtain ⟨h1, h2⟩ := GenesisCore.step_alive_fst g s ha
      have hlt : (g.step s).2.step_ < 2 ^ 64 := by
        rw [h2]; exact Nat.mod_lt _ (by decide)
      rw [ih _ hlt, h1, h2]
      simp only [if_true]
      rw [Nat.mod_add_mod, Nat.add_assoc]

theorem evolve_rest : evolve {} {} = ({}, DeathReason.None) := by decide

theorem GenesisCore.run_rest (k : Nat) :
    ∀ n : Nat, n < 2 ^ 64 →
      GenesisCore.run { X_ := {}, step_ := n, alive_ := true, death_reason_ := DeathReason.None }
          (List.replicate k {}) =
        { X_ := {}, step_ := (n + k) % 2 ^ 64, alive_ := true,
          death_reason_ := DeathReason.None } := by
  induction k with
  | zero =>
    intro n hn
    show _ = _
    simp only [List.replicate, GenesisCore.run, Nat.add_zero, Nat.mod_eq_of_lt hn]
  | succ k ih =>
    intro n hn
    have hs : GenesisCore.step
        { X_ := {}, step_ := n, alive_ := true, death_reason_ := DeathReason.None } {} =
        (true, { X_ := {}, step_ := (n + 1) % 2 ^ 64, alive_ := true,
                 death_reason_ := DeathReason.None }) := by
      rw [GenesisCore.step_commit _ _ rfl (by rw [evolve_rest])]
      simp only [evolve_rest]
    show GenesisCore.run (GenesisCore.step _ _).2 (List.replicate k {}) = _
    rw [hs]
    simp only
    rw [ih _ (Nat.mod_lt _ (by decide)), Nat.mod_add_mod]
    congr 2
    omega

/-- C9, the claim as stated fails: the state reached from a fresh machine by
`2^64 - 1` steps with the stimulus `(0, 0)` is alive, `step` is executed on it, and the
step counter wraps to 0 instead of increasing by 1. -/
theorem C9_counterexample :
    (GenesisCore.run (GenesisCore.construct {})
        (List.replicate (2 ^ 64 - 1) {})).alive = true ∧
    ((GenesisCore.run (GenesisCore.construct {})
        (List.replicate (2 ^ 64 - 1) {})).step {}).1 = true ∧
    (GenesisCore.run (GenesisCore.construct {})
        (List.replicate (2 ^ 64 - 1) {})).diagnostics.step = 2 ^ 64 - 1 ∧
    ((GenesisCore.run (GenesisCore.construct {})
        (List.replicate (2 ^ 64 - 1) {})).step {}).2.diagnostics.step = 0 ∧
    ((GenesisCore.run (GenesisCore.construct {})
        (List.replicate (2 ^ 64 - 1) {})).step {}).2.diagnostics.step ≠
      (GenesisCore.run (GenesisCore.construct {})
        (List.replicate (2 ^ 64 - 1) {})).diagnostics.step + 1 := by
  have h := GenesisCore.run_rest (2 ^ 64 - 1) 0 (by decide)
  have hc : GenesisCore.construct {} =
      { X_ := {}, step_ := 0, alive_ := true, death_reason_ := DeathReason.None } := rfl
  rw [hc, h]
  decide

/-- C9, amended (step accounting): on an alive state `step` returns `true` and the
step counter becomes `(step + 1) mod 2^64`, also on the step that kills the machine; so
it increases by exactly 1 whenever `step + 1 < 2^64`.  After a run from a fresh machine
in which `n` calls were executed, `diagnostics().step == n mod 2^64`, which is `n` for
`n < 2^64` (1 after the first step). -/
theorem C9_step_accounting (g : GenesisCore) (s : WorldStimulus) (h : g.alive = true) :
    ((g.step s).1 = true ∧
      (g.step s).2.diagnostics.step = (g.diagnostics.step + 1) % 2 ^ 64 ∧
      (g.diagnostics.step + 1 < 2 ^ 64 →
        (g.step s).2.diagnostics.step = g.diagnostics.step + 1)) ∧
    ∀ (init : InitialConditions) (l : List WorldStimulus),
      (GenesisCore.run (GenesisCore.construct init) l).diagnostics.step =
        GenesisCore.executed (GenesisCore.construct init) l % 2 ^ 64 ∧
      (GenesisCore.executed (GenesisCore.construct init) l < 2 ^ 64 →
        (GenesisCore.run (GenesisCore.construct init) l).diagnostics.step =
          GenesisCore.executed (GenesisCore.construct init) l) := by
  have hs := GenesisCore.step_alive_fst g s h
  have hrun : ∀ (init : InitialConditions) (l : List WorldStimulus),
      (GenesisCore.run (GenesisCore.construct init) l).diagnostics.step =
        GenesisCore.executed (GenesisCore.construct init) l % 2 ^ 64 := by
    intro init l
    have := GenesisCore.run_step_count l (GenesisCore.construct init)
      (by show 0 < 2 ^ 64; decide)
    simpa [GenesisCore.diagnostics, GenesisCore.construct] using this
  refine ⟨⟨hs.1, hs.2, ?_⟩, ?_⟩
  · intro hlt
    show (g.step s).2.step_ = g.step_ + 1
    rw [hs.2]
    exact Nat.mod_eq_of_lt hlt
  · intro init l
    refine ⟨hrun init l, ?_⟩
    intro hlt
    rw [hrun init l]
    exact Nat.mod_eq_of_lt hlt

/-- Witness for C9: the first step of a fresh machine, killed by a NaN stimulus. -/
theorem C9_step_accounting_witness :
    (GenesisCore.construct {}).alive = true ∧
    ((GenesisCore.construct {}).step { a := Dbl.nan }).2.diagnostics.alive = false ∧
    ((GenesisCore.construct {}).step { a := Dbl.nan }).1 = true ∧
    ((GenesisCore.construct {}).step { a := Dbl.nan }).2.diagnostics.step = 1 :=
  ⟨by decide, by decide,
    (C9_step_accounting (GenesisCore.construct {}) { a := Dbl.nan } (by decide)).1.1,
    (C9_step_accounting (GenesisCore.construct {}) { a := Dbl.nan } (by decide)).1.2.2
      (by decide)⟩


namespace Dbl

/-! ## Interval bounds for binary64 arithmetic -/

theorem fine_pos : (0 : Int) < (fine : Int) := by
  have : 0 < fine := Nat.pow_pos (by decide)
  exact_mod_cast this

theorem unit_eq_fine : (unit : Int) = 16777216 * (fine : Int) := by
  have : unit = 16777216 * fine := by
    unfold unit fine
    rw [show (16777216 : Nat) = 2 ^ 24 by norm_num, ← pow_add]
  exact_mod_cast this

theorem repI_fine (c : Int) (h1 : -9007199254740992 < c) (h2 : c < 9007199254740992) :
    RepI (c * (fine : Int)) := by
  refine ⟨c.natAbs * fine, ⟨c.natAbs, 1050, rfl, ?_, by omega⟩, ?_⟩
  · have : (2 : Nat) ^ 53 = 9007199254740992 := by norm_num
    omega
  · rcases le_total 0 c with hc | hc
    · left
      rw [Nat.cast_mul, Int.natCast_natAbs, abs_of_nonneg hc]
    · right
      rw [Nat.cast_mul, Int.natCast_natAbs, abs_of_nonpos hc]
      ring

theorem Bd.weaken {x : Dbl} {lo hi : Int} (h : Bd x lo hi) (lo1 hi1 : Int) (h1 : lo1 ≤ lo)
    (h2 : hi ≤ hi1) : Bd x lo1 hi1 := by
  obtain ⟨hf, ha, hb⟩ := h
  have := fine_pos
  refine ⟨hf, ?_, ?_⟩
  · have : lo1 * (fine : Int) ≤ lo * (fine : Int) := Int.mul_le_mul_of_nonneg_right h1 (by omega)
    omega
  · have : hi * (fine : Int) ≤ hi1 * (fine : Int) := Int.mul_le_mul_of_nonneg_right h2 (by omega)
    omega

theorem add_bd {x y : Dbl} {l1 h1 l2 h2 : Int} (hx : Bd x l1 h1) (hy : Bd y l2 h2)
    (hl : -9007199254740992 < l1 + l2) (hl2 : l1 + l2 < 9007199254740992)
    (hh : -9007199254740992 < h1 + h2) (hh2 : h1 + h2 < 9007199254740992) :
    Bd (add x y) (l1 + l2) (h1 + h2) := by
  obtain ⟨fx, ax, bx⟩ := hx
  obtain ⟨fy, ay, byy⟩ := hy
  have rl := repI_fine (l1 + l2) hl hl2
  have rh := repI_fine (h1 + h2) hh hh2
  have e1 : (l1 + l2) * (fine : Int) = l1 * fine + l2 * fine := by ring
  have e2 : (h1 + h2) * (fine : Int) = h1 * fine + h2 * fine := by ring
  have k1 := add_key_ge x y fx fy _ rl (by omega)
  have k2 := add_key_le x y fx fy _ rh (by omega)
  exact ⟨finite_of_bounds _ (add_isNaN x y fx fy) _ _ rl rh k1 k2, k1, k2⟩

theorem neg_bd {x : Dbl} {l h : Int} (hx : Bd x l h) : Bd (neg x) (-h) (-l) := by
  obtain ⟨fx, ax, bx⟩ := hx
  refine ⟨by rw [neg_isFinite]; exact fx, ?_, ?_⟩
  · rw [neg_key]
    have : -h * (fine : Int) = -(h * fine) := by ring
    omega
  · rw [neg_key]
    have : -l * (fine : Int) = -(l * fine) := by ring
    omega

theorem sub_bd {x y : Dbl} {l1 h1 l2 h2 : Int} (hx : Bd x l1 h1) (hy : Bd y l2 h2)
    (hl : -9007199254740992 < l1 - h2) (hl2 : l1 - h2 < 9007199254740992)
    (hh : -9007199254740992 < h1 - l2) (hh2 : h1 - l2 < 9007199254740992) :
    Bd (sub x y) (l1 - h2) (h1 - l2) := by
  have := add_bd hx (neg_bd hy) (by omega) (by omega) (by omega) (by omega)
  rw [show l1 + -h2 = l1 - h2 by ring, show h1 + -l2 = h1 - l2 by ring] at this
  exact this

theorem fabs_bd {x : Dbl} {a : Int} (hx : Bd x (-a) a) : Bd (fabs x) 0 a := by
  obtain ⟨fx, ax, bx⟩ := hx
  refine ⟨by rw [fabs_isFinite]; exact fx, ?_, ?_⟩
  · rw [fabs_key, zero_mul]
    exact abs_nonneg _
  · rw [fabs_key, abs_le]
    have : -a * (fine : Int) = -(a * fine) := by ring
    constructor <;> omega

/-- Product of two bounded values: `|x| ≤ a`, `|y| ≤ b` give `|x*y| ≤ c` when
`a * b ≤ c * 2^24` (coefficients in units of `2^-24`). -/
theorem mul_bd {x y : Dbl} {a b c : Int} (hx : Bd x (-a) a) (hy : Bd y (-b) b)
    (hc : a * b ≤ c * 16777216) (hc2 : c < 9007199254740992) : Bd (mul x y) (-c) c := by
  obtain ⟨fx, ax, bx⟩ := hx
  obtain ⟨fy, ay, byy⟩ := hy
  have hf := fine_pos
  have ha0 : 0 ≤ a := by
    by_contra hneg
    have : a * (fine : Int) < 0 := Int.mul_neg_of_neg_of_pos (by omega) hf
    have e : -a * (fine : Int) = -(a * fine) := by ring
    omega
  have hb0 : 0 ≤ b := by
    by_contra hneg
    have : b * (fine : Int) < 0 := Int.mul_neg_of_neg_of_pos (by omega) hf
    have e : -b * (fine : Int) = -(b * fine) := by ring
    omega
  have hc0 : 0 ≤ c := by
    by_contra hneg
    have : 0 ≤ a * b := Int.mul_nonneg ha0 hb0
    omega
  have hxa : |x.key| ≤ a * (fine : Int) := by
    rw [abs_le]
    have e : -a * (fine : Int) = -(a * fine) := by ring
    constructor <;> omega
  have hyb : |y.key| ≤ b * (fine : Int) := by
    rw [abs_le]
    have e : -b * (fine : Int) = -(b * fine) := by ring
    constructor <;> omega
  have hprod : |x.key * y.key| ≤ c * (fine : Int) * (unit : Int) := by
    rw [abs_mul]
    calc |x.key| * |y.key| ≤ (a * (fine : Int)) * (b * (fine : Int)) :=
          mul_le_mul hxa hyb (abs_nonneg _) (by positivity)
      _ = (a * b) * ((fine : Int) * (fine : Int)) := by ring
      _ ≤ (c * 16777216) * ((fine : Int) * (fine : Int)) :=
          Int.mul_le_mul_of_nonneg_right hc (by positivity)
      _ = c * (fine : Int) * (unit : Int) := by rw [unit_eq_fine]; ring
  rw [abs_le] at hprod
  have rc := repI_fine c (by omega) hc2
  have rnc := repI_fine (-c) (by omega) (by omega)
  have k1 := mul_key_ge x y fx fy _ rnc (by
    have : -c * (fine : Int) * (unit : Int) = -(c * (fine : Int) * (unit : Int)) := by ring
    omega)
  have k2 := mul_key_le x y fx fy _ rc hprod.2
  exact ⟨finite_of_bounds _ (mul_isNaN x y fx fy) _ _ rnc rc k1 k2, k1, k2⟩

/-- The product of two non-negative finite values is non-negative. -/
theorem mul_nonneg_key {x y : Dbl} (fx : x.isFinite = true) (fy : y.isFinite = true)
    (hx : 0 ≤ x.key) (hy : 0 ≤ y.key) : 0 ≤ (mul x y).key := by
  apply mul_key_ge x y fx fy 0 repI_zero
  rw [zero_mul]
  exact Int.mul_nonneg hx hy

theorem mul_bd_nonneg {x y : Dbl} {a b c : Int} (hx : Bd x 0 a) (hy : Bd y 0 b)
    (hc : a * b ≤ c * 16777216) (hc2 : c < 9007199254740992) : Bd (mul x y) 0 c := by
  have hf := fine_pos
  have ha0 : 0 ≤ a := by
    by_contra hneg
    have : a * (fine : Int) < 0 := Int.mul_neg_of_neg_of_pos (by omega) hf
    have := hx.2.1; have := hx.2.2
    omega
  have hb0 : 0 ≤ b := by
    by_contra hneg
    have : b * (fine : Int) < 0 := Int.mul_neg_of_neg_of_pos (by omega) hf
    have := hy.2.1; have := hy.2.2
    omega
  have h := mul_bd (hx.weaken (-a) a (by omega) (le_refl _))
    (hy.weaken (-b) b (by omega) (le_refl _)) hc hc2
  have h0 := mul_nonneg_key hx.1 hy.1 (by have := hx.2.1; omega) (by have := hy.2.1; omega)
  exact ⟨h.1, by omega, h.2.2⟩

end Dbl


/-! ## The evolution operator under bounded stimuli -/

theorem bd_kAlphaStim : Dbl.Bd kAlphaStim 0 65536 := ⟨by decide, by decide, by decide⟩
theorem bd_kBetaDamp : Dbl.Bd kBetaDamp 0 16384 := ⟨by decide, by decide, by decide⟩
theorem bd_kGammaPhi : Dbl.Bd kGammaPhi 524288 1048576 := ⟨by decide, by decide, by decide⟩
theorem bd_one_sub_kGammaPhi : Dbl.Bd (Dbl.sub Dbl.one kGammaPhi) 0 16777216 :=
  ⟨by decide, by decide, by decide⟩
theorem bd_kEtaStimPhi : Dbl.Bd kEtaStimPhi 0 262144 := ⟨by decide, by decide, by decide⟩
theorem bd_kMuMemD : Dbl.Bd kMuMemD 0 16384 := ⟨by decide, by decide, by decide⟩
theorem bd_kNuMemPhi : Dbl.Bd kNuMemPhi 0 4096 := ⟨by decide, by decide, by decide⟩
theorem bd_kCkPhi : Dbl.Bd kCkPhi 2048 4096 := ⟨by decide, by decide, by decide⟩
theorem bd_kCkMem : Dbl.Bd kCkMem 0 256 := ⟨by decide, by decide, by decide⟩
theorem key_kPhiMax : kPhiMax.key = 16777216000000 * (Dbl.fine : Int) := by decide
theorem key_kKappaEps : kKappaEps.isNaN = false ∧ 0 ≤ kKappaEps.key := ⟨by decide, by decide⟩

theorem candidate_delta_new (X : StructuralState) (s : WorldStimulus) :
    (candidate X s).delta_new =
      Dbl.sub (Dbl.add X.delta (Dbl.mul kAlphaStim (Dbl.sub s.a s.b)))
        (Dbl.mul (Dbl.mul kBetaDamp X.kappa) X.delta) := rfl

theorem candidate_phi_new (X : StructuralState) (s : WorldStimulus) :
    (candidate X s).phi_new =
      Dbl.add (Dbl.mul (Dbl.sub Dbl.one kGammaPhi) X.phi)
        (Dbl.mul kGammaPhi
          (Dbl.add (Dbl.mul (candidate X s).delta_new (candidate X s).delta_new)
            (Dbl.mul kEtaStimPhi (Dbl.add (Dbl.mul s.a s.a) (Dbl.mul s.b s.b))))) := rfl

theorem candidate_kappa_new (X : StructuralState) (s : WorldStimulus) :
    (candidate X s).kappa_new =
      clamp01 (Dbl.sub (Dbl.sub X.kappa (Dbl.mul kCkPhi (candidate X s).phi_new))
        (Dbl.mul kCkMem (candidate X s).mem_inc)) := rfl

/-- Forward bounds: `|delta_new| ≤ 513`. -/
theorem delta_new_bd (X : StructuralState) (s : WorldStimulus) (hX : StateOK X)
    (hs : StimOK s) : Dbl.Bd (candidate X s).delta_new (-8606711808) 8606711808 := by
  obtain ⟨hd, hp, hm, hk⟩ := hX
  obtain ⟨ha, hb⟩ := hs
  have hdir : Dbl.Bd (Dbl.sub s.a s.b) (-16777216) 16777216 :=
    Dbl.sub_bd ha hb (by norm_num) (by norm_num) (by norm_num) (by norm_num)
  have ht1 : Dbl.Bd (Dbl.mul kAlphaStim (Dbl.sub s.a s.b)) (-65536) 65536 :=
    Dbl.mul_bd (bd_kAlphaStim.weaken (-65536) 65536 (by norm_num) (le_refl _)) hdir
      (by norm_num) (by norm_num)
  have hs1 := Dbl.add_bd hd ht1 (by norm_num) (by norm_num) (by norm_num) (by norm_num)
  have hu : Dbl.Bd (Dbl.mul kBetaDamp X.kappa) 0 16384 :=
    Dbl.mul_bd_nonneg bd_kBetaDamp hk (by norm_num) (by norm_num)
  have ht2 : Dbl.Bd (Dbl.mul (Dbl.mul kBetaDamp X.kappa) X.delta) (-8388608) 8388608 :=
    Dbl.mul_bd (hu.weaken (-16384) 16384 (by norm_num) (le_refl _)) hd
      (by norm_num) (by norm_num)
  rw [candidate_delta_new]
  exact (Dbl.sub_bd hs1 ht2 (by norm_num) (by norm_num) (by norm_num) (by norm_num)).weaken
    _ _ (by norm_num) (by norm_num)


theorem Dbl.mul_self_bd {x : Dbl} {a c : Int} (hx : Dbl.Bd x (-a) a)
    (hc : a * a ≤ c * 16777216) (hc2 : c < 9007199254740992) : Dbl.Bd (Dbl.mul x x) 0 c := by
  have h := Dbl.mul_bd hx hx hc hc2
  have h0 : 0 ≤ (Dbl.mul x x).key := by
    apply Dbl.mul_key_ge x x hx.1 hx.1 0 Dbl.repI_zero
    rw [zero_mul]
    exact mul_self_nonneg _
  exact ⟨h.1, by omega, h.2.2⟩

theorem clamp01_isFinite (x : Dbl) : (clamp01 x).isFinite = true := by
  obtain ⟨h1, h2, h3⟩ := clamp01_range x
  exact Dbl.finite_of_bounds _ h1 0 Dbl.one.key Dbl.repI_zero
    (Dbl.repI_key _ (by decide)) h2 h3

theorem clamp01_pos (x : Dbl) (h : 0 < (clamp01 x).key) : 0 < x.key := by
  by_contra hc
  have hz : Dbl.fmax Dbl.zero x = Dbl.zero := by
    unfold Dbl.fmax
    cases hn : x.isNaN with
    | true => simp
    | false =>
      have : Dbl.ge Dbl.zero x = true := by
        rw [Dbl.ge, Dbl.le_iff]
        exact ⟨hn, rfl, by rw [Dbl.key_zero]; omega⟩
      simp [this]
  have : clamp01 x = Dbl.zero := by
    unfold clamp01
    simp only [hz]
    decide
  rw [this, Dbl.key_zero] at h
  omega

/-- Forward bounds for the potential: `0 ≤ phi_new ≤ 24641.1`, with its parts. -/
theorem phi_new_bd (X : StructuralState) (s : WorldStimulus) (hX : StateOK X)
    (hs : StimOK s) :
    Dbl.Bd (Dbl.mul (candidate X s).delta_new (candidate X s).delta_new) 0 4415243157504 ∧
    Dbl.Bd (Dbl.mul kEtaStimPhi (Dbl.add (Dbl.mul s.a s.a) (Dbl.mul s.b s.b))) 0 524288 ∧
    Dbl.Bd (Dbl.add (Dbl.mul (candidate X s).delta_new (candidate X s).delta_new)
      (Dbl.mul kEtaStimPhi (Dbl.add (Dbl.mul s.a s.a) (Dbl.mul s.b s.b)))) 0 4415243681792 ∧
    Dbl.Bd (Dbl.mul (Dbl.sub Dbl.one kGammaPhi) X.phi) 0 137438953472 ∧
    Dbl.Bd (Dbl.mul kGammaPhi
      (Dbl.add (Dbl.mul (candidate X s).delta_new (candidate X s).delta_new)
        (Dbl.mul kEtaStimPhi (Dbl.add (Dbl.mul s.a s.a) (Dbl.mul s.b s.b))))) 0 275952730112 ∧
    Dbl.Bd (candidate X s).phi_new 0 413391683584 := by
  have hdn := delta_new_bd X s hX hs
  obtain ⟨hd, hp, hm, hk⟩ := hX
  obtain ⟨ha, hb⟩ := hs
  have hP := Dbl.mul_self_bd hdn (c := 4415243157504) (by norm_num) (by norm_num)
  have haa : Dbl.Bd (Dbl.mul s.a s.a) 0 16777216 :=
    Dbl.mul_bd_nonneg ha ha (by norm_num) (by norm_num)
  have hbb : Dbl.Bd (Dbl.mul s.b s.b) 0 16777216 :=
    Dbl.mul_bd_nonneg hb hb (by norm_num) (by norm_num)
  have hpow := Dbl.add_bd haa hbb (by norm_num) (by norm_num) (by norm_num) (by norm_num)
  have hQ : Dbl.Bd (Dbl.mul kEtaStimPhi (Dbl.add (Dbl.mul s.a s.a) (Dbl.mul s.b s.b))) 0
      524288 := Dbl.mul_bd_nonneg bd_kEtaStimPhi hpow (by norm_num) (by norm_num)
  have hT := Dbl.add_bd hP hQ (by norm_num) (by norm_num) (by norm_num) (by norm_num)
  have hG1 : Dbl.Bd (Dbl.mul (Dbl.sub Dbl.one kGammaPhi) X.phi) 0 137438953472 :=
    Dbl.mul_bd_nonneg bd_one_sub_kGammaPhi hp (by norm_num) (by norm_num)
  have hG2 := Dbl.mul_bd_nonneg (c := 275952730112)
    (bd_kGammaPhi.weaken 0 1048576 (by norm_num) (le_refl _)) hT (by norm_num) (by norm_num)
  have hphi := Dbl.add_bd hG1 hG2 (by norm_num) (by norm_num) (by norm_num) (by norm_num)
  refine ⟨hP, hQ, hT, hG1, hG2, ?_⟩
  rw [candidate_phi_new]
  exact hphi

/-- Forward bounds for the memory: `0 ≤ mem_inc ≤ 6.6` and `m_new` is finite. -/
theorem mem_inc_bd (X : StructuralState) (s : WorldStimulus) (hX : StateOK X)
    (hs : StimOK s) :
    Dbl.Bd (candidate X s).mem_inc 0 109330696 ∧ (candidate X s).m_new.isFinite = true := by
  have hdn := delta_new_bd X s hX hs
  have hphi := (phi_new_bd X s hX hs).2.2.2.2.2
  have hda := Dbl.fabs_bd hdn
  have hpa := Dbl.fabs_bd (hphi.weaken (-413391683584) 413391683584 (by norm_num) (le_refl _))
  have hMD : Dbl.Bd (Dbl.mul kMuMemD (Dbl.fabs (candidate X s).delta_new)) 0 8404992 :=
    Dbl.mul_bd_nonneg bd_kMuMemD hda (by norm_num) (by norm_num)
  have hNP : Dbl.Bd (Dbl.mul kNuMemPhi (Dbl.fabs (candidate X s).phi_new)) 0 100925704 :=
    Dbl.mul_bd_nonneg bd_kNuMemPhi hpa (by norm_num) (by norm_num)
  have hinc : Dbl.Bd (candidate X s).mem_inc 0 109330696 := by
    rw [candidate_mem_inc]
    exact Dbl.add_bd hMD hNP (by norm_num) (by norm_num) (by norm_num) (by norm_num)
  refine ⟨hinc, ?_⟩
  rw [candidate_m_new]
  apply Dbl.add_isFinite_of_small _ _ hX.2.2.1 hinc.1
  obtain ⟨-, h1, h2⟩ := hinc
  rw [zero_mul] at h1
  rw [abs_of_nonneg h1]
  have : 2 * (109330696 * (Dbl.fine : Int)) < ((2 ^ 2045 : Nat) : Int) := by decide
  omega

/-- Forward bounds for the integrity chain. -/
theorem kappa_chain_bd (X : StructuralState) (s : WorldStimulus) (hX : StateOK X)
    (hs : StimOK s) :
    Dbl.Bd (Dbl.mul kCkPhi (candidate X s).phi_new) 0 100925704 ∧
    Dbl.Bd (Dbl.sub X.kappa (Dbl.mul kCkPhi (candidate X s).phi_new)) (-100925704) 16777216 ∧
    Dbl.Bd (Dbl.mul kCkMem (candidate X s).mem_inc) 0 1669 ∧
    Dbl.Bd (Dbl.sub (Dbl.sub X.kappa (Dbl.mul kCkPhi (candidate X s).phi_new))
      (Dbl.mul kCkMem (candidate X s).mem_inc)) (-100927373) 16777216 := by
  have hphi := (phi_new_bd X s hX hs).2.2.2.2.2
  have hinc := (mem_inc_bd X s hX hs).1
  have hV := Dbl.mul_bd_nonneg (c := 100925704)
    (bd_kCkPhi.weaken 0 4096 (by norm_num) (le_refl _)) hphi (by norm_num) (by norm_num)
  have hZ := Dbl.sub_bd hX.2.2.2 hV (by norm_num) (by norm_num) (by norm_num) (by norm_num)
  have hW := Dbl.mul_bd_nonneg (c := 1669) bd_kCkMem hinc (by norm_num) (by norm_num)
  have hY := Dbl.sub_bd hZ hW (by norm_num) (by norm_num) (by norm_num) (by norm_num)
  exact ⟨hV, hZ, hW, hY⟩

/-- Under bounded stimuli a step from a bounded state is committed or dies of `KappaZero`. -/
theorem evolve_reason_bounded (X : StructuralState) (s : WorldStimulus) (hX : StateOK X)
    (hs : StimOK s) :
    (evolve X s).2 = DeathReason.None ∨ (evolve X s).2 = DeathReason.KappaZero := by
  have hdn := delta_new_bd X s hX hs
  have hphi := (phi_new_bd X s hX hs).2.2.2.2.2
  have hm := (mem_inc_bd X s hX hs).2
  have hk := clamp01_isFinite (Dbl.sub (Dbl.sub X.kappa (Dbl.mul kCkPhi (candidate X s).phi_new))
      (Dbl.mul kCkMem (candidate X s).mem_inc))
  rw [← candidate_kappa_new] at hk
  have hgt : Dbl.gt (candidate X s).phi_new kPhiMax = false := by
    cases hg : Dbl.gt (candidate X s).phi_new kPhiMax with
    | false => rfl
    | true =>
      exfalso
      rw [Dbl.gt, Dbl.lt_iff, key_kPhiMax] at hg
      have := hphi.2.2
      have := Dbl.fine_pos
      omega
  rw [evolve_reason]
  simp only [is_finite, hs.1.1, hs.2.1, hdn.1, hphi.1, hm, hk, hgt]
  cases Dbl.le (candidate X s).kappa_new kKappaEps <;> simp


theorem Dbl.sub_pos_inv (x y : Dbl) (hx : x.isFinite = true) (hy : y.isFinite = true)
    (h : 0 < (Dbl.sub x y).key) : y.key < x.key := by
  by_contra hc
  have := Dbl.sub_key_le x y hx hy 0 Dbl.repI_zero (by omega)
  omega

theorem Dbl.mul_lt_inv (x y : Dbl) (hx : x.isFinite = true) (hy : y.isFinite = true) (b : Int)
    (hb : Dbl.RepI b) (h : (Dbl.mul x y).key < b) : x.key * y.key < b * (Dbl.unit : Int) := by
  by_contra hc
  have := Dbl.mul_key_ge x y hx hy b hb (by omega)
  omega

/-- A committed step from a bounded state under a bounded stimulus gives a bounded
state: `kappa_new > 0` forces `phi_new < 8192` and `|delta_new| ≤ 512`. -/
theorem evolve_commit_bounded (X : StructuralState) (s : WorldStimulus) (hX : StateOK X)
    (hs : StimOK s) (h : (evolve X s).2 = DeathReason.None) : StateOK (evolve X s).1 := by
  obtain ⟨hE, -, -, -, -, hmf, hkf, -, hle⟩ := evolve_ok X s h
  have hf := Dbl.fine_pos
  have hu := Dbl.unit_eq_fine
  have hdn := delta_new_bd X s hX hs
  obtain ⟨hP, hQ, hT, hG1, hG2, hphi⟩ := phi_new_bd X s hX hs
  obtain ⟨hV, hZ, hW, hY⟩ := kappa_chain_bd X s hX hs
  obtain ⟨hk1, hk2, hk3⟩ := clamp01_range (Dbl.sub (Dbl.sub X.kappa
      (Dbl.mul kCkPhi (candidate X s).phi_new)) (Dbl.mul kCkMem (candidate X s).mem_inc))
  rw [← candidate_kappa_new] at hk1 hk2 hk3
  -- kappa_new > 0
  have hkpos : 0 < (candidate X s).kappa_new.key := by
    by_contra hc
    have : Dbl.le (candidate X s).kappa_new kKappaEps = true := by
      rw [Dbl.le_iff]
      exact ⟨hk1, key_kKappaEps.1, by have := key_kKappaEps.2; omega⟩
    rw [this] at hle
    exact absurd hle (by decide)
  rw [candidate_kappa_new] at hkpos
  have hYpos := clamp01_pos _ hkpos
  have hZW := Dbl.sub_pos_inv _ _ hZ.1 hW.1 hYpos
  have hW0 := hW.2.1
  rw [zero_mul] at hW0
  have hZpos : 0 < (Dbl.sub X.kappa (Dbl.mul kCkPhi (candidate X s).phi_new)).key := by omega
  have hVk := Dbl.sub_pos_inv _ _ hX.2.2.2.1 hV.1 hZpos
  have hkap := hX.2.2.2.2.2
  have hVlt : (Dbl.mul kCkPhi (candidate X s).phi_new).key < 16777216 * (Dbl.fine : Int) := by
    omega
  -- phi_new < 8192
  have hprod1 := Dbl.mul_lt_inv _ _ bd_kCkPhi.1 hphi.1 _
    (Dbl.repI_fine 16777216 (by norm_num) (by norm_num)) hVlt
  have hphi0 := hphi.2.1
  rw [zero_mul] at hphi0
  have hphilt : (candidate X s).phi_new.key < 137438953472 * (Dbl.fine : Int) := by
    by_contra hc
    have h1 : 2048 * (Dbl.fine : Int) * (137438953472 * (Dbl.fine : Int)) ≤
        kCkPhi.key * (candidate X s).phi_new.key :=
      mul_le_mul bd_kCkPhi.2.1 (by omega) (by positivity) (by
        have := bd_kCkPhi.2.1
        have : (0 : Int) ≤ 2048 * (Dbl.fine : Int) := by positivity
        omega)
    have h2 : 2048 * (Dbl.fine : Int) * (137438953472 * (Dbl.fine : Int)) =
        16777216 * (Dbl.fine : Int) * (Dbl.unit : Int) := by rw [hu]; ring
    omega
  -- gamma * target_phi ≤ phi_new
  have hG1_0 := hG1.2.1
  rw [zero_mul] at hG1_0
  have hG2le : (Dbl.mul kGammaPhi
      (Dbl.add (Dbl.mul (candidate X s).delta_new (candidate X s).delta_new)
        (Dbl.mul kEtaStimPhi (Dbl.add (Dbl.mul s.a s.a) (Dbl.mul s.b s.b))))).key ≤
      (candidate X s).phi_new.key := by
    rw [candidate_phi_new]
    exact Dbl.add_key_ge _ _ hG1.1 hG2.1 _ (Dbl.repI_key _ hG2.1) (by omega)
  have hprod2 := Dbl.mul_lt_inv _ _ bd_kGammaPhi.1 hT.1 _
    (Dbl.repI_fine 137438953472 (by norm_num) (by norm_num)) (by omega)
  have hT0 := hT.2.1
  rw [zero_mul] at hT0
  have hTlt : (Dbl.add (Dbl.mul (candidate X s).delta_new (candidate X s).delta_new)
      (Dbl.mul kEtaStimPhi (Dbl.add (Dbl.mul s.a s.a) (Dbl.mul s.b s.b)))).key <
      4398046511104 * (Dbl.fine : Int) := by
    by_contra hc
    have h1 : 524288 * (Dbl.fine : Int) * (4398046511104 * (Dbl.fine : Int)) ≤
        kGammaPhi.key * (Dbl.add (Dbl.mul (candidate X s).delta_new (candidate X s).delta_new)
      (Dbl.mul kEtaStimPhi (Dbl.add (Dbl.mul s.a s.a) (Dbl.mul s.b s.b)))).key :=
      mul_le_mul bd_kGammaPhi.2.1 (by omega) (by positivity) (by
        have := bd_kGammaPhi.2.1
        have : (0 : Int) ≤ 524288 * (Dbl.fine : Int) := by positivity
        omega)
    have h2 : 524288 * (Dbl.fine : Int) * (4398046511104 * (Dbl.fine : Int)) =
        137438953472 * (Dbl.fine : Int) * (Dbl.unit : Int) := by rw [hu]; ring
    omega
  -- delta_new^2 ≤ target_phi
  have hQ0 := hQ.2.1
  rw [zero_mul] at hQ0
  have hPle := Dbl.add_key_ge _ _ hP.1 hQ.1 _ (Dbl.repI_key _ hP.1)
    (show (Dbl.mul (candidate X s).delta_new (candidate X s).delta_new).key ≤ _ + _ by omega)
  have hprod3 := Dbl.mul_lt_inv _ _ hdn.1 hdn.1 _
    (Dbl.repI_fine 4398046511104 (by norm_num) (by norm_num)) (by omega)
  have hdabs : |(candidate X s).delta_new.key| ≤ 8589934592 * (Dbl.fine : Int) := by
    by_contra hc
    have hlt : 8589934592 * (Dbl.fine : Int) ≤ |(candidate X s).delta_new.key| := by omega
    have h1 : 8589934592 * (Dbl.fine : Int) * (8589934592 * (Dbl.fine : Int)) ≤
        |(candidate X s).delta_new.key| * |(candidate X s).delta_new.key| :=
      mul_le_mul hlt hlt (by positivity) (abs_nonneg _)
    rw [abs_mul_abs_self] at h1
    have h2 : 8589934592 * (Dbl.fine : Int) * (8589934592 * (Dbl.fine : Int)) =
        4398046511104 * (Dbl.fine : Int) * (Dbl.unit : Int) := by rw [hu]; ring
    omega
  rw [abs_le] at hdabs
  rw [hE]
  refine ⟨⟨hdn.1, ?_, hdabs.2⟩, ⟨hphi.1, hphi.2.1, le_of_lt hphilt⟩, hmf, ⟨hkf, ?_, ?_⟩⟩
  · have : -8589934592 * (Dbl.fine : Int) = -(8589934592 * (Dbl.fine : Int)) := by ring
    show -8589934592 * (Dbl.fine : Int) ≤ (candidate X s).delta_new.key
    omega
  · show 0 * (Dbl.fine : Int) ≤ (candidate X s).kappa_new.key
    rw [zero_mul]; exact hk2
  · show (candidate X s).kappa_new.key ≤ 16777216 * (Dbl.fine : Int)
    rw [← hu, ← Dbl.key_one]; exact hk3


/-! ## The stimulus source produces bounded stimuli -/

theorem Dbl.ofNat_key (k : Nat) (hk : k < 2 ^ 53) :
    (Dbl.ofNat k).isFinite = true ∧ (Dbl.ofNat k).key = (k : Int) * (Dbl.unit : Int) := by
  have hr : Dbl.RepI ((k : Int) * (Dbl.unit : Int)) :=
    ⟨k * Dbl.unit, ⟨k, 1074, rfl, hk, by omega⟩, Or.inl (by push_cast; rfl)⟩
  have h1 : (Dbl.ofNat k).key ≤ (k : Int) * (Dbl.unit : Int) :=
    Dbl.roundS_le _ _ _ (by decide) _ hr (by push_cast; omega)
  have h2 : (k : Int) * (Dbl.unit : Int) ≤ (Dbl.ofNat k).key :=
    Dbl.roundS_ge _ _ _ (by decide) _ hr (by push_cast; omega)
  exact ⟨Dbl.finite_of_bounds _ (Dbl.roundS_isNaN _ _ _ (by decide)) _ _ hr hr h2 h1, by omega⟩

theorem Dbl.div_fin_eq (x : Dbl) (G : Fin 2047) (H : Fin 4503599627370496)
    (hx : x.isFinite = true) (hy : Dbl.magKey G H ≠ 0) :
    Dbl.div x (Dbl.fin false G H) =
      Dbl.roundS x.signBit (x.key * (Dbl.unit : Int)) (Dbl.magKey G H) := by
  cases x with
  | nan => simp [Dbl.isFinite] at hx
  | inf s => simp [Dbl.isFinite] at hx
  | fin s E F =>
    cases s
    · simp [Dbl.div, hy, Dbl.key, Dbl.signBit]
    · simp [Dbl.div, hy, Dbl.key, Dbl.signBit]

/-- The quotient `k / 1000.0` for an integer `0 ≤ k ≤ 1000` is finite and in `[0, 1]`. -/
theorem div_thousand_bd (k : Nat) (hk : k ≤ 1000) :
    Dbl.Bd (Dbl.div (Dbl.ofNat k) (Dbl.ofDec 10000 1)) 0 16777216 := by
  have hy : Dbl.ofDec 10000 1 = Dbl.fin false 1032 4292493394837504 := by decide
  have hm : Dbl.magKey 1032 4292493394837504 = 1000 * Dbl.unit := by decide
  have hu := Dbl.unit_pos
  have hm0 : Dbl.magKey 1032 4292493394837504 ≠ 0 := by omega
  obtain ⟨hf, hkey⟩ := Dbl.ofNat_key k (by
    calc k ≤ 1000 := hk
      _ < 2 ^ 53 := by norm_num)
  rw [hy, Dbl.div_fin_eq _ _ _ hf hm0, hkey, hm]
  have hden : 0 < 1000 * Dbl.unit := by omega
  have hU : (0 : Int) ≤ (Dbl.unit : Int) := Int.natCast_nonneg _
  have hr1 : Dbl.RepI ((Dbl.unit : Nat) : Int) :=
    ⟨Dbl.unit, ⟨1, 1074, by simp [Dbl.unit], by norm_num, by omega⟩, Or.inl rfl⟩
  have h1 := Dbl.roundS_ge (Dbl.ofNat k).signBit ((k : Int) * (Dbl.unit : Int) * (Dbl.unit : Int))
    (1000 * Dbl.unit) hden 0 Dbl.repI_zero (by
      rw [zero_mul]
      exact Int.mul_nonneg (Int.mul_nonneg (Int.natCast_nonneg _) hU) hU)
  have h2 := Dbl.roundS_le (Dbl.ofNat k).signBit ((k : Int) * (Dbl.unit : Int) * (Dbl.unit : Int))
    (1000 * Dbl.unit) hden (Dbl.unit : Int) hr1 (by
      have hk' : (k : Int) ≤ 1000 := by exact_mod_cast hk
      have : (k : Int) * (Dbl.unit : Int) * (Dbl.unit : Int) ≤
          1000 * (Dbl.unit : Int) * (Dbl.unit : Int) :=
        Int.mul_le_mul_of_nonneg_right (Int.mul_le_mul_of_nonneg_right hk' hU) hU
      push_cast
      linarith)
  refine ⟨Dbl.finite_of_bounds _ (Dbl.roundS_isNaN _ _ _ hden) _ _ Dbl.repI_zero hr1 h1 h2,
    by rw [zero_mul]; exact h1, ?_⟩
  rw [← Dbl.unit_eq_fine]
  exact h2

theorem WorldInterface.next_ok (w : WorldInterface) : StimOK (w.next).1 :=
  ⟨div_thousand_bd _ (le_of_lt (Nat.mod_lt _ (by decide))),
    div_thousand_bd _ (le_of_lt (Nat.mod_lt _ (by decide)))⟩

theorem WorldInterface.draws_ok (n : Nat) :
    ∀ w : WorldInterface, ∀ s ∈ WorldInterface.draws n w, StimOK s := by
  induction n with
  | zero => intro w s hs; simp [WorldInterface.draws] at hs
  | succ n ih =>
    intro w s hs
    simp only [WorldInterface.draws, List.mem_cons] at hs
    rcases hs with rfl | hs
    · exact WorldInterface.next_ok w
    · exact ih _ s hs

/-! ## Only `KappaZero` under bounded stimuli -/

theorem bd_zero_unit : Dbl.Bd Dbl.zero 0 16777216 := ⟨by decide, by decide, by decide⟩

theorem bd_one_unit : Dbl.Bd Dbl.one 0 16777216 := ⟨by decide, by decide, by decide⟩

theorem stateOK_init : StateOK {} :=
  ⟨⟨by decide, by decide, by decide⟩, ⟨by decide, by decide, by decide⟩, by decide,
    bd_one_unit⟩

theorem stateOK_kill (X : StructuralState) (h : StateOK X) :
    StateOK { X with kappa := Dbl.zero } :=
  ⟨h.1, h.2.1, h.2.2.1, bd_zero_unit⟩

theorem GenesisCore.bounded_construct (init : InitialConditions) :
    (GenesisCore.construct init).Bounded :=
  ⟨stateOK_init, Or.inl rfl⟩

theorem GenesisCore.bounded_step (g : GenesisCore) (s : WorldStimulus) (hg : g.Bounded)
    (hs : StimOK s) : (g.step s).2.Bounded := by
  cases ha : g.alive_ with
  | false => rw [GenesisCore.step_dead g s ha]; exact hg
  | true =>
    by_cases hr : (evolve g.X_ s).2 = DeathReason.None
    · rw [GenesisCore.step_commit g s ha hr]
      exact ⟨evolve_commit_bounded g.X_ s hg.1 hs hr, hg.2⟩
    · rw [GenesisCore.step_kill g s ha hr]
      refine ⟨stateOK_kill _ hg.1, ?_⟩
      rcases evolve_reason_bounded g.X_ s hg.1 hs with h | h
      · exact absurd h hr
      · exact Or.inr h

theorem GenesisCore.bounded_run (l : List WorldStimulus) :
    ∀ g : GenesisCore, g.Bounded → (∀ s ∈ l, StimOK s) → (GenesisCore.run g l).Bounded := by
  induction l with
  | nil => intro g hg _; exact hg
  | cons t rest ih =>
    intro g hg hl
    exact ih _ (GenesisCore.bounded_step g t hg (hl t (List.mem_cons_self _ _)))
      (fun s hs => hl s (List.mem_cons_of_mem _ hs))

/-- C10 (only `KappaZero` under world stimuli): for every world seed and every number
of steps, a fresh `GenesisCore` driven by the stimuli drawn in order from
`WorldInterface::next()` has `death_reason` `None` or `KappaZero`; `NonFinite` and
`PhiOverflow` are unreachable. -/
theorem C10_only_kappa_zero (init : InitialConditions) (seed cap : Nat) :
    (GenesisCore.run (GenesisCore.construct init)
        (WorldInterface.draws cap (WorldInterface.construct { seed := seed }))
      ).diagnostics.death_reason = DeathReason.None ∨
    (GenesisCore.run (GenesisCore.construct init)
        (WorldInterface.draws cap (WorldInterface.construct { seed := seed }))
      ).diagnostics.death_reason = DeathReason.KappaZero :=
  (GenesisCore.bounded_run _ _ (GenesisCore.bounded_construct init)
    (WorldInterface.draws_ok cap _)).2


/-! ## Zero integrity is terminal -/

theorem GenesisCore.run_dead (g : GenesisCore) (h : g.alive_ = false) :
    ∀ l : List WorldStimulus, GenesisCore.run g l = g := by
  intro l
  induction l with
  | nil => rfl
  | cons t rest ih =>
    show GenesisCore.run (g.step t).2 rest = g
    rw [GenesisCore.step_dead g t h]
    exact ih

/-- A committed step leaves `kappa` strictly positive. -/
theorem evolve_commit_kappa_pos (X : StructuralState) (s : WorldStimulus)
    (h : (evolve X s).2 = DeathReason.None) :
    (evolve X s).1.kappa.isNaN = false ∧ 0 < (evolve X s).1.kappa.key := by
  obtain ⟨hE, -, -, -, -, -, -, -, hle⟩ := evolve_ok X s h
  obtain ⟨hk1, -, -⟩ := clamp01_range (Dbl.sub (Dbl.sub X.kappa
      (Dbl.mul kCkPhi (candidate X s).phi_new)) (Dbl.mul kCkMem (candidate X s).mem_inc))
  rw [← candidate_kappa_new] at hk1
  rw [hE]
  refine ⟨hk1, ?_⟩
  show 0 < (candidate X s).kappa_new.key
  by_contra hc
  have : Dbl.le (candidate X s).kappa_new kKappaEps = true := by
    rw [Dbl.le_iff]
    exact ⟨hk1, key_kKappaEps.1, by have := key_kKappaEps.2; omega⟩
  rw [this] at hle
  exact absurd hle (by decide)

theorem GenesisCore.alive_kappa_pos (init : InitialConditions) (l : List WorldStimulus) :
    (GenesisCore.run (GenesisCore.construct init) l).alive_ = true →
      0 < (GenesisCore.run (GenesisCore.construct init) l).X_.kappa.key := by
  apply GenesisCore.run_induction (fun g => g.alive_ = true → 0 < g.X_.kappa.key) ?_ l
    (GenesisCore.construct init)
  · intro _
    show 0 < Dbl.one.key
    decide
  · intro g s hg
    cases ha : g.alive_ with
    | false => rw [GenesisCore.step_dead g s ha]; exact hg
    | true =>
      by_cases hr : (evolve g.X_ s).2 = DeathReason.None
      · rw [GenesisCore.step_commit g s ha hr]
        intro _
        exact (evolve_commit_kappa_pos g.X_ s hr).2
      · rw [GenesisCore.step_kill g s ha hr]
        intro h
        exact absurd h Bool.false_ne_true

/-- C11 (zero integrity is terminal): in every state reached from a fresh `GenesisCore`,
if `kappa == 0` then the machine is dead and no later `step` changes anything; and a
committed step of `evolve` never leaves `kappa` at 0. -/
theorem C11_zero_kappa_terminal (init : InitialConditions) (stimuli : List WorldStimulus) :
    (Dbl.eq (GenesisCore.run (GenesisCore.construct init) stimuli).diagnostics.kappa Dbl.zero
        = true →
      (GenesisCore.run (GenesisCore.construct init) stimuli).diagnostics.alive = false ∧
      ∀ l : List WorldStimulus,
        GenesisCore.run (GenesisCore.run (GenesisCore.construct init) stimuli) l =
          GenesisCore.run (GenesisCore.construct init) stimuli) ∧
    (∀ (X : StructuralState) (s : WorldStimulus), (evolve X s).2 = DeathReason.None →
      Dbl.eq (evolve X s).1.kappa Dbl.zero = false) := by
  constructor
  · intro h
    have hpos := GenesisCore.alive_kappa_pos init stimuli
    generalize GenesisCore.run (GenesisCore.construct init) stimuli = g at h hpos ⊢
    have hd : g.alive_ = false := by
      cases ha : g.alive_ with
      | false => rfl
      | true =>
        exfalso
        have := hpos ha
        rw [Dbl.eq_iff] at h
        have h2 : g.X_.kappa.key = Dbl.zero.key := h.2.2
        rw [Dbl.key_zero] at h2
        omega
    exact ⟨hd, GenesisCore.run_dead g hd⟩
  · intro X s h
    obtain ⟨-, hpos⟩ := evolve_commit_kappa_pos X s h
    cases he : Dbl.eq (evolve X s).1.kappa Dbl.zero with
    | false => rfl
    | true =>
      exfalso
      rw [Dbl.eq_iff, Dbl.key_zero] at he
      omega

/-- Witness for C11: a machine killed by a NaN stimulus has `kappa == 0`, and the first
step with the stimulus `(0.5, 0.25)` is committed. -/
theorem C11_zero_kappa_terminal_witness :
    (Dbl.eq (GenesisCore.run (GenesisCore.construct {}) [{ a := Dbl.nan }]).diagnostics.kappa
        Dbl.zero = true ∧
      (GenesisCore.run (GenesisCore.construct {}) [{ a := Dbl.nan }]).diagnostics.alive
        = false) ∧
    ((evolve {} { a := Dbl.ofDec 5 1, b := Dbl.ofDec 25 2 }).2 = DeathReason.None ∧
      Dbl.eq (evolve {} { a := Dbl.ofDec 5 1, b := Dbl.ofDec 25 2 }).1.kappa Dbl.zero
        = false) :=
  ⟨⟨by decide, ((C11_zero_kappa_terminal {} [{ a := Dbl.nan }]).1 (by decide)).1⟩,
    ⟨by decide, (C11_zero_kappa_terminal {} []).2 {}
      { a := Dbl.ofDec 5 1, b := Dbl.ofDec 25 2 } (by decide)⟩⟩


/-! ## The run loop -/

theorem MainState.cond_iff (st : MainState) :
    st.cond = true ↔ st.step < st.runtime.cfg_.max_steps ∧ st.core.alive_ = true := by
  simp [MainState.cond, RuntimeSupervisor.should_continue, GenesisCore.alive]

theorem MainState.inv_start (init : InitialConditions) (wcfg : WorldConfig)
    (rcfg : RuntimeConfig) : (MainState.start init wcfg rcfg).Inv rcfg.max_steps := by
  refine ⟨rfl, Nat.zero_le _, rfl, rfl, ?_⟩
  intro k r h
  simp [MainState.start] at h

theorem MainState.inv_body (max : Nat) (hmax : max < 2 ^ 64) (st : MainState)
    (h : st.Inv max) (hc : st.cond = true) : st.body.Inv max := by
  obtain ⟨h1, h2, h3, h4, h5⟩ := h
  rw [MainState.cond_iff, h1] at hc
  obtain ⟨hlt, halive⟩ := hc
  obtain ⟨-, hstep⟩ := GenesisCore.step_alive_fst st.core (st.world.next).1 halive
  have hmod : (st.step + 1) % 2 ^ 64 = st.step + 1 := Nat.mod_eq_of_lt (by omega)
  have hcore : (st.core.step (st.world.next).1).2.step_ = st.step + 1 := by
    rw [hstep, h3, hmod]
  refine ⟨h1, ?_, ?_, ?_, ?_⟩
  · show (st.step + 1) % 2 ^ 64 ≤ max
    rw [hmod]; omega
  · show (st.core.step (st.world.next).1).2.step_ = (st.step + 1) % 2 ^ 64
    rw [hcore, hmod]
  · show (st.telemetry.records ++ [(st.core.step (st.world.next).1).2.diagnostics]).length
      = (st.step + 1) % 2 ^ 64
    rw [List.length_append, h4, hmod]
    rfl
  · intro k r hk
    have hk' : (st.telemetry.records ++ [(st.core.step (st.world.next).1).2.diagnostics])[k]?
        = some r := hk
    have hlen : (st.telemetry.records ++ [(st.core.step (st.world.next).1).2.diagnostics]).length
        = st.telemetry.records.length + 1 := by
      rw [List.length_append]; rfl
    show r.step = k + 1 ∧
      (k + 1 < (st.telemetry.records ++
          [(st.core.step (st.world.next).1).2.diagnostics]).length → r.alive = true) ∧
      ((st.core.step (st.world.next).1).2.alive_ = true → r.alive = true)
    rw [hlen]
    rcases Nat.lt_or_ge k st.telemetry.records.length with hkl | hkl
    · rw [List.getElem?_append_left hkl] at hk'
      obtain ⟨a, -, c⟩ := h5 k r hk'
      exact ⟨a, fun _ => c halive, fun _ => c halive⟩
    · rw [List.getElem?_append_right hkl] at hk'
      have hk0 : k = st.telemetry.records.length := by
        by_contra hne
        have : 1 ≤ k - st.telemetry.records.length := by omega
        rw [List.getElem?_eq_none (by simpa using this)] at hk'
        exact absurd hk' (by simp)
      subst hk0
      rw [Nat.sub_self] at hk'
      have hr : r = (st.core.step (st.world.next).1).2.diagnostics := by
        simpa using hk'.symm
      subst hr
      refine ⟨?_, fun hh => absurd hh (by omega), fun hh => hh⟩
      show (st.core.step (st.world.next).1).2.step_ = st.telemetry.records.length + 1
      rw [hcore, h4]

theorem MainState.inv_loop (max : Nat) (hmax : max < 2 ^ 64) (fuel : Nat) :
    ∀ st : MainState, st.Inv max → (MainState.loop fuel st).Inv max := by
  induction fuel with
  | zero => intro st h; exact h
  | succ n ih =>
    intro st h
    unfold MainState.loop
    split
    · rename_i hc
      exact ih _ (MainState.inv_body max hmax st h hc)
    · exact h

/-- With enough fuel the loop has left through its condition. -/
theorem MainState.loop_exit (max : Nat) (hmax : max < 2 ^ 64) (fuel : Nat) :
    ∀ st : MainState, st.Inv max → max - st.step ≤ fuel →
      (MainState.loop fuel st).cond = false := by
  induction fuel with
  | zero =>
    intro st h hf
    cases hc : st.cond with
    | false => exact hc
    | true =>
      exfalso
      rw [MainState.cond_iff, h.1] at hc
      omega
  | succ n ih =>
    intro st h hf
    unfold MainState.loop
    split
    · rename_i hc
      have hb := MainState.inv_body max hmax st h hc
      apply ih _ hb
      rw [MainState.cond_iff, h.1] at hc
      have : st.body.step = st.step + 1 := by
        show (st.step + 1) % 2 ^ 64 = st.step + 1
        exact Nat.mod_eq_of_lt (by omega)
      omega
    · rename_i hc
      simpa using hc

/-- Fuel beyond what the loop uses does not change its result. -/
theorem MainState.loop_fuel (max : Nat) (hmax : max < 2 ^ 64) (fuel : Nat) :
    ∀ (st : MainState) (extra : Nat), st.Inv max → max - st.step ≤ fuel →
      MainState.loop (fuel + extra) st = MainState.loop fuel st := by
  induction fuel with
  | zero =>
    intro st extra h hf
    have hc : st.cond = false := MainState.loop_exit max hmax 0 st h hf
    cases extra with
    | zero => rfl
    | succ e =>
      rw [Nat.zero_add]
      show MainState.loop (e + 1) st = st
      unfold MainState.loop
      simp [hc]
  | succ n ih =>
    intro st extra h hf
    rw [show n + 1 + extra = (n + extra) + 1 by omega]
    unfold MainState.loop
    cases hc : st.cond with
    | false => simp
    | true =>
      simp only [if_true]
      have hb := MainState.inv_body max hmax st h hc
      apply ih _ _ hb
      rw [MainState.cond_iff, h.1] at hc
      have : st.body.step = st.step + 1 := by
        show (st.step + 1) % 2 ^ 64 = st.step + 1
        exact Nat.mod_eq_of_lt (by omega)
      omega

theorem MainState.iterations_le (max : Nat) (hmax : max < 2 ^ 64) (fuel : Nat) :
    ∀ st : MainState, st.Inv max → MainState.iterations fuel st ≤ max - st.step := by
  induction fuel with
  | zero => intro st h; exact Nat.zero_le _
  | succ n ih =>
    intro st h
    unfold MainState.iterations
    split
    · rename_i hc
      have hb := MainState.inv_body max hmax st h hc
      have := ih _ hb
      rw [MainState.cond_iff, h.1] at hc
      have : st.body.step = st.step + 1 := by
        show (st.step + 1) % 2 ^ 64 = st.step + 1
        exact Nat.mod_eq_of_lt (by omega)
      omega
    · exact Nat.zero_le _

/-- C12 (run-loop bound and exit condition): for every `max_steps` (a `uint64_t`) and
every world seed, the loop `while (should_continue(step) && core.alive())` started on a
fresh core performs at most `max_steps` iterations and then leaves through its
condition; on exit the core is dead or `diagnostics().step == max_steps`. -/
theorem C12_run_loop_bound (init : InitialConditions) (seed max_steps : Nat) (pace_ms : Int)
    (h : max_steps < 2 ^ 64) :
    (MainState.loop max_steps
        (MainState.start init { seed := seed }
          { max_steps := max_steps, pace_ms := pace_ms })).cond = false ∧
    (∀ fuel : Nat, max_steps ≤ fuel →
      MainState.loop fuel
          (MainState.start init { seed := seed }
            { max_steps := max_steps, pace_ms := pace_ms }) =
        MainState.loop max_steps
          (MainState.start init { seed := seed }
            { max_steps := max_steps, pace_ms := pace_ms })) ∧
    (∀ fuel : Nat,
      MainState.iterations fuel
          (MainState.start init { seed := seed }
            { max_steps := max_steps, pace_ms := pace_ms }) ≤ max_steps) ∧
    ((MainState.loop max_steps
        (MainState.start init { seed := seed }
          { max_steps := max_steps, pace_ms := pace_ms })).core.alive = false ∨
      (MainState.loop max_steps
        (MainState.start init { seed := seed }
          { max_steps := max_steps, pace_ms := pace_ms })).core.diagnostics.step
        = max_steps) := by
  have h0 := MainState.inv_start init { seed := seed }
    { max_steps := max_steps, pace_ms := pace_ms }
  generalize hst : MainState.start init { seed := seed }
    { max_steps := max_steps, pace_ms := pace_ms } = st0 at h0 ⊢
  have hs0 : st0.step = 0 := by rw [← hst]; rfl
  have h0' : st0.Inv max_steps := h0
  have hexit := MainState.loop_exit max_steps h max_steps st0 h0' (by omega)
  have hinv := MainState.inv_loop max_steps h max_steps st0 h0'
  refine ⟨hexit, ?_, ?_, ?_⟩
  · intro fuel hf
    have := MainState.loop_fuel max_steps h max_steps st0 (fuel - max_steps) h0' (by omega)
    rw [show max_steps + (fuel - max_steps) = fuel by omega] at this
    exact this
  · intro fuel
    have := MainState.iterations_le max_steps h fuel st0 h0'
    omega
  · obtain ⟨i1, i2, i3, -, -⟩ := hinv
    cases ha : (MainState.loop max_steps st0).core.alive_ with
    | false => exact Or.inl ha
    | true =>
      right
      show (MainState.loop max_steps st0).core.step_ = max_steps
      have hc : ¬ ((MainState.loop max_steps st0).cond = true) := by simp [hexit]
      rw [MainState.cond_iff, i1] at hc
      have : ¬ (MainState.loop max_steps st0).step < max_steps := fun hl => hc ⟨hl, ha⟩
      omega

/-- Witness for C12: the run loop with `max_steps = 3` and world seed 1. -/
theorem C12_run_loop_bound_witness :
    (3 : Nat) < 2 ^ 64 ∧
    (MainState.loop 3
        (MainState.start {} { seed := 1 } { max_steps := 3, pace_ms := 0 })).cond = false ∧
    (MainState.loop 3
        (MainState.start {} { seed := 1 }
          { max_steps := 3, pace_ms := 0 })).core.diagnostics.step = 3 :=
  ⟨by decide, (C12_run_loop_bound {} 1 3 0 (by decide)).1, by decide⟩

theorem WorldInterface.after_succ (n : Nat) :
    ∀ w : WorldInterface, WorldInterface.after (n + 1) w = ((WorldInterface.after n w).next).2 := by
  induction n with
  | zero => intro w; rfl
  | succ n ih =>
    intro w
    show WorldInterface.after (n + 1) (w.next).2 = _
    rw [ih]
    rfl

theorem WorldInterface.draws_succ (n : Nat) :
    ∀ w : WorldInterface,
      WorldInterface.draws (n + 1) w = WorldInterface.draws n w ++ [WorldInterface.draw n w] := by
  induction n with
  | zero => intro w; rfl
  | succ n ih =>
    intro w
    show (w.next).1 :: WorldInterface.draws (n + 1) (w.next).2 =
      ((w.next).1 :: WorldInterface.draws n (w.next).2) ++ [WorldInterface.draw (n + 1) w]
    rw [ih]
    rfl

theorem WorldInterface.draws_length (n : Nat) :
    ∀ w : WorldInterface, (WorldInterface.draws n w).length = n := by
  induction n with
  | zero => intro w; rfl
  | succ n ih =>
    intro w
    show (WorldInterface.draws n (w.next).2).length + 1 = n + 1
    rw [ih]

theorem MainState.trace_body (init : InitialConditions) (w0 : WorldInterface) (n : Nat)
    (st : MainState) (h : st.Trace init w0 n) : st.body.Trace init w0 (n + 1) := by
  obtain ⟨h1, h2, h3⟩ := h
  have hcore : (st.core.step (st.world.next).1).2 =
      GenesisCore.run (GenesisCore.construct init) (WorldInterface.draws (n + 1) w0) := by
    rw [WorldInterface.draws_succ, GenesisCore.run_append, ← h1]
    show _ = (st.core.step ((WorldInterface.after n w0).next).1).2
    rw [h2]
  refine ⟨hcore, ?_, ?_⟩
  · show (st.world.next).2 = _
    rw [WorldInterface.after_succ, h2]
  · show st.telemetry.records ++ [(st.core.step (st.world.next).1).2.diagnostics] = _
    rw [List.range_succ, List.map_append, h3, hcore]
    rfl

theorem MainState.trace_loop (init : InitialConditions) (w0 : WorldInterface) (fuel : Nat) :
    ∀ (n : Nat) (st : MainState), st.Trace init w0 n →
      (MainState.loop fuel st).Trace init w0 (n + MainState.iterations fuel st) := by
  induction fuel with
  | zero => intro n st h; exact h
  | succ f ih =>
    intro n st h
    unfold MainState.loop MainState.iterations
    split
    · have := ih (n + 1) st.body (MainState.trace_body init w0 n st h)
      rw [show n + (MainState.iterations f st.body + 1) =
        n + 1 + MainState.iterations f st.body by omega]
      exact this
    · exact h

theorem MainState.trace_start (init : InitialConditions) (wcfg : WorldConfig)
    (rcfg : RuntimeConfig) :
    (MainState.start init wcfg rcfg).Trace init (WorldInterface.construct wcfg) 0 :=
  ⟨rfl, rfl, rfl⟩

/-- C17 (one record per step in the run loop of `main`): for every `max_steps` (a
`uint64_t`) and world seed, the `k`-th record emitted by the loop carries `step == k`
(record `k` counted from 0 carries `k + 1`), so no two records share a step; every
record except possibly the last has `alive == true`, and a record with `alive == false`
is the last one.  There is exactly one record per executed step: every iteration
appends one record, the number of records equals the number of iterations, the final
step counter and the local `step`; record `k` is the snapshot of the core after its
first `k + 1` stimuli, the last record is the final snapshot, and a core that has died
has its death record as the last record. -/
theorem C17_one_record_per_step (init : InitialConditions) (seed max_steps : Nat)
    (pace_ms : Int) (h : max_steps < 2 ^ 64) :
    (MainState.loop max_steps
        (MainState.start init { seed := seed }
          { max_steps := max_steps, pace_ms := pace_ms })).telemetry.records.length
      ≤ max_steps ∧
    (∀ (k : Nat) (r : DiagnosticSnapshot),
      (MainState.loop max_steps
          (MainState.start init { seed := seed }
            { max_steps := max_steps, pace_ms := pace_ms })).telemetry.records[k]? = some r →
        r.step = k + 1 ∧
        (k + 1 < (MainState.loop max_steps
            (MainState.start init { seed := seed }
              { max_steps := max_steps, pace_ms := pace_ms })).telemetry.records.length →
          r.alive = true) ∧
        (r.alive = false →
          k + 1 = (MainState.loop max_steps
            (MainState.start init { seed := seed }
              { max_steps := max_steps, pace_ms := pace_ms })).telemetry.records.length)) ∧
    (∀ (i j : Nat) (ri rj : DiagnosticSnapshot),
      (MainState.loop max_steps
          (MainState.start init { seed := seed }
            { max_steps := max_steps, pace_ms := pace_ms })).telemetry.records[i]? = some ri →
      (MainState.loop max_steps
          (MainState.start init { seed := seed }
            { max_steps := max_steps, pace_ms := pace_ms })).telemetry.records[j]? = some rj →
      ri.step = rj.step → i = j) ∧
    (∀ st : MainState,
      st.body.telemetry.records = st.telemetry.records ++ [st.body.core.diagnostics]) ∧
    (MainState.loop max_steps
        (MainState.start init { seed := seed }
          { max_steps := max_steps, pace_ms := pace_ms })).telemetry.records.length =
      MainState.iterations max_steps
        (MainState.start init { seed := seed }
          { max_steps := max_steps, pace_ms := pace_ms }) ∧
    (MainState.loop max_steps
        (MainState.start init { seed := seed }
          { max_steps := max_steps, pace_ms := pace_ms })).telemetry.records.length =
      (MainState.loop max_steps
        (MainState.start init { seed := seed }
          { max_steps := max_steps, pace_ms := pace_ms })).core.diagnostics.step ∧
    (MainState.loop max_steps
        (MainState.start init { seed := seed }
          { max_steps := max_steps, pace_ms := pace_ms })).telemetry.records.length =
      (MainState.loop max_steps
        (MainState.start init { seed := seed }
          { max_steps := max_steps, pace_ms := pace_ms })).step ∧
    (MainState.loop max_steps
        (MainState.start init { seed := seed }
          { max_steps := max_steps, pace_ms := pace_ms })).core =
      GenesisCore.run (GenesisCore.construct init)
        (WorldInterface.draws
          (MainState.loop max_steps
            (MainState.start init { seed := seed }
              { max_steps := max_steps, pace_ms := pace_ms })).telemetry.records.length
          (WorldInterface.construct { seed := seed })) ∧
    (∀ k : Nat,
      k < (MainState.loop max_steps
          (MainState.start init { seed := seed }
            { max_steps := max_steps, pace_ms := pace_ms })).telemetry.records.length →
      (MainState.loop max_steps
          (MainState.start init { seed := seed }
            { max_steps := max_steps, pace_ms := pace_ms })).telemetry.records[k]? =
        some (GenesisCore.run (GenesisCore.construct init)
          (WorldInterface.draws (k + 1)
            (WorldInterface.construct { seed := seed }))).diagnostics) ∧
    (0 < (MainState.loop max_steps
          (MainState.start init { seed := seed }
            { max_steps := max_steps, pace_ms := pace_ms })).telemetry.records.length →
      (MainState.loop max_steps
          (MainState.start init { seed := seed }
            { max_steps := max_steps, pace_ms := pace_ms })).telemetry.records[
          (MainState.loop max_steps
            (MainState.start init { seed := seed }
              { max_steps := max_steps, pace_ms := pace_ms })).telemetry.records.length - 1]? =
        some (MainState.loop max_steps
          (MainState.start init { seed := seed }
            { max_steps := max_steps, pace_ms := pace_ms })).core.diagnostics) ∧
    ((MainState.loop max_steps
        (MainState.start init { seed := seed }
          { max_steps := max_steps, pace_ms := pace_ms })).core.alive = false →
      ∃ r : DiagnosticSnapshot,
        (MainState.loop max_steps
          (MainState.start init { seed := seed }
            { max_steps := max_steps, pace_ms := pace_ms })).telemetry.records.getLast? =
          some r ∧ r.alive = false ∧
        r = (MainState.loop max_steps
          (MainState.start init { seed := seed }
            { max_steps := max_steps, pace_ms := pace_ms })).core.diagnostics) := by
  have hinv := MainState.inv_loop max_steps h max_steps _
    (MainState.inv_start init { seed := seed } { max_steps := max_steps, pace_ms := pace_ms })
  have htr := MainState.trace_loop init (WorldInterface.construct { seed := seed }) max_steps 0 _
    (MainState.trace_start init { seed := seed } { max_steps := max_steps, pace_ms := pace_ms })
  rw [Nat.zero_add] at htr
  generalize MainState.iterations max_steps
    (MainState.start init { seed := seed }
      { max_steps := max_steps, pace_ms := pace_ms }) = n at htr ⊢
  generalize MainState.loop max_steps
    (MainState.start init { seed := seed }
      { max_steps := max_steps, pace_ms := pace_ms }) = fin at hinv htr ⊢
  obtain ⟨-, i2, i3, i4, i5⟩ := hinv
  obtain ⟨t1, -, t3⟩ := htr
  have hlen : fin.telemetry.records.length = n := by
    rw [t3, List.length_map, List.length_range]
  have hget : ∀ k : Nat, k < fin.telemetry.records.length →
      fin.telemetry.records[k]? =
        some (GenesisCore.run (GenesisCore.construct init)
          (WorldInterface.draws (k + 1)
            (WorldInterface.construct { seed := seed }))).diagnostics := by
    intro k hk
    rw [hlen] at hk
    rw [t3, List.getElem?_map, List.getElem?_range hk]
    rfl
  have hlast : 0 < fin.telemetry.records.length →
      fin.telemetry.records[fin.telemetry.records.length - 1]? = some fin.core.diagnostics := by
    intro hpos
    rw [hget _ (by omega), t1, hlen]
    rw [hlen] at hpos
    rw [show n - 1 + 1 = n by omega]
  refine ⟨by omega, ?_, ?_, fun _ => rfl, hlen, ?_, i4, ?_, hget, hlast, ?_⟩
  · intro k r hk
    obtain ⟨a, b, -⟩ := i5 k r hk
    refine ⟨a, b, ?_⟩
    intro hdead
    have hlt : k < fin.telemetry.records.length := by
      rcases Nat.lt_or_ge k fin.telemetry.records.length with hl | hl
      · exact hl
      · rw [List.getElem?_eq_none hl] at hk
        exact absurd hk (by simp)
    by_contra hne
    have := b (by omega)
    rw [this] at hdead
    exact absurd hdead (by decide)
  · intro i j ri rj hi hj hs
    have a := (i5 i ri hi).1
    have b := (i5 j rj hj).1
    omega
  · show fin.telemetry.records.length = fin.core.step_
    rw [i3, i4]
  · rw [hlen]
    exact t1
  · intro hdead
    have hpos : 0 < fin.telemetry.records.length := by
      rcases Nat.eq_zero_or_pos fin.telemetry.records.length with hz | hp
      · exfalso
        rw [hlen] at hz
        rw [t1, hz] at hdead
        have halive : (GenesisCore.run (GenesisCore.construct init)
            (WorldInterface.draws 0 (WorldInterface.construct { seed := seed }))).alive
              = true := rfl
        rw [halive] at hdead
        exact absurd hdead (by decide)
      · exact hp
    refine ⟨fin.core.diagnostics, ?_, hdead, rfl⟩
    rw [List.getLast?_eq_getElem?]
    exact hlast hpos

/-- Witness for C17: with `max_steps = 3` and world seed 1 the third record is the
final snapshot, with `step == 3`. -/
theorem C17_one_record_per_step_witness :
    (3 : Nat) < 2 ^ 64 ∧
    (MainState.loop 3
        (MainState.start {} { seed := 1 }
          { max_steps := 3, pace_ms := 0 })).telemetry.records[2]? =
      some (MainState.loop 3
        (MainState.start {} { seed := 1 }
          { max_steps := 3, pace_ms := 0 })).core.diagnostics ∧
    (MainState.loop 3
        (MainState.start {} { seed := 1 }
          { max_steps := 3, pace_ms := 0 })).core.diagnostics.step = 2 + 1 :=
  ⟨by decide, by decide,
    ((C17_one_record_per_step {} 1 3 0 (by decide)).2.1 2 _ (by decide)).1⟩


/-! ## The stimulus source: seeds and range -/

theorem WorldInterface.construct_zero :
    WorldInterface.construct { seed := 0 } = WorldInterface.construct { seed := 1 } := rfl

/-- C13 (seed 0 defaulting): a `WorldInterface` constructed with seed 0 has generator
state 1, the same as one constructed with seed 1, and produces the same stimuli at
every draw. -/
theorem C13_seed_zero_default :
    (WorldInterface.construct { seed := 0 }).state_ = 1 ∧
    WorldInterface.construct { seed := 0 } = WorldInterface.construct { seed := 1 } ∧
    (∀ n : Nat, WorldInterface.draw n (WorldInterface.construct { seed := 0 }) =
      WorldInterface.draw n (WorldInterface.construct { seed := 1 })) ∧
    (∀ n : Nat, WorldInterface.draws n (WorldInterface.construct { seed := 0 }) =
      WorldInterface.draws n (WorldInterface.construct { seed := 1 })) :=
  ⟨rfl, rfl, fun n => by rw [WorldInterface.construct_zero],
    fun n => by rw [WorldInterface.construct_zero]⟩

/-- C14, the claim as stated fails: the seeds 0 and 1 are different, and the two
sources produce the same first 1000 stimuli. -/
theorem C14_counterexample :
    (0 : Nat) ≠ 1 ∧
    WorldInterface.draws 1000 (WorldInterface.construct { seed := 0 }) =
      WorldInterface.draws 1000 (WorldInterface.construct { seed := 1 }) :=
  ⟨by decide, by rw [WorldInterface.construct_zero]⟩

/-- C16 (initial state): for every `InitialConditions` a freshly constructed
`GenesisCore` reports step 0, kappa 1.0, phi 0, dmag 0, mmag 0, alive, reason `None`;
the initial state does not depend on the seed. -/
theorem C16_initial_state (init : InitialConditions) :
    (GenesisCore.construct init).diagnostics =
        { step := 0, kappa := Dbl.one, phi := Dbl.zero, dmag := Dbl.zero, mmag := Dbl.zero,
          alive := true, death_reason := DeathReason.None } ∧
    Dbl.one.key = (Dbl.unit : Int) ∧ Dbl.zero.key = 0 ∧
    ∀ init2 : InitialConditions, GenesisCore.construct init = GenesisCore.construct init2 := by
  refine ⟨?_, Dbl.key_one, Dbl.key_zero, fun _ => rfl⟩
  show (GenesisCore.construct {}).diagnostics = _
  decide

theorem div_thousand_lt_one (k : Nat) (hk : k ≤ 999) :
    (Dbl.div (Dbl.ofNat k) (Dbl.ofDec 10000 1)).key < (Dbl.unit : Int) := by
  have hy : Dbl.ofDec 10000 1 = Dbl.fin false 1032 4292493394837504 := by decide
  have hm : Dbl.magKey 1032 4292493394837504 = 1000 * Dbl.unit := by decide
  have hu := Dbl.unit_pos
  have hm0 : Dbl.magKey 1032 4292493394837504 ≠ 0 := by omega
  obtain ⟨hf, hkey⟩ := Dbl.ofNat_key k (by
    calc k ≤ 999 := hk
      _ < 2 ^ 53 := by norm_num)
  rw [hy, Dbl.div_fin_eq _ _ _ hf hm0, hkey, hm]
  have hden : 0 < 1000 * Dbl.unit := by omega
  obtain ⟨P, hP⟩ : ∃ P : Nat, P = 2 ^ 1064 := ⟨_, rfl⟩
  have hPU : Dbl.unit = 1024 * P := by
    rw [hP]
    unfold Dbl.unit
    rw [show (1024 : Nat) = 2 ^ 10 by norm_num, ← pow_add]
  have hr : Dbl.RepI (((1023 * P : Nat) : Nat) : Int) :=
    ⟨1023 * P, ⟨1023, 1064, by rw [hP], by norm_num, by omega⟩, Or.inl rfl⟩
  have hk1 : k * Dbl.unit ≤ 1023 * P * 1000 := by
    rw [hPU]
    have : k * (1024 * P) ≤ 999 * (1024 * P) := Nat.mul_le_mul_right _ hk
    omega
  have hnat : k * Dbl.unit * Dbl.unit ≤ 1023 * P * (1000 * Dbl.unit) := by
    calc k * Dbl.unit * Dbl.unit ≤ 1023 * P * 1000 * Dbl.unit := Nat.mul_le_mul_right _ hk1
      _ = 1023 * P * (1000 * Dbl.unit) := by ring
  have h2 := Dbl.roundS_le (Dbl.ofNat k).signBit ((k : Int) * (Dbl.unit : Int) * (Dbl.unit : Int))
    (1000 * Dbl.unit) hden _ hr (by exact_mod_cast hnat)
  have hlt : (((1023 * P : Nat) : Nat) : Int) < (Dbl.unit : Int) := by
    have : 1023 * P < Dbl.unit := by
      have : 0 < P := by rw [hP]; exact Nat.pow_pos (by decide)
      omega
    exact_mod_cast this
  omega

/-- C20 (stimulus range): for every seed and every draw, `next` returns
`a = i / 1000.0` and `b = j / 1000.0` (binary64 quotients of exactly converted integers
`0 ≤ i, j ≤ 999`), both finite with `0 <= a < 1` and `0 <= b < 1`; the non-finite-input
branch of `evolve` is not taken on such a stimulus. -/
theorem C20_stimulus_range (seed n : Nat) :
    (∃ i j : Nat, i ≤ 999 ∧ j ≤ 999 ∧
      (WorldInterface.draw n (WorldInterface.construct { seed := seed })).a =
        Dbl.div (Dbl.ofNat i) (Dbl.ofDec 10000 1) ∧
      (WorldInterface.draw n (WorldInterface.construct { seed := seed })).b =
        Dbl.div (Dbl.ofNat j) (Dbl.ofDec 10000 1) ∧
      (Dbl.ofNat i).key = (i : Int) * (Dbl.unit : Int) ∧
      (Dbl.ofNat j).key = (j : Int) * (Dbl.unit : Int) ∧
      (Dbl.ofDec 10000 1).key = 1000 * (Dbl.unit : Int)) ∧
    is_finite (WorldInterface.draw n (WorldInterface.construct { seed := seed })).a = true ∧
    is_finite (WorldInterface.draw n (WorldInterface.construct { seed := seed })).b = true ∧
    Dbl.le Dbl.zero (WorldInterface.draw n (WorldInterface.construct { seed := seed })).a
      = true ∧
    Dbl.lt (WorldInterface.draw n (WorldInterface.construct { seed := seed })).a Dbl.one
      = true ∧
    Dbl.le Dbl.zero (WorldInterface.draw n (WorldInterface.construct { seed := seed })).b
      = true ∧
    Dbl.lt (WorldInterface.draw n (WorldInterface.construct { seed := seed })).b Dbl.one
      = true ∧
    (!is_finite (WorldInterface.draw n (WorldInterface.construct { seed := seed })).a ||
      !is_finite (WorldInterface.draw n (WorldInterface.construct { seed := seed })).b)
      = false := by
  unfold WorldInterface.draw
  generalize WorldInterface.after n (WorldInterface.construct { seed := seed }) = w
  have hi : xorshift64 w.state_ % 1000 ≤ 999 := by
    have := Nat.mod_lt (xorshift64 w.state_) (show 0 < 1000 by decide)
    omega
  have hj : xorshift64 (xorshift64 w.state_) % 1000 ≤ 999 := by
    have := Nat.mod_lt (xorshift64 (xorshift64 w.state_)) (show 0 < 1000 by decide)
    omega
  have ea : (w.next).1.a =
      Dbl.div (Dbl.ofNat (xorshift64 w.state_ % 1000)) (Dbl.ofDec 10000 1) := rfl
  have eb : (w.next).1.b =
      Dbl.div (Dbl.ofNat (xorshift64 (xorshift64 w.state_) % 1000)) (Dbl.ofDec 10000 1) := rfl
  obtain ⟨fa, a0, -⟩ := div_thousand_bd _ (show xorshift64 w.state_ % 1000 ≤ 1000 by omega)
  obtain ⟨fb, b0, -⟩ :=
    div_thousand_bd _ (show xorshift64 (xorshift64 w.state_) % 1000 ≤ 1000 by omega)
  have a1 := div_thousand_lt_one _ hi
  have b1 := div_thousand_lt_one _ hj
  rw [zero_mul] at a0 b0
  rw [← ea] at fa a0 a1
  rw [← eb] at fb b0 b1
  have k1000 : (Dbl.ofDec 10000 1).key = 1000 * (Dbl.unit : Int) := by decide
  refine ⟨⟨_, _, hi, hj, ea, eb, (Dbl.ofNat_key _ (by omega)).2, (Dbl.ofNat_key _ (by omega)).2,
    k1000⟩, fa, fb, ?_, ?_, ?_, ?_, ?_⟩
  · rw [Dbl.le_iff]
    exact ⟨rfl, Dbl.isFinite_isNaN _ fa, by rw [Dbl.key_zero]; exact a0⟩
  · rw [Dbl.lt_iff]
    exact ⟨Dbl.isFinite_isNaN _ fa, by decide, by rw [Dbl.key_one]; exact a1⟩
  · rw [Dbl.le_iff]
    exact ⟨rfl, Dbl.isFinite_isNaN _ fb, by rw [Dbl.key_zero]; exact b0⟩
  · rw [Dbl.lt_iff]
    exact ⟨Dbl.isFinite_isNaN _ fb, by decide, by rw [Dbl.key_one]; exact b1⟩
  · simp only [is_finite, fa, fb]
    rfl


/-! ## Facts about every reachable state -/

theorem Dbl.signBit_key_nonpos (x : Dbl) (hx : x.isFinite = true) (hs : x.signBit = true) :
    x.key ≤ 0 := by
  cases x with
  | nan => simp [Dbl.isFinite] at hx
  | inf s => simp [Dbl.isFinite] at hx
  | fin s E F =>
    simp only [Dbl.signBit] at hs
    subst hs
    simp only [Dbl.key]
    have : (0 : Int) ≤ (Dbl.magKey E F : Int) := Int.natCast_nonneg _
    omega

theorem Dbl.repI_one : Dbl.RepI 1 := ⟨1, ⟨1, 0, by simp, by norm_num, by omega⟩, Or.inl rfl⟩

theorem Dbl.repI_neg (b : Int) (h : Dbl.RepI b) : Dbl.RepI (-b) := by
  obtain ⟨k, hk, hb⟩ := h
  refine ⟨k, hk, ?_⟩
  rcases hb with hb | hb
  · right; rw [hb]
  · left; rw [hb]; omega

/-- A finite sum is `-0.0` only if both operands are. -/
theorem Dbl.add_isNegZero (x y : Dbl) (hx : x.isFinite = true) (hy : y.isFinite = true)
    (h : (Dbl.add x y).isNegZero = true) : x.isNegZero = true ∧ y.isNegZero = true := by
  rw [Dbl.add_fin_eq x y hx hy] at h
  simp only [Dbl.isNegZero, Bool.and_eq_true, decide_eq_true_eq] at h ⊢
  obtain ⟨hs, hk⟩ := h
  rcases lt_trichotomy (x.key + y.key) 0 with hneg | hzero | hpos
  · exfalso
    have := Dbl.roundS_le (x.signBit && y.signBit) (x.key + y.key) 1 (by decide) (-1)
      (Dbl.repI_neg 1 Dbl.repI_one) (by push_cast; omega)
    omega
  · rw [hzero] at hs
    have hsb : (x.signBit && y.signBit) = true := by
      simpa [Dbl.roundS, Dbl.signBit] using hs
    rw [Bool.and_eq_true] at hsb
    have h1 := Dbl.signBit_key_nonpos x hx hsb.1
    have h2 := Dbl.signBit_key_nonpos y hy hsb.2
    exact ⟨⟨hsb.1, by omega⟩, ⟨hsb.2, by omega⟩⟩
  · exfalso
    have := Dbl.roundS_ge (x.signBit && y.signBit) (x.key + y.key) 1 (by decide) 1
      Dbl.repI_one (by push_cast; omega)
    omega

theorem Dbl.sub_isNegZero (x y : Dbl) (hx : x.isFinite = true) (hy : y.isFinite = true)
    (h : (Dbl.sub x y).isNegZero = true) : x.isNegZero = true :=
  (Dbl.add_isNegZero x (Dbl.neg y) hx (by rw [Dbl.neg_isFinite]; exact hy) h).1

theorem Dbl.mul_self_nonneg_key (x : Dbl) (hx : x.isFinite = true) :
    0 ≤ (Dbl.mul x x).key := by
  apply Dbl.mul_key_ge x x hx hx 0 Dbl.repI_zero
  rw [zero_mul]
  exact mul_self_nonneg _

/-- A product with a factor in `[0, 1]` is no larger in magnitude than the other factor. -/
theorem Dbl.mul_small_bounds (c x : Dbl) (hc : c.isFinite = true) (hx : x.isFinite = true)
    (c0 : 0 ≤ c.key) (c1 : c.key ≤ (Dbl.unit : Int)) (x0 : 0 ≤ x.key) :
    (Dbl.mul c x).isFinite = true ∧ 0 ≤ (Dbl.mul c x).key ∧ (Dbl.mul c x).key ≤ x.key := by
  have h0 := Dbl.mul_nonneg_key hc hx c0 x0
  have h1 := Dbl.mul_key_le c x hc hx x.key (Dbl.repI_key x hx) (by
    rw [mul_comm x.key]
    exact Int.mul_le_mul_of_nonneg_right c1 x0)
  exact ⟨Dbl.finite_of_bounds _ (Dbl.mul_isNaN c x hc hx) 0 x.key Dbl.repI_zero
    (Dbl.repI_key x hx) h0 h1, h0, h1⟩

theorem clamp01_le (y : Dbl) (c : Int) (hn : y.isNaN = false) (hy : y.key ≤ c) (hc : 0 ≤ c) :
    (clamp01 y).key ≤ c := by
  have h1 : (Dbl.fmax Dbl.zero y).key ≤ c := by
    unfold Dbl.fmax
    split
    · rw [Dbl.key_zero]; exact hc
    · exact hy
  unfold clamp01
  simp only
  unfold Dbl.fmin
  split
  · rename_i h
    simp only [Bool.or_eq_true] at h
    rcases h with h | h
    · rw [Dbl.le_iff] at h
      omega
    · have hz : (Dbl.fmax Dbl.zero y).isNaN = false := by
        unfold Dbl.fmax
        split
        · rfl
        · exact hn
      rw [hz] at h
      exact absurd h (by decide)
  · exact h1

theorem stateSane_init : StructuralState.Sane {} :=
  ⟨by decide, by decide, by decide, by decide, by decide, by decide, by decide, by decide,
    by decide, by decide⟩

theorem stateSane_kill (X : StructuralState) (h : X.Sane) :
    StructuralState.Sane { X with kappa := Dbl.zero } := by
  obtain ⟨h1, h2, h2b, h3, h4, h5, h6, -, -, -⟩ := h
  exact ⟨h1, h2, h2b, h3, h4, h5, h6, rfl, le_refl _, by
    show Dbl.zero.key ≤ Dbl.one.key
    decide⟩


theorem const_facts :
    (kGammaPhi.isFinite = true ∧ 0 ≤ kGammaPhi.key) ∧
    ((Dbl.sub Dbl.one kGammaPhi).isFinite = true ∧ 0 ≤ (Dbl.sub Dbl.one kGammaPhi).key) ∧
    (kEtaStimPhi.isFinite = true ∧ 0 ≤ kEtaStimPhi.key) ∧
    (kCkPhi.isFinite = true ∧ 0 ≤ kCkPhi.key ∧ kCkPhi.key ≤ (Dbl.unit : Int)) ∧
    (kCkMem.isFinite = true ∧ 0 ≤ kCkMem.key ∧ kCkMem.key ≤ (Dbl.unit : Int)) :=
  ⟨⟨by decide, by decide⟩, ⟨by decide, by decide⟩, ⟨by decide, by decide⟩,
    ⟨by decide, by decide, by decide⟩, ⟨by decide, by decide, by decide⟩⟩

/-- A committed step keeps the facts of `StructuralState.Sane`, does not raise `kappa`,
and subtracts two non-negative terms from it. -/
theorem evolve_commit_sane (X : StructuralState) (s : WorldStimulus) (hX : X.Sane)
    (h : (evolve X s).2 = DeathReason.None) :
    (evolve X s).1.Sane ∧ (evolve X s).1.kappa.key ≤ X.kappa.key ∧
    ((Dbl.mul kCkPhi (candidate X s).phi_new).isFinite = true ∧
      0 ≤ (Dbl.mul kCkPhi (candidate X s).phi_new).key) ∧
    ((Dbl.mul kCkMem (candidate X s).mem_inc).isFinite = true ∧
      0 ≤ (Dbl.mul kCkMem (candidate X s).mem_inc).key) := by
  obtain ⟨hE, fa, fb, fdn, fpn, fmn, fkn, -, hle⟩ := evolve_ok X s h
  obtain ⟨xd, xnz, -, xp, xp0, -, xm, xk, xk0, xk1⟩ := hX
  obtain ⟨⟨cg, cg0⟩, ⟨c96, c960⟩, ⟨ce, ce0⟩, ⟨cp, cp0, cp1⟩, ⟨cm, cm0, cm1⟩⟩ := const_facts
  simp only [is_finite] at fa fb fdn fpn fmn fkn
  -- finiteness of the parts of phi_new
  have fpn' := fpn
  rw [candidate_phi_new] at fpn'
  obtain ⟨fg1, fg2⟩ := Dbl.add_isFinite _ _ fpn'
  obtain ⟨-, fT⟩ := Dbl.mul_isFinite _ _ fg2
  obtain ⟨fp, fq⟩ := Dbl.add_isFinite _ _ fT
  obtain ⟨-, fpow⟩ := Dbl.mul_isFinite _ _ fq
  obtain ⟨faa, fbb⟩ := Dbl.add_isFinite _ _ fpow
  -- signs
  have haa := Dbl.mul_self_nonneg_key s.a fa
  have hbb := Dbl.mul_self_nonneg_key s.b fb
  have hpow := Dbl.add_key_ge _ _ faa fbb 0 Dbl.repI_zero (by omega)
  have hq := Dbl.mul_nonneg_key ce fpow ce0 hpow
  have hp := Dbl.mul_self_nonneg_key _ fdn
  have hTp := Dbl.add_key_ge _ _ fp fq _ (Dbl.repI_key _ fp)
    (show (Dbl.mul (candidate X s).delta_new (candidate X s).delta_new).key ≤ _ + _ by omega)
  have hT0 : 0 ≤ (Dbl.add (Dbl.mul (candidate X s).delta_new (candidate X s).delta_new)
      (Dbl.mul kEtaStimPhi (Dbl.add (Dbl.mul s.a s.a) (Dbl.mul s.b s.b)))).key := by omega
  have hg1 := Dbl.mul_nonneg_key c96 xp c960 xp0
  have hg2 := Dbl.mul_nonneg_key cg fT cg0 hT0
  have hphig2 : (Dbl.mul kGammaPhi
      (Dbl.add (Dbl.mul (candidate X s).delta_new (candidate X s).delta_new)
        (Dbl.mul kEtaStimPhi (Dbl.add (Dbl.mul s.a s.a) (Dbl.mul s.b s.b))))).key ≤
      (candidate X s).phi_new.key := by
    rw [candidate_phi_new]
    exact Dbl.add_key_ge _ _ fg1 fg2 _ (Dbl.repI_key _ fg2) (by omega)
  have hphi0 : 0 ≤ (candidate X s).phi_new.key := by omega
  have hmono := Dbl.mul_mono_left kGammaPhi _ _ cg fp fT cg0 hTp
  -- delta_new is not -0.0
  have hnz : (candidate X s).delta_new.isNegZero = false := by
    cases hz : (candidate X s).delta_new.isNegZero with
    | false => rfl
    | true =>
      exfalso
      have fdn' := fdn
      rw [candidate_delta_new] at hz fdn'
      obtain ⟨fs1, ft2⟩ := Dbl.sub_isFinite _ _ fdn'
      have h1 := Dbl.sub_isNegZero _ _ fs1 ft2 hz
      obtain ⟨-, ft1⟩ := Dbl.add_isFinite _ _ fs1
      have h2 := (Dbl.add_isNegZero _ _ xd ft1 h1).1
      rw [h2] at xnz
      exact absurd xnz (by decide)
  -- the integrity chain
  obtain ⟨fv, v0, v1⟩ := Dbl.mul_small_bounds kCkPhi _ cp fpn cp0 cp1 hphi0
  have hz1 := Dbl.sub_key_le X.kappa _ xk fv X.kappa.key (Dbl.repI_key _ xk) (by omega)
  have hz2 := Dbl.sub_key_ge X.kappa _ xk fv (-(candidate X s).phi_new.key)
    (Dbl.repI_neg _ (Dbl.repI_key _ fpn)) (by omega)
  have fz := Dbl.finite_of_bounds _ (Dbl.sub_isNaN X.kappa _ xk fv) _ _
    (Dbl.repI_neg _ (Dbl.repI_key _ fpn)) (Dbl.repI_key _ xk) hz2 hz1
  have fmn' := fmn
  rw [candidate_m_new] at fmn'
  obtain ⟨-, finc⟩ := Dbl.add_isFinite _ _ fmn'
  have hinc0 := mem_inc_nonneg X s finc
  obtain ⟨fw, w0, -⟩ := Dbl.mul_small_bounds kCkMem _ cm finc cm0 cm1 hinc0
  have hy := Dbl.sub_key_le _ _ fz fw _ (Dbl.repI_key _ fz) (by omega)
  have hkle : (candidate X s).kappa_new.key ≤ X.kappa.key := by
    rw [candidate_kappa_new]
    exact clamp01_le _ _ (Dbl.sub_isNaN _ _ fz fw) (by omega) xk0
  obtain ⟨-, k0, k1⟩ := clamp01_range (Dbl.sub (Dbl.sub X.kappa
      (Dbl.mul kCkPhi (candidate X s).phi_new)) (Dbl.mul kCkMem (candidate X s).mem_inc))
  rw [← candidate_kappa_new] at k0 k1
  rw [hE]
  exact ⟨⟨fdn, hnz, fp, fpn, hphi0, le_trans hmono hphig2, fmn, fkn, k0, k1⟩, hkle,
    ⟨fv, v0⟩, ⟨fw, w0⟩⟩

theorem GenesisCore.sane_run (init : InitialConditions) (l : List WorldStimulus) :
    (GenesisCore.run (GenesisCore.construct init) l).X_.Sane := by
  apply GenesisCore.run_induction (fun g => g.X_.Sane) ?_ l (GenesisCore.construct init)
    stateSane_init
  intro g s hg
  cases ha : g.alive_ with
  | false => rw [GenesisCore.step_dead g s ha]; exact hg
  | true =>
    by_cases hr : (evolve g.X_ s).2 = DeathReason.None
    · rw [GenesisCore.step_commit g s ha hr]
      exact (evolve_commit_sane g.X_ s hg hr).1
    · rw [GenesisCore.step_kill g s ha hr]
      exact stateSane_kill _ hg


/-! ## Diagnostics -/

/-- For a finite `delta` other than `-0.0` the projected `dmag` is `fabs(delta)`. -/
theorem GenesisCore.dmag_eq_fabs (g : GenesisCore) (hf : g.X_.delta.isFinite = true)
    (hz : g.X_.delta.isNegZero = false) :
    g.diagnostics.dmag = Dbl.fabs g.X_.delta := by
  show (if Dbl.ge g.X_.delta Dbl.zero then g.X_.delta else Dbl.neg g.X_.delta) = _
  cases hd : g.X_.delta with
  | nan => rw [hd] at hf; simp [Dbl.isFinite] at hf
  | inf s => rw [hd] at hf; simp [Dbl.isFinite] at hf
  | fin s E F =>
    rw [hd] at hz
    cases s
    · have : Dbl.ge (Dbl.fin false E F) Dbl.zero = true := by
        rw [Dbl.ge, Dbl.le_iff]
        exact ⟨rfl, rfl, by rw [Dbl.key_zero]; exact Int.natCast_nonneg _⟩
      rw [this]
      rfl
    · have hk : Dbl.magKey E F ≠ 0 := by
        intro h0
        simp [Dbl.isNegZero, Dbl.signBit, Dbl.key, h0] at hz
      have : Dbl.ge (Dbl.fin true E F) Dbl.zero = false := by
        cases hg : Dbl.ge (Dbl.fin true E F) Dbl.zero with
        | false => rfl
        | true =>
          exfalso
          rw [Dbl.ge, Dbl.le_iff, Dbl.key_zero] at hg
          have h3 : (Dbl.fin true E F).key = -(Dbl.magKey E F : Int) := rfl
          have : (0 : Int) ≤ (Dbl.magKey E F : Int) := Int.natCast_nonneg _
          have : (Dbl.magKey E F : Int) ≠ 0 := by exact_mod_cast hk
          omega
      rw [this]
      rfl

/-- For a `delta` that is a number, `dmag == fabs(delta)` and `dmag >= 0`. -/
theorem GenesisCore.dmag_numeric (g : GenesisCore) (hn : g.X_.delta.isNaN = false) :
    Dbl.eq g.diagnostics.dmag (Dbl.fabs g.X_.delta) = true ∧
      Dbl.ge g.diagnostics.dmag Dbl.zero = true := by
  have hfn : (Dbl.fabs g.X_.delta).isNaN = false := by
    cases hd : g.X_.delta <;> simp_all [Dbl.fabs, Dbl.isNaN]
  have hnn : (Dbl.neg g.X_.delta).isNaN = false := by
    cases hd : g.X_.delta <;> simp_all [Dbl.neg, Dbl.isNaN]
  show Dbl.eq (if Dbl.ge g.X_.delta Dbl.zero then g.X_.delta else Dbl.neg g.X_.delta) _ = true ∧
    Dbl.ge (if Dbl.ge g.X_.delta Dbl.zero then g.X_.delta else Dbl.neg g.X_.delta) Dbl.zero
      = true
  cases hg : Dbl.ge g.X_.delta Dbl.zero with
  | true =>
    simp only [if_true]
    refine ⟨?_, hg⟩
    rw [Dbl.ge, Dbl.le_iff, Dbl.key_zero] at hg
    rw [Dbl.eq_iff, Dbl.fabs_key, abs_of_nonneg hg.2.2]
    exact ⟨hn, hfn, rfl⟩
  | false =>
    simp only [Bool.false_eq_true, if_false]
    have hneg : g.X_.delta.key < 0 := by
      by_contra hc
      have : Dbl.ge g.X_.delta Dbl.zero = true := by
        rw [Dbl.ge, Dbl.le_iff, Dbl.key_zero]
        exact ⟨rfl, hn, by omega⟩
      rw [this] at hg
      exact absurd hg (by decide)
    constructor
    · rw [Dbl.eq_iff, Dbl.fabs_key, Dbl.neg_key, abs_of_neg hneg]
      exact ⟨hnn, hfn, rfl⟩
    · rw [Dbl.ge, Dbl.le_iff, Dbl.key_zero, Dbl.neg_key]
      exact ⟨rfl, hnn, by omega⟩

/-- C15 (diagnostic projection): `diagnostics` returns the step counter, `kappa`,
`phi`, `m` (as `mmag`), the alive flag and the stored reason unchanged, and `dmag` is
`delta` or `-delta`; when `delta` is a number `dmag == |delta|` and `dmag >= 0`; in
every state reached from a fresh machine `dmag` is exactly `fabs(delta)` and
`dmag >= 0`. -/
theorem C15_diagnostic_projection (g : GenesisCore) :
    (g.diagnostics.step = g.step_ ∧ g.diagnostics.kappa = g.X_.kappa ∧
      g.diagnostics.phi = g.X_.phi ∧ g.diagnostics.mmag = g.X_.m ∧
      g.diagnostics.alive = g.alive_ ∧ g.diagnostics.death_reason = g.death_reason_ ∧
      (g.diagnostics.dmag = g.X_.delta ∨ g.diagnostics.dmag = Dbl.neg g.X_.delta)) ∧
    (g.X_.delta.isNaN = false →
      Dbl.eq g.diagnostics.dmag (Dbl.fabs g.X_.delta) = true ∧
      Dbl.ge g.diagnostics.dmag Dbl.zero = true) ∧
    ∀ (init : InitialConditions) (stimuli : List WorldStimulus),
      (GenesisCore.run (GenesisCore.construct init) stimuli).diagnostics.dmag =
        Dbl.fabs (GenesisCore.run (GenesisCore.construct init) stimuli).X_.delta ∧
      Dbl.ge (GenesisCore.run (GenesisCore.construct init) stimuli).diagnostics.dmag Dbl.zero
        = true := by
  refine ⟨⟨rfl, rfl, rfl, rfl, rfl, rfl, ?_⟩, GenesisCore.dmag_numeric g, ?_⟩
  · show (if Dbl.ge g.X_.delta Dbl.zero then g.X_.delta else Dbl.neg g.X_.delta) = _ ∨
      (if Dbl.ge g.X_.delta Dbl.zero then g.X_.delta else Dbl.neg g.X_.delta) = _
    cases Dbl.ge g.X_.delta Dbl.zero
    · right; rfl
    · left; rfl
  · intro init stimuli
    have hs := GenesisCore.sane_run init stimuli
    exact ⟨GenesisCore.dmag_eq_fabs _ hs.1 hs.2.1,
      (GenesisCore.dmag_numeric _ (Dbl.isFinite_isNaN _ hs.1)).2⟩

/-- Witness for C15: after one step with the stimulus `(0.25, 0.5)` the state has a
negative `delta`, and `dmag` is its absolute value. -/
theorem C15_diagnostic_projection_witness :
    ((GenesisCore.run (GenesisCore.construct {})
        [{ a := Dbl.ofDec 25 2, b := Dbl.ofDec 5 1 }]).X_.delta.isNaN = false ∧
      Dbl.lt (GenesisCore.run (GenesisCore.construct {})
        [{ a := Dbl.ofDec 25 2, b := Dbl.ofDec 5 1 }]).X_.delta Dbl.zero = true) ∧
    (Dbl.eq (GenesisCore.run (GenesisCore.construct {})
        [{ a := Dbl.ofDec 25 2, b := Dbl.ofDec 5 1 }]).diagnostics.dmag
        (Dbl.fabs (GenesisCore.run (GenesisCore.construct {})
          [{ a := Dbl.ofDec 25 2, b := Dbl.ofDec 5 1 }]).X_.delta) = true ∧
      Dbl.ge (GenesisCore.run (GenesisCore.construct {})
        [{ a := Dbl.ofDec 25 2, b := Dbl.ofDec 5 1 }]).diagnostics.dmag Dbl.zero = true) :=
  ⟨⟨by decide, by decide⟩,
    (C15_diagnostic_projection (GenesisCore.run (GenesisCore.construct {})
      [{ a := Dbl.ofDec 25 2, b := Dbl.ofDec 5 1 }])).2.1 (by decide)⟩

/-! ## Integrity never recovers, potential is non-negative -/

/-- C18 (integrity never recovers): for every state reached from a fresh machine and
every stimulus, `kappa` after `step` is `<=` `kappa` before it; when the machine is alive
afterwards the two subtracted terms `0.00015*phi_new` and `0.00001*mem_inc` are `>= 0`,
and a fatal step sets `kappa` to 0. -/
theorem C18_kappa_never_recovers (init : InitialConditions) (stimuli : List WorldStimulus)
    (s : WorldStimulus) :
    Dbl.le ((GenesisCore.run (GenesisCore.construct init) stimuli).step s).2.diagnostics.kappa
        (GenesisCore.run (GenesisCore.construct init) stimuli).diagnostics.kappa = true ∧
    (((GenesisCore.run (GenesisCore.construct init) stimuli).step s).2.diagnostics.alive
        = true →
      Dbl.le Dbl.zero (Dbl.mul kCkPhi
        (candidate (GenesisCore.run (GenesisCore.construct init) stimuli).X_ s).phi_new)
        = true ∧
      Dbl.le Dbl.zero (Dbl.mul kCkMem
        (candidate (GenesisCore.run (GenesisCore.construct init) stimuli).X_ s).mem_inc)
        = true) ∧
    (((GenesisCore.run (GenesisCore.construct init) stimuli).step s).2.diagnostics.alive
        = false →
      ((GenesisCore.run (GenesisCore.construct init) stimuli).step s).2.diagnostics.kappa
        = Dbl.zero) := by
  have hs := GenesisCore.sane_run init stimuli
  have hinv := GenesisCore.inv_run init stimuli
  generalize GenesisCore.run (GenesisCore.construct init) stimuli = g at hs hinv ⊢
  obtain ⟨-, -, -, -, -, -, -, fk, k0, k1⟩ := id hs
  have hrefl : Dbl.le g.X_.kappa g.X_.kappa = true := by
    rw [Dbl.le_iff]
    exact ⟨Dbl.isFinite_isNaN _ fk, Dbl.isFinite_isNaN _ fk, le_refl _⟩
  cases ha : g.alive_ with
  | false =>
    rw [GenesisCore.step_dead g s ha]
    refine ⟨hrefl, ?_, fun _ => hinv.2.1 ha⟩
    intro h
    rw [show g.diagnostics.alive = g.alive_ from rfl, ha] at h
    exact absurd h (by decide)
  | true =>
    by_cases hr : (evolve g.X_ s).2 = DeathReason.None
    · rw [GenesisCore.step_commit g s ha hr]
      obtain ⟨hsane, hle, ⟨fv, v0⟩, ⟨fw, w0⟩⟩ := evolve_commit_sane g.X_ s hs hr
      refine ⟨?_, ?_, ?_⟩
      · show Dbl.le (evolve g.X_ s).1.kappa g.X_.kappa = true
        rw [Dbl.le_iff]
        exact ⟨Dbl.isFinite_isNaN _ hsane.2.2.2.2.2.2.2.1, Dbl.isFinite_isNaN _ fk, hle⟩
      · intro _
        constructor
        · rw [Dbl.le_iff, Dbl.key_zero]
          exact ⟨rfl, Dbl.isFinite_isNaN _ fv, v0⟩
        · rw [Dbl.le_iff, Dbl.key_zero]
          exact ⟨rfl, Dbl.isFinite_isNaN _ fw, w0⟩
      · intro h
        rw [show ({ g with X_ := (evolve g.X_ s).1,
                           step_ := (g.step_ + 1) % 2 ^ 64 } : GenesisCore).diagnostics.alive
              = g.alive_ from rfl, ha] at h
        exact absurd h (by decide)
    · rw [GenesisCore.step_kill g s ha hr]
      refine ⟨?_, ?_, fun _ => rfl⟩
      · show Dbl.le Dbl.zero g.X_.kappa = true
        rw [Dbl.le_iff, Dbl.key_zero]
        exact ⟨rfl, Dbl.isFinite_isNaN _ fk, k0⟩
      · intro h
        exact absurd h Bool.false_ne_true

/-- Witness for C18: the first step of a fresh machine with the stimulus `(0.5, 0.25)`
leaves it alive, and one with a NaN stimulus kills it. -/
theorem C18_kappa_never_recovers_witness :
    (((GenesisCore.run (GenesisCore.construct {}) []).step
        { a := Dbl.ofDec 5 1, b := Dbl.ofDec 25 2 }).2.diagnostics.alive = true ∧
      Dbl.le Dbl.zero (Dbl.mul kCkPhi
        (candidate (GenesisCore.run (GenesisCore.construct {}) []).X_
          { a := Dbl.ofDec 5 1, b := Dbl.ofDec 25 2 }).phi_new) = true) ∧
    (((GenesisCore.run (GenesisCore.construct {}) []).step
        { a := Dbl.nan }).2.diagnostics.alive = false ∧
      ((GenesisCore.run (GenesisCore.construct {}) []).step
        { a := Dbl.nan }).2.diagnostics.kappa = Dbl.zero) :=
  ⟨⟨by decide,
      ((C18_kappa_never_recovers {} [] { a := Dbl.ofDec 5 1, b := Dbl.ofDec 25 2 }).2.1
        (by decide)).1⟩,
    ⟨by decide, (C18_kappa_never_recovers {} [] { a := Dbl.nan }).2.2 (by decide)⟩⟩

/-- C19 (potential is non-negative): in every state reached from a fresh machine by any
sequence of steps with arbitrary stimuli, `phi >= 0` and `phi >= 0.04 * delta^2`
(evaluated in binary64). -/
theorem C19_phi_nonneg (init : InitialConditions) (stimuli : List WorldStimulus) :
    Dbl.ge (GenesisCore.run (GenesisCore.construct init) stimuli).diagnostics.phi Dbl.zero
      = true ∧
    Dbl.ge (GenesisCore.run (GenesisCore.construct init) stimuli).diagnostics.phi
      (Dbl.mul (Dbl.ofDec 4 2)
        (Dbl.mul (GenesisCore.run (GenesisCore.construct init) stimuli).X_.delta
          (GenesisCore.run (GenesisCore.construct init) stimuli).X_.delta)) = true := by
  obtain ⟨fd, -, fdd, fp, p0, hge, -⟩ := GenesisCore.sane_run init stimuli
  have e : Dbl.ofDec 4 2 = kGammaPhi := by decide
  rw [e]
  constructor
  · rw [Dbl.ge, Dbl.le_iff, Dbl.key_zero]
    exact ⟨rfl, Dbl.isFinite_isNaN _ fp, p0⟩
  · rw [Dbl.ge, Dbl.le_iff]
    exact ⟨Dbl.mul_isNaN _ _ const_facts.1.1 fdd, Dbl.isFinite_isNaN _ fp, hge⟩


/-! ## The generator state never degenerates -/

/-- The stage `x ^= x << k` (modulo `2^64`) yields 0 only for `x = 0` (`k = 13, 17`). -/
theorem xor_shl_eq_zero (x : Nat) :
    (x ^^^ ((x <<< 13) % 2 ^ 64) = 0 → x = 0) ∧ (x ^^^ ((x <<< 17) % 2 ^ 64) = 0 → x = 0) := by
  constructor
  · intro h
    rw [Nat.xor_eq_zero, Nat.shiftLeft_eq] at h
    omega
  · intro h
    rw [Nat.xor_eq_zero, Nat.shiftLeft_eq] at h
    omega

/-- The stage `x ^= x >> 7` yields 0 only for `x = 0`. -/
theorem xor_shr_eq_zero (x : Nat) (h : x ^^^ (x >>> 7) = 0) : x = 0 := by
  rw [Nat.xor_eq_zero, Nat.shiftRight_eq_div_pow] at h
  omega

theorem xorshift64_ne_zero (x : Nat) (h : x ≠ 0) : xorshift64 x ≠ 0 := by
  intro h3
  unfold xorshift64 at h3
  simp only at h3
  have h2 := (xor_shl_eq_zero _).2 h3
  have h1 := xor_shr_eq_zero _ h2
  exact h ((xor_shl_eq_zero x).1 h1)

theorem xorshift64_lt (x : Nat) (h : x < 2 ^ 64) : xorshift64 x < 2 ^ 64 := by
  unfold xorshift64
  simp only
  have h1 : x ^^^ ((x <<< 13) % 2 ^ 64) < 2 ^ 64 :=
    Nat.xor_lt_two_pow h (Nat.mod_lt _ (by decide))
  have h2 : (x ^^^ ((x <<< 13) % 2 ^ 64)) ^^^ ((x ^^^ ((x <<< 13) % 2 ^ 64)) >>> 7) < 2 ^ 64 := by
    apply Nat.xor_lt_two_pow h1
    rw [Nat.shiftRight_eq_div_pow]
    exact lt_of_le_of_lt (Nat.div_le_self _ _) h1
  exact Nat.xor_lt_two_pow h2 (Nat.mod_lt _ (by decide))

theorem WorldInterface.construct_state (seed : Nat) :
    (WorldInterface.construct { seed := seed }).state_ ≠ 0 ∧
      (seed < 2 ^ 64 → (WorldInterface.construct { seed := seed }).state_ < 2 ^ 64) := by
  show (if seed ≠ 0 then seed else 1) ≠ 0 ∧ (seed < 2 ^ 64 → (if seed ≠ 0 then seed else 1) < 2 ^ 64)
  split
  · rename_i h
    exact ⟨h, fun hs => hs⟩
  · exact ⟨by decide, fun _ => by decide⟩

theorem WorldInterface.after_state (n : Nat) :
    ∀ w : WorldInterface, w.state_ ≠ 0 →
      (WorldInterface.after n w).state_ ≠ 0 ∧
        (w.state_ < 2 ^ 64 → (WorldInterface.after n w).state_ < 2 ^ 64) := by
  induction n with
  | zero => intro w h; exact ⟨h, fun hs => hs⟩
  | succ n ih =>
    intro w h
    have h1 : (w.next).2.state_ ≠ 0 := xorshift64_ne_zero _ (xorshift64_ne_zero _ h)
    obtain ⟨a, b⟩ := ih (w.next).2 h1
    exact ⟨a, fun hs => b (xorshift64_lt _ (xorshift64_lt _ hs))⟩

/-- C21 (generator state never degenerates): for every non-zero 64-bit `x`,
`xorshift64 x` is a non-zero 64-bit value; hence for every seed the state of a
`WorldInterface` is non-zero (and 64-bit) after construction and after every call to
`next`. -/
theorem C21_state_nonzero (x : Nat) (hx : x < 2 ^ 64) (h0 : x ≠ 0) :
    (xorshift64 x ≠ 0 ∧ xorshift64 x < 2 ^ 64) ∧
    ∀ seed n : Nat,
      (WorldInterface.construct { seed := seed }).state_ ≠ 0 ∧
      (WorldInterface.after n (WorldInterface.construct { seed := seed })).state_ ≠ 0 ∧
      ((WorldInterface.after n (WorldInterface.construct { seed := seed })).next).2.state_ ≠ 0 ∧
      (seed < 2 ^ 64 →
        (WorldInterface.after n (WorldInterface.construct { seed := seed })).state_ < 2 ^ 64) := by
  refine ⟨⟨xorshift64_ne_zero x h0, xorshift64_lt x hx⟩, ?_⟩
  intro seed n
  obtain ⟨c1, c2⟩ := WorldInterface.construct_state seed
  obtain ⟨a1, a2⟩ := WorldInterface.after_state n _ c1
  exact ⟨c1, a1, xorshift64_ne_zero _ (xorshift64_ne_zero _ a1), fun hs => a2 (c2 hs)⟩

/-- Witness for C21: `x = 1`, whose image is `0x40822041`. -/
theorem C21_state_nonzero_witness :
    (1 : Nat) < 2 ^ 64 ∧ (1 : Nat) ≠ 0 ∧ xorshift64 1 = 1082269761 ∧ xorshift64 1 ≠ 0 :=
  ⟨by decide, by decide, by decide, (C21_state_nonzero 1 (by decide) (by decide)).1.1⟩


/-! ## Seeds of the stimulus source: the generator state is observable -/

theorem xorshift64_xor (x y : Nat) :
    xorshift64 (x ^^^ y) = xorshift64 x ^^^ xorshift64 y := by
  have hl : ∀ (a b k : Nat), ((a ^^^ b) <<< k) % 2 ^ 64 =
      ((a <<< k) % 2 ^ 64) ^^^ ((b <<< k) % 2 ^ 64) := by
    intro a b k
    apply Nat.eq_of_testBit_eq
    intro i
    simp only [Nat.testBit_mod_two_pow, Nat.testBit_xor, Nat.testBit_shiftLeft]
    cases decide (i < 64) <;> cases decide (i ≥ k) <;> simp
  have hr : ∀ (a b k : Nat), (a ^^^ b) >>> k = (a >>> k) ^^^ (b >>> k) := by
    intro a b k
    apply Nat.eq_of_testBit_eq
    intro i
    simp only [Nat.testBit_xor, Nat.testBit_shiftRight]
  have hx : ∀ a b c d : Nat, (a ^^^ b) ^^^ (c ^^^ d) = (a ^^^ c) ^^^ (b ^^^ d) := by
    intro a b c d
    apply Nat.eq_of_testBit_eq
    intro i
    simp only [Nat.testBit_xor]
    cases a.testBit i <;> cases b.testBit i <;> cases c.testBit i <;> cases d.testBit i <;> rfl
  have s1 : ∀ (a b k : Nat), (a ^^^ b) ^^^ (((a ^^^ b) <<< k) % 2 ^ 64) =
      (a ^^^ ((a <<< k) % 2 ^ 64)) ^^^ (b ^^^ ((b <<< k) % 2 ^ 64)) := by
    intro a b k
    rw [hl, hx]
  have s2 : ∀ (a b k : Nat), (a ^^^ b) ^^^ ((a ^^^ b) >>> k) =
      (a ^^^ (a >>> k)) ^^^ (b ^^^ (b >>> k)) := by
    intro a b k
    rw [hr, hx]
  unfold xorshift64
  simp only [s1, s2]

theorem recover_lowBits_xor (n : Nat) :
    ∀ (cs : List Nat) (x y : Nat),
      recover cs (lowBits n (x ^^^ y)) =
        recover cs (lowBits n x) ^^^ recover cs (lowBits n y) := by
  induction n with
  | zero =>
    intro cs x y
    cases cs <;> simp [lowBits, recover]
  | succ n ih =>
    intro cs x y
    cases cs with
    | nil => simp [recover]
    | cons c cs =>
      simp only [lowBits, recover]
      rw [xorshift64_xor, ih, Nat.testBit_xor]
      apply Nat.eq_of_testBit_eq
      intro i
      simp only [Nat.testBit_xor]
      cases (xorshift64 x).testBit 0 <;> cases (xorshift64 y).testBit 0 <;>
        cases c.testBit i <;>
        cases (recover cs (lowBits n (xorshift64 x))).testBit i <;>
        cases (recover cs (lowBits n (xorshift64 y))).testBit i <;> simp

theorem recover_basis :
    ∀ i : Nat, i < 64 → recover recoveryTable (lowBits 64 (2 ^ i)) = 2 ^ i := by
  decide

theorem recover_lowBits_zero : recover recoveryTable (lowBits 64 0) = 0 := by decide

theorem two_pow_xor (n e : Nat) (he : e < 2 ^ n) : 2 ^ n ^^^ e = 2 ^ n + e := by
  apply Nat.eq_of_testBit_eq
  intro i
  rw [Nat.testBit_xor, Nat.testBit_two_pow]
  rcases Nat.lt_trichotomy i n with h | h | h
  · rw [Nat.testBit_two_pow_add_gt h]
    simp [Nat.ne_of_gt h]
  · subst h
    rw [Nat.testBit_two_pow_add_eq, Nat.testBit_lt_two_pow he]
    simp
  · have h1 : e < 2 ^ i := lt_trans he (Nat.pow_lt_pow_right (by decide) h)
    have h2 : 2 ^ n + e < 2 ^ i := by
      have : 2 ^ (n + 1) ≤ 2 ^ i := Nat.pow_le_pow_right (by decide) h
      rw [Nat.pow_succ] at this
      omega
    rw [Nat.testBit_lt_two_pow h1, Nat.testBit_lt_two_pow h2]
    simp [Nat.ne_of_lt h]

/-- A 64-bit state is recovered from bit 0 of its next 64 outputs. -/
theorem recover_lowBits (n : Nat) (hn : n ≤ 64) :
    ∀ x : Nat, x < 2 ^ n → recover recoveryTable (lowBits 64 x) = x := by
  induction n with
  | zero =>
    intro x hx
    have : x = 0 := by simpa using hx
    rw [this]
    exact recover_lowBits_zero
  | succ n ih =>
    intro x hx
    rcases Nat.lt_or_ge x (2 ^ n) with hlt | hge
    · exact ih (by omega) x hlt
    · have he : x - 2 ^ n < 2 ^ n := by
        rw [Nat.pow_succ] at hx
        omega
      have hxe : x = 2 ^ n ^^^ (x - 2 ^ n) := by
        rw [two_pow_xor n _ he]
        omega
      rw [hxe, recover_lowBits_xor, recover_basis n (by omega), ih (by omega) _ he]

theorem lowBits_inj (x y : Nat) (hx : x < 2 ^ 64) (hy : y < 2 ^ 64)
    (h : lowBits 64 x = lowBits 64 y) : x = y := by
  rw [← recover_lowBits 64 (le_refl _) x hx, ← recover_lowBits 64 (le_refl _) y hy, h]

/-- The quotient `k / 1000.0` lies between two neighbouring multiples of `2^-20`. -/
theorem div_thousand_grid (k : Nat) (hk : k ≤ 999) :
    ∃ Q : Nat, 0 < Q ∧
      (((k * 1048576 / 1000 * Q : Nat) : Nat) : Int) ≤
        (Dbl.div (Dbl.ofNat k) (Dbl.ofDec 10000 1)).key ∧
      (Dbl.div (Dbl.ofNat k) (Dbl.ofDec 10000 1)).key ≤
        ((((k * 1048576 / 1000 + 1) * Q : Nat) : Nat) : Int) ∧
      Q = 2 ^ 1054 := by
  have hy : Dbl.ofDec 10000 1 = Dbl.fin false 1032 4292493394837504 := by decide
  have hm : Dbl.magKey 1032 4292493394837504 = 1000 * Dbl.unit := by decide
  have hu := Dbl.unit_pos
  have hm0 : Dbl.magKey 1032 4292493394837504 ≠ 0 := by omega
  obtain ⟨hf, hkey⟩ := Dbl.ofNat_key k (by
    calc k ≤ 999 := hk
      _ < 2 ^ 53 := by norm_num)
  rw [hy, Dbl.div_fin_eq _ _ _ hf hm0, hkey, hm]
  have hden : 0 < 1000 * Dbl.unit := by omega
  obtain ⟨Q, hQ⟩ : ∃ Q : Nat, Q = 2 ^ 1054 := ⟨_, rfl⟩
  have hQU : Dbl.unit = 1048576 * Q := by
    rw [hQ]
    unfold Dbl.unit
    rw [show (1048576 : Nat) = 2 ^ 20 by norm_num, ← pow_add]
  have hQ0 : 0 < Q := by rw [hQ]; exact Nat.pow_pos (by decide)
  generalize hmdef : k * 1048576 / 1000 = m
  have hm1 : m * 1000 ≤ k * 1048576 := by rw [← hmdef]; exact Nat.div_mul_le_self _ _
  have hm2 : k * 1048576 < (m + 1) * 1000 := by
    rw [← hmdef]
    have := Nat.lt_succ_self (k * 1048576 / 1000)
    omega
  have hmlt : m + 1 < 2 ^ 53 := by
    have : m ≤ 1048576 := by omega
    calc m + 1 ≤ 1048577 := by omega
      _ < 2 ^ 53 := by norm_num
  have hrlo : Dbl.RepI (((m * Q : Nat) : Nat) : Int) :=
    ⟨m * Q, ⟨m, 1054, by rw [hQ], by omega, by omega⟩, Or.inl rfl⟩
  have hrhi : Dbl.RepI ((((m + 1) * Q : Nat) : Nat) : Int) :=
    ⟨(m + 1) * Q, ⟨m + 1, 1054, by rw [hQ], hmlt, by omega⟩, Or.inl rfl⟩
  have hlo : m * Q * (1000 * Dbl.unit) ≤ k * Dbl.unit * Dbl.unit := by
    calc m * Q * (1000 * Dbl.unit) = (m * 1000) * Q * Dbl.unit := by ring
      _ ≤ (k * 1048576) * Q * Dbl.unit :=
        Nat.mul_le_mul_right _ (Nat.mul_le_mul_right _ hm1)
      _ = k * Dbl.unit * Dbl.unit := by rw [hQU]; ring
  have hhi : k * Dbl.unit * Dbl.unit ≤ (m + 1) * Q * (1000 * Dbl.unit) := by
    calc k * Dbl.unit * Dbl.unit = (k * 1048576) * Q * Dbl.unit := by rw [hQU]; ring
      _ ≤ ((m + 1) * 1000) * Q * Dbl.unit :=
        Nat.mul_le_mul_right _ (Nat.mul_le_mul_right _ (le_of_lt hm2))
      _ = (m + 1) * Q * (1000 * Dbl.unit) := by ring
  have h1 := Dbl.roundS_ge (Dbl.ofNat k).signBit
    ((k : Int) * (Dbl.unit : Int) * (Dbl.unit : Int)) (1000 * Dbl.unit) hden _ hrlo
    (by exact_mod_cast hlo)
  have h2 := Dbl.roundS_le (Dbl.ofNat k).signBit
    ((k : Int) * (Dbl.unit : Int) * (Dbl.unit : Int)) (1000 * Dbl.unit) hden _ hrhi
    (by exact_mod_cast hhi)
  exact ⟨Q, hQ0, h1, h2, hQ⟩

/-- Distinct integers below 1000 give distinct quotients by `1000.0`. -/
theorem div_thousand_lt (i j : Nat) (hij : i < j) (hj : j ≤ 999) :
    (Dbl.div (Dbl.ofNat i) (Dbl.ofDec 10000 1)).key <
      (Dbl.div (Dbl.ofNat j) (Dbl.ofDec 10000 1)).key := by
  obtain ⟨Q, hQ0, -, hi2, hQ⟩ := div_thousand_grid i (by omega)
  obtain ⟨Q2, -, hj1, -, hQ2⟩ := div_thousand_grid j hj
  rw [hQ2, ← hQ] at hj1
  have hm : i * 1048576 / 1000 + 1 < j * 1048576 / 1000 := by omega
  have : (i * 1048576 / 1000 + 1) * Q < j * 1048576 / 1000 * Q :=
    Nat.mul_lt_mul_of_pos_right hm hQ0
  have hc : ((((i * 1048576 / 1000 + 1) * Q : Nat) : Nat) : Int) <
      (((j * 1048576 / 1000 * Q : Nat) : Nat) : Int) := by exact_mod_cast this
  omega

theorem div_thousand_inj (i j : Nat) (hi : i ≤ 999) (hj : j ≤ 999)
    (h : Dbl.eq (Dbl.div (Dbl.ofNat i) (Dbl.ofDec 10000 1))
      (Dbl.div (Dbl.ofNat j) (Dbl.ofDec 10000 1)) = true) : i = j := by
  rw [Dbl.eq_iff] at h
  obtain ⟨-, -, hk⟩ := h
  rcases Nat.lt_trichotomy i j with hlt | heq | hgt
  · have := div_thousand_lt i j hlt hj
    omega
  · exact heq
  · have := div_thousand_lt j i hgt hi
    omega

/-- Two sources whose first `k` stimuli agree (compared with `==`) have generator
outputs that agree in bit 0 over the first `2 * k` outputs. -/
theorem WorldInterface.lowBits_of_draws (k : Nat) :
    ∀ w v : WorldInterface,
      (∀ i : Nat, i < k →
        Dbl.eq (WorldInterface.draw i w).a (WorldInterface.draw i v).a = true ∧
        Dbl.eq (WorldInterface.draw i w).b (WorldInterface.draw i v).b = true) →
      lowBits (2 * k) w.state_ = lowBits (2 * k) v.state_ := by
  induction k with
  | zero => intro w v _; rfl
  | succ k ih =>
    intro w v h
    have hrest := ih (w.next).2 (v.next).2 (fun i hi => h (i + 1) (by omega))
    obtain ⟨ha, hb⟩ := h 0 (by omega)
    have hlt : ∀ r : Nat, r % 1000 ≤ 999 := by
      intro r
      have := Nat.mod_lt r (show 0 < 1000 by decide)
      omega
    have ea := div_thousand_inj _ _ (hlt (xorshift64 w.state_)) (hlt (xorshift64 v.state_)) ha
    have eb := div_thousand_inj _ _ (hlt (xorshift64 (xorshift64 w.state_)))
      (hlt (xorshift64 (xorshift64 v.state_))) hb
    have bit : ∀ r s : Nat, r % 1000 = s % 1000 → r.testBit 0 = s.testBit 0 := by
      intro r s hrs
      rw [Nat.testBit_zero, Nat.testBit_zero]
      have : r % 2 = s % 2 := by omega
      rw [this]
    rw [show 2 * (k + 1) = 2 * k + 1 + 1 by omega]
    show (xorshift64 w.state_).testBit 0 ::
        (xorshift64 (xorshift64 w.state_)).testBit 0 ::
          lowBits (2 * k) (xorshift64 (xorshift64 w.state_)) =
      (xorshift64 v.state_).testBit 0 ::
        (xorshift64 (xorshift64 v.state_)).testBit 0 ::
          lowBits (2 * k) (xorshift64 (xorshift64 v.state_))
    rw [bit _ _ ea, bit _ _ eb]
    exact congrArg _ (congrArg _ hrest)

/-- C14, amended (seed divergence): for every two 64-bit seeds, the two sources
produce identical stimuli at every draw when the seeds are equal or are the seeds 0 and
1 (both give generator state 1); in every other case their stimulus sequences differ
(in `a` or in `b`, compared with `!=`) at some draw among the first 32, hence among the
first 1000. -/
theorem C14_seed_divergence (s1 s2 : Nat) (h1 : s1 < 2 ^ 64) (h2 : s2 < 2 ^ 64) :
    ((s1 = s2 ∨ (s1 ≤ 1 ∧ s2 ≤ 1)) →
      WorldInterface.construct { seed := s1 } = WorldInterface.construct { seed := s2 } ∧
      ∀ n : Nat, WorldInterface.draws n (WorldInterface.construct { seed := s1 }) =
        WorldInterface.draws n (WorldInterface.construct { seed := s2 })) ∧
    (¬ (s1 = s2 ∨ (s1 ≤ 1 ∧ s2 ≤ 1)) →
      ∃ i : Nat, i < 32 ∧ i < 1000 ∧
        (Dbl.eq (WorldInterface.draw i (WorldInterface.construct { seed := s1 })).a
            (WorldInterface.draw i (WorldInterface.construct { seed := s2 })).a = false ∨
          Dbl.eq (WorldInterface.draw i (WorldInterface.construct { seed := s1 })).b
            (WorldInterface.draw i (WorldInterface.construct { seed := s2 })).b = false)) := by
  constructor
  · intro h
    have hc : WorldInterface.construct { seed := s1 } =
        WorldInterface.construct { seed := s2 } := by
      rcases h with h | ⟨ha, hb⟩
      · rw [h]
      · have e1 : s1 = 0 ∨ s1 = 1 := by omega
        have e2 : s2 = 0 ∨ s2 = 1 := by omega
        rcases e1 with e1 | e1 <;> rcases e2 with e2 | e2 <;> rw [e1, e2] <;> rfl
    exact ⟨hc, fun n => by rw [hc]⟩
  · intro h
    by_contra hcon
    have hall : ∀ i : Nat, i < 32 →
        Dbl.eq (WorldInterface.draw i (WorldInterface.construct { seed := s1 })).a
          (WorldInterface.draw i (WorldInterface.construct { seed := s2 })).a = true ∧
        Dbl.eq (WorldInterface.draw i (WorldInterface.construct { seed := s1 })).b
          (WorldInterface.draw i (WorldInterface.construct { seed := s2 })).b = true := by
      intro i hi
      constructor
      · by_contra hx
        exact hcon ⟨i, hi, by omega, Or.inl (by simpa using hx)⟩
      · by_contra hx
        exact hcon ⟨i, hi, by omega, Or.inr (by simpa using hx)⟩
    have hbits := WorldInterface.lowBits_of_draws 32 _ _ hall
    have hs1 := (WorldInterface.construct_state s1).2 h1
    have hs2 := (WorldInterface.construct_state s2).2 h2
    have hst := lowBits_inj _ _ hs1 hs2 hbits
    apply h
    have e : (if s1 ≠ 0 then s1 else 1) = (if s2 ≠ 0 then s2 else 1) := hst
    split_ifs at e <;> omega

/-- Witness for C14: the seeds 123 and 124 of the test are two distinct 64-bit seeds
other than 0 and 1. -/
theorem C14_seed_divergence_witness :
    (123 : Nat) < 2 ^ 64 ∧ (124 : Nat) < 2 ^ 64 ∧
    ¬ ((123 : Nat) = 124 ∨ ((123 : Nat) ≤ 1 ∧ (124 : Nat) ≤ 1)) ∧
    Dbl.eq (WorldInterface.draw 0 (WorldInterface.construct { seed := 123 })).a
      (WorldInterface.draw 0 (WorldInterface.construct { seed := 124 })).a = false ∧
    ∃ i : Nat, i < 32 ∧ i < 1000 ∧
      (Dbl.eq (WorldInterface.draw i (WorldInterface.construct { seed := 123 })).a
          (WorldInterface.draw i (WorldInterface.construct { seed := 124 })).a = false ∨
        Dbl.eq (WorldInterface.draw i (WorldInterface.construct { seed := 123 })).b
          (WorldInterface.draw i (WorldInterface.construct { seed := 124 })).b = false) :=
  ⟨by decide, by decide, by decide, by decide,
    (C14_seed_divergence 123 124 (by decide) (by decide)).2 (by decide)⟩

end raig
